import Mathlib

/-!
# vtv-parse-apigw-topo: a shallow embedding of `src/app.js`

The program reads a tree of JSON documents from an object store, assembles one
aggregate per configured deployment, and publishes nodes and edges to a topology
service.  The embedding keeps the source's function names.  Awaited calls are
sequential, so every `async function` is a plain function here; a raised
JavaScript exception is the `error` side of `Except JsError`.

Conventions of the embedding:

* a JavaScript string is a Lean `String` over the Basic Multilingual Plane, where
  one character is one UTF-16 code unit, so `length`, `lastIndexOf` and `substring`
  count characters;
* a JavaScript object is its list of own properties in insertion order; assigning to
  an existing key keeps the key's place (the engine's special order for
  integer-like keys, the key `__proto__` and reads of members that only
  `Object.prototype` defines are not modelled);
* a tree is a value: the embedding does not track that two places hold one and the
  same object, with one exception, the `environments` entries of `processCountry`,
  which are references to a single record. The publisher changes its input in one
  place only, the in-place expansion of a virtual host's property list, and yields
  the changed tree;
* a JSON number is carried as the text JavaScript renders it with, since the program
  never calculates with one;
* primitives of the host (`toUpperCase`, `Intl.DateTimeFormat`, comparison of a
  non-number with `0`) are fields of `Runtime`, so every theorem holds for each
  realisation of them.
-/

namespace ApigwTopo

/-! ## JavaScript values -/

/-- A JavaScript value that the program can hold: the result of `JSON.parse`,
`undefined` for an absent property, or an object the program builds itself. -/
inductive Value where
  | undefined
  | null
  | bool (b : Bool)
  | num (lit : String)
  | str (s : String)
  | arr (xs : List Value)
  | obj (fields : List (String × Value))
deriving Repr, Inhabited

/-- The exceptions the program can meet. `fetchError` is a rejected object-store
read or the `SyntaxError` of `JSON.parse` in `getObjectFromS3`. -/
inductive JsError where
  | typeError
  | referenceError
  | rangeError
  | fetchError
deriving Repr, DecidableEq, Inhabited

/-- Host primitives the program calls. -/
structure Runtime where
  /-- The method `String.prototype.toUpperCase`. -/
  toUpperCase : String → String
  /-- The helper `epochToHumanReadable` (source lines 125-138): `new Date(x)` rendered
  by `Intl.DateTimeFormat('de-DE', ...)`, which raises a `RangeError` on an invalid
  date. -/
  epochToHumanReadable : Value → Except JsError String
  /-- The comparison `v > 0` for a string, array or object `v`. -/
  looseGtZero : Value → Bool

/-- A concrete runtime for evaluating examples: uppercasing of ASCII letters, a
symbolic rendering of a time stamp, and `v > 0` false on non-numbers. -/
def refRuntime : Runtime where
  toUpperCase := fun s => ⟨s.data.map Char.toUpper⟩
  epochToHumanReadable := fun v =>
    match v with
    | .num lit => .ok ("date:" ++ lit)
    | _ => .error .rangeError
  looseGtZero := fun _ => false

/-! ## String primitives -/

/-- Scan for `lastIndexOf`: `i` is the index of the head, `acc` the last hit so far. -/
def lastIndexOfAux (c : Char) : List Char → Nat → Int → Int
  | [], _, acc => acc
  | x :: xs, i, acc => lastIndexOfAux c xs (i + 1) (if x = c then (i : Int) else acc)

/-- The call `string.lastIndexOf(c)` for a one-character pattern: the index of the last
occurrence, or `-1`. -/
def lastIndexOf (s : String) (c : Char) : Int :=
  lastIndexOfAux c s.data 0 (-1)

/-- Clamp an index into `[0, len]`, as `substring` does with each argument. -/
def clampIndex (i : Int) (len : Nat) : Nat :=
  min i.toNat len

/-- The call `string.substring(a, b)`: both indices clamped into the string, swapped
when `a > b`. -/
def substring (s : String) (a b : Int) : String :=
  let a' := clampIndex a s.data.length
  let b' := clampIndex b s.data.length
  ⟨(s.data.drop (min a' b')).take (max a' b' - min a' b')⟩

/-- Source lines 113-122: the helper that extracts the opco name from a deployment name. -/
def extractLettersAfterDash (rt : Runtime) (string : String) : Value :=
  let lastDashIndex := lastIndexOf string '-'
  if lastDashIndex ≠ -1 ∧ lastDashIndex + 3 ≤ (string.data.length : Int) then
    let extractedLetters := substring string (lastDashIndex + 1) (lastDashIndex + 3)
    .str (rt.toUpperCase extractedLetters)
  else
    .null

/-! ## Equality of values -/

mutual
/-- Decidable equality of values, by structural recursion. -/
def Value.decEq : (a b : Value) → Decidable (a = b)
  | .undefined, .undefined => isTrue rfl
  | .null, .null => isTrue rfl
  | .bool a, .bool b =>
    if h : a = b then isTrue (by rw [h]) else isFalse (by intro e; cases e; exact h rfl)
  | .num a, .num b =>
    if h : a = b then isTrue (by rw [h]) else isFalse (by intro e; cases e; exact h rfl)
  | .str a, .str b =>
    if h : a = b then isTrue (by rw [h]) else isFalse (by intro e; cases e; exact h rfl)
  | .arr a, .arr b =>
    match Value.decEqList a b with
    | isTrue h => isTrue (by rw [h])
    | isFalse h => isFalse (by intro e; cases e; exact h rfl)
  | .obj a, .obj b =>
    match Value.decEqFields a b with
    | isTrue h => isTrue (by rw [h])
    | isFalse h => isFalse (by intro e; cases e; exact h rfl)
  | .undefined, .null | .undefined, .bool _ | .undefined, .num _ | .undefined, .str _
  | .undefined, .arr _ | .undefined, .obj _ => isFalse (by intro e; cases e)
  | .null, .undefined | .null, .bool _ | .null, .num _ | .null, .str _
  | .null, .arr _ | .null, .obj _ => isFalse (by intro e; cases e)
  | .bool _, .undefined | .bool _, .null | .bool _, .num _ | .bool _, .str _
  | .bool _, .arr _ | .bool _, .obj _ => isFalse (by intro e; cases e)
  | .num _, .undefined | .num _, .null | .num _, .bool _ | .num _, .str _
  | .num _, .arr _ | .num _, .obj _ => isFalse (by intro e; cases e)
  | .str _, .undefined | .str _, .null | .str _, .bool _ | .str _, .num _
  | .str _, .arr _ | .str _, .obj _ => isFalse (by intro e; cases e)
  | .arr _, .undefined | .arr _, .null | .arr _, .bool _ | .arr _, .num _
  | .arr _, .str _ | .arr _, .obj _ => isFalse (by intro e; cases e)
  | .obj _, .undefined | .obj _, .null | .obj _, .bool _ | .obj _, .num _
  | .obj _, .str _ | .obj _, .arr _ => isFalse (by intro e; cases e)
/-- Decidable equality of lists of values. -/
def Value.decEqList : (a b : List Value) → Decidable (a = b)
  | [], [] => isTrue rfl
  | [], _ :: _ => isFalse (by intro e; cases e)
  | _ :: _, [] => isFalse (by intro e; cases e)
  | x :: xs, y :: ys =>
    match Value.decEq x y, Value.decEqList xs ys with
    | isTrue h, isTrue h' => isTrue (by rw [h, h'])
    | isFalse h, _ => isFalse (by intro e; cases e; exact h rfl)
    | _, isFalse h => isFalse (by intro e; cases e; exact h rfl)
/-- Decidable equality of property lists. -/
def Value.decEqFields : (a b : List (String × Value)) → Decidable (a = b)
  | [], [] => isTrue rfl
  | [], _ :: _ => isFalse (by intro e; cases e)
  | _ :: _, [] => isFalse (by intro e; cases e)
  | (k, x) :: xs, (l, y) :: ys =>
    if hk : k = l then
      match Value.decEq x y, Value.decEqFields xs ys with
      | isTrue h, isTrue h' => isTrue (by rw [hk, h, h'])
      | isFalse h, _ => isFalse (by intro e; cases e; exact h rfl)
      | _, isFalse h => isFalse (by intro e; cases e; exact h rfl)
    else isFalse (by intro e; cases e; exact hk rfl)
end

instance : DecidableEq Value := Value.decEq

/-- Decidable equality of outcomes. -/
instance instDecidableEqExcept {ε α : Type} [DecidableEq ε] [DecidableEq α] :
    DecidableEq (Except ε α)
  | .ok a, .ok b =>
    if h : a = b then isTrue (by rw [h]) else isFalse (by intro e; cases e; exact h rfl)
  | .error a, .error b =>
    if h : a = b then isTrue (by rw [h]) else isFalse (by intro e; cases e; exact h rfl)
  | .ok _, .error _ => isFalse (by intro e; cases e)
  | .error _, .ok _ => isFalse (by intro e; cases e)

/-! ## Object and value primitives -/

/-- The properties of an object, in insertion order. -/
abbrev Fields := List (String × Value)

/-- Read of an own property: `undefined` when the key is absent. -/
def lookup (k : String) : Fields → Value
  | [] => .undefined
  | (k', v) :: rest => if k' = k then v else lookup k rest

/-- The assignment `o[k] = v`: replaces the value of an existing key, appends a new one. -/
def setField (k : String) (v : Value) : Fields → Fields
  | [] => [(k, v)]
  | (k', v') :: rest => if k' = k then (k', v) :: rest else (k', v') :: setField k v rest

/-- The statement `delete o.k`. -/
def deleteField (k : String) (fs : Fields) : Fields :=
  fs.filter (fun kv => kv.1 ≠ k)

/-- JavaScript truthiness. A number is carried by its rendering, so zero (of either
sign) is `"0"`. -/
def Value.truthy : Value → Bool
  | .undefined => false
  | .null => false
  | .bool b => b
  | .num lit => lit ≠ "0" ∧ lit ≠ "NaN"
  | .str s => s ≠ ""
  | .arr _ => true
  | .obj _ => true

/-- Member access `v.k` for the keys this program reads (none of them is a member of
`Array.prototype` or `String.prototype` other than `length`): a `TypeError` on
`undefined` and `null`. -/
def Value.get (v : Value) (k : String) : Except JsError Value :=
  match v with
  | .undefined => .error .typeError
  | .null => .error .typeError
  | .obj fs => .ok (lookup k fs)
  | .arr xs => .ok (if k = "length" then .num (toString xs.length) else .undefined)
  | .str s => .ok (if k = "length" then .num (toString s.data.length) else .undefined)
  | .bool _ => .ok .undefined
  | .num _ => .ok .undefined

mutual
/-- The conversion to string of a template literal or a property key. An object
parsed from JSON has no callable `toString` of its own: when it has an own property
of that name the conversion raises a `TypeError`, otherwise it yields
`[object Object]`; an array joins its elements with commas. -/
def Value.toStr : Value → Except JsError String
  | .undefined => .ok "undefined"
  | .null => .ok "null"
  | .bool b => .ok (if b then "true" else "false")
  | .num lit => .ok lit
  | .str s => .ok s
  | .arr xs => Value.joinStr xs
  | .obj fs => if fs.any (fun kv => kv.1 = "toString") then .error .typeError
      else .ok "[object Object]"
/-- The method `Array.prototype.join` with a comma: `null` and `undefined` elements
render empty. -/
def Value.joinStr : List Value → Except JsError String
  | [] => .ok ""
  | [x] => Value.elemStr x
  | x :: y :: rest =>
    match Value.elemStr x with
    | .error e => .error e
    | .ok a =>
      match Value.joinStr (y :: rest) with
      | .error e => .error e
      | .ok b => .ok (a ++ "," ++ b)
/-- One element of a joined array. -/
def Value.elemStr : Value → Except JsError String
  | .undefined => .ok ""
  | .null => .ok ""
  | .bool b => .ok (if b then "true" else "false")
  | .num lit => .ok lit
  | .str s => .ok s
  | .arr xs => Value.joinStr xs
  | .obj fs => if fs.any (fun kv => kv.1 = "toString") then .error .typeError
      else .ok "[object Object]"
end

/-- The index keys `"i"`, `"i+1"`, ... of an array or string, paired with the elements. -/
def indexed : Nat → List Value → Fields
  | _, [] => []
  | i, x :: xs => (toString i, x) :: indexed (i + 1) xs

/-- The own enumerable properties that `Object.assign` and object spread copy from a
source value. -/
def ownEnumerable : Value → Fields
  | .obj fs => fs
  | .arr xs => indexed 0 xs
  | .str s => indexed 0 (s.data.map (fun c => Value.str (String.singleton c)))
  | _ => []

/-- The call `Object.assign(target, source)` on an object `target`. -/
def objectAssign (target : Fields) (source : Value) : Fields :=
  (ownEnumerable source).foldl (fun t kv => setField kv.1 kv.2 t) target

/-- The test `lit > 0` for a JSON number carried by its rendering. -/
def numPositive (lit : String) : Bool :=
  lit ≠ "0" ∧ lit ≠ "NaN" ∧ lit.data.head? ≠ some '-'

/-- The comparison `v > 0`. -/
def gtZero (rt : Runtime) : Value → Bool
  | .undefined => false
  | .null => false
  | .bool b => b
  | .num lit => numPositive lit
  | v => rt.looseGtZero v

/-- The guard `v && v.length > 0` that precedes each loop of the program. -/
def nonEmptyGuard (rt : Runtime) (v : Value) : Bool :=
  match v with
  | .arr xs => !xs.isEmpty
  | .str s => !s.data.isEmpty
  | .obj fs => gtZero rt (lookup "length" fs)
  | _ => false

/-- The values a `for (const x of v)` loop visits: the elements of an array, the
characters of a string; other values are not iterable. -/
def forOf (v : Value) : Except JsError (List Value) :=
  match v with
  | .arr xs => .ok xs
  | .str s => .ok (s.data.map (fun c => Value.str (String.singleton c)))
  | _ => .error .typeError

/-! ## Object store reader -/

/-- One object of the bucket: its key and the value `JSON.parse` gives for its body
(`none` when the body is not valid JSON). -/
structure S3Object where
  key : String
  body : Option Value
deriving Repr

/-- The bucket: its objects in the order a listing returns them. -/
abbrev Store := List S3Object

/-- The method `String.prototype.startsWith`. -/
def startsWith (s t : String) : Bool :=
  t.data.isPrefixOf s.data

/-- The method `String.prototype.endsWith`. -/
def endsWith (s t : String) : Bool :=
  t.data.isSuffixOf s.data

/-- The method `String.prototype.includes`. -/
def includes (s t : String) : Bool :=
  s.data.tails.any (fun u => t.data.isPrefixOf u)

/-- The call `key.replace(/[^/]+$/, r)`: the run of characters after the last slash is
replaced; a key that ends with a slash is left as it is. -/
def replaceLastSegment (s r : String) : String :=
  let rev := s.data.reverse
  if (rev.takeWhile (fun c => c ≠ '/')).isEmpty then s
  else ⟨(rev.dropWhile (fun c => c ≠ '/')).reverse ++ r.data⟩

/-- Source lines 93-100: `listObjectsV2` returns the objects under the key stem, at most
one thousand of them in one response. -/
def listObjectsFromS3 (store : Store) (stem : String) : List S3Object :=
  (store.filter (fun o => startsWith o.key stem)).take 1000

/-- Source lines 103-110: the read raises when the key is missing or the body does not
parse. -/
def getObjectFromS3 (store : Store) (key : String) : Except JsError Value :=
  match store.find? (fun o => o.key = key) with
  | some o =>
    match o.body with
    | some v => .ok v
    | none => .error .fetchError
  | none => .error .fetchError

/-! ## Topology assembler -/

/-- Source lines 166-171, the loop of `processProxy`. -/
def processProxyLoop (store : Store) : List S3Object → List Value → Except JsError (List Value)
  | [], proxies => .ok proxies
  | o :: rest, proxies =>
    if endsWith o.key ".json" && includes o.key "target-servers" then
      match getObjectFromS3 store o.key with
      | .error e => .error e
      | .ok targetServerData => processProxyLoop store rest (proxies ++ [targetServerData])
    else processProxyLoop store rest proxies

/-- Source lines 162-174. -/
def processProxy (store : Store) (proxyFolder : String) : Except JsError (List Value) :=
  processProxyLoop store (listObjectsFromS3 store proxyFolder) []

/-- Source lines 180-185, the loop of `processVirtualHosts`. -/
def processVirtualHostsLoop (store : Store) :
    List S3Object → List Value → Except JsError (List Value)
  | [], virtualHosts => .ok virtualHosts
  | o :: rest, virtualHosts =>
    if endsWith o.key ".json" then
      match getObjectFromS3 store o.key with
      | .error e => .error e
      | .ok virtualHostData => processVirtualHostsLoop store rest (virtualHosts ++ [virtualHostData])
    else processVirtualHostsLoop store rest virtualHosts

/-- Source lines 177-187. -/
def processVirtualHosts (store : Store) (environmentFolder : String) :
    Except JsError (List Value) :=
  processVirtualHostsLoop store
    (listObjectsFromS3 store (environmentFolder ++ "virtual-hosts/")) []

/-- The loop `property.forEach(prop => doc[prop.name] = prop.value)` of source lines
195-197 and 409-411, over the array taken before the first assignment. -/
def expandProperties (doc : Fields) : List Value → Except JsError Fields
  | [] => .ok doc
  | prop :: rest =>
    match prop.get "name", prop.get "value" with
    | .ok name, .ok value =>
      match name.toStr with
      | .ok key => expandProperties (setField key value doc) rest
      | .error e => .error e
    | .error e, _ => .error e
    | _, .error e => .error e

/-- Source lines 194-202 on the parsed document: the property list is expanded and
`properties` deleted; in every other case the function returns `null`. A truthy
`property` that is not an array has no `forEach`, which raises a `TypeError`. -/
def flattenEnvironmentData (environmentData : Value) : Except JsError Value :=
  match environmentData with
  | .obj fs =>
    let properties := lookup "properties" fs
    if properties.truthy then
      match properties.get "property" with
      | .error e => .error e
      | .ok property =>
        if property.truthy then
          match property with
          | .arr props =>
            match expandProperties fs props with
            | .ok fs' => .ok (.obj (deleteField "properties" fs'))
            | .error e => .error e
          | _ => .error .typeError
        else .ok .null
    else .ok .null
  | _ => .ok .null

/-- Source lines 190-203. -/
def processEnvironmentData (store : Store) (environmentFile : String) : Except JsError Value :=
  match getObjectFromS3 store environmentFile with
  | .error e => .error e
  | .ok environmentData => flattenEnvironmentData environmentData

/-- Source lines 206-215. `delete` changes objects only. -/
def processDeploymentData (store : Store) (deploymentFile : String) : Except JsError Value :=
  match getObjectFromS3 store deploymentFile with
  | .error e => .error e
  | .ok deploymentData =>
    if deploymentData.truthy then
      match deploymentData with
      | .obj fs => .ok (.obj (deleteField "environments" fs))
      | v => .ok v
    else .ok .null

/-- Source lines 254-258: `proxyData.targetServers = targetServers` followed by the
copy `{...proxyData}`. The assignment raises on `null`, is ignored on a primitive,
and adds a named property to an array. -/
def spreadWithTargetServers (proxyData : Value) (targetServers : List Value) :
    Except JsError Fields :=
  match proxyData with
  | .undefined => .error .typeError
  | .null => .error .typeError
  | .obj fs => .ok (setField "targetServers" (.arr targetServers) fs)
  | .arr xs => .ok (setField "targetServers" (.arr targetServers) (indexed 0 xs))
  | v => .ok (ownEnumerable v)

/-- Source line 256: `environmentObject.proxies.push(x)`, a `TypeError` unless `proxies`
holds an array. -/
def pushProxy (environmentObject : Fields) (x : Value) : Except JsError Fields :=
  match lookup "proxies" environmentObject with
  | .arr xs => .ok (setField "proxies" (.arr (xs ++ [x])) environmentObject)
  | _ => .error .typeError

/-- Source lines 248-260, the loop over the objects listed under the environment folder. -/
def processCountryProxies (store : Store) : List S3Object → Fields → Except JsError Fields
  | [], environmentObject => .ok environmentObject
  | o :: rest, environmentObject =>
    if endsWith o.key ".json" && includes o.key "proxies"
        && !includes o.key "target-servers" then
      match getObjectFromS3 store o.key with
      | .error e => .error e
      | .ok proxyData =>
        let proxyFolder := replaceLastSegment o.key "target-servers/"
        match processProxy store proxyFolder with
        | .error e => .error e
        | .ok targetServers =>
          match spreadWithTargetServers proxyData targetServers with
          | .error e => .error e
          | .ok copy =>
            match pushProxy environmentObject (.obj copy) with
            | .error e => .error e
            | .ok environmentObject' => processCountryProxies store rest environmentObject'
    else processCountryProxies store rest environmentObject

/-- Source lines 234-262, the loop over the configured environments. The one
`environmentObject` declared before the loop is threaded through the iterations;
`pushed` counts the references to it that `deploymentData.environments` has received. -/
def processCountryLoop (store : Store) (deployment : String) :
    List String → Fields → Nat → Except JsError (Fields × Nat)
  | [], environmentObject, pushed => .ok (environmentObject, pushed)
  | environment :: rest, environmentObject, pushed =>
    let environmentFolder := deployment ++ "/" ++ environment ++ "/"
    let environmentFile := environmentFolder ++ environment ++ ".json"
    let environmentObjects := listObjectsFromS3 store environmentFolder
    match processEnvironmentData store environmentFile with
    | .error e => .error e
    | .ok environmentData =>
      let merged := objectAssign environmentObject environmentData
      match processVirtualHosts store environmentFolder with
      | .error e => .error e
      | .ok virtualHosts =>
        let withHosts := setField "virtual-hosts" (.arr virtualHosts) merged
        match processCountryProxies store environmentObjects withHosts with
        | .error e => .error e
        | .ok environmentObject' =>
          processCountryLoop store deployment rest environmentObject' (pushed + 1)

/-- Source lines 218-264. Every entry of `environments` is a reference to the same
`environmentObject`, so each shows the object's final content. -/
def processCountry (rt : Runtime) (store : Store) (deployment : String)
    (environments : List String) : Except JsError Value :=
  let deploymentFile := deployment ++ "/" ++ deployment ++ ".json"
  match processDeploymentData store deploymentFile with
  | .error e => .error e
  | .ok deploymentDetails =>
    let opcoName := extractLettersAfterDash rt deployment
    match processCountryLoop store deployment environments
        [("proxies", .arr []), ("virtual-hosts", .arr [])] 0 with
    | .error e => .error e
    | .ok (environmentObject, pushed) =>
      .ok (.obj [("opco", opcoName), ("deployment", deploymentDetails),
        ("environments", .arr (List.replicate pushed (.obj environmentObject)))])

/-- Scan for `split`: `cur` holds the current piece, reversed. -/
def splitAux (sep : Char) : List Char → List Char → List String
  | [], cur => [⟨cur.reverse⟩]
  | c :: cs, cur =>
    if c = sep then ⟨cur.reverse⟩ :: splitAux sep cs [] else splitAux sep cs (c :: cur)

/-- The call `s.split(sep)` for a one-character separator. -/
def split (s : String) (sep : Char) : List String :=
  splitAux sep s.data []

/-- White space and line terminators of ECMAScript within the Basic Multilingual Plane. -/
def isJsSpace (c : Char) : Bool :=
  c.toNat ∈ [0x09, 0x0A, 0x0B, 0x0C, 0x0D, 0x20, 0xA0, 0x1680, 0x2028, 0x2029, 0x202F,
    0x205F, 0x3000, 0xFEFF] ∨ (0x2000 ≤ c.toNat ∧ c.toNat ≤ 0x200A)

/-- The method `String.prototype.trim`. -/
def trim (s : String) : String :=
  ⟨((s.data.dropWhile isJsSpace).reverse.dropWhile isJsSpace).reverse⟩

/-- Run configuration read from the environment: `APIGW_DEPLOYMENTS` and
`APIGW_DEPL_ENVS`, `none` for an unset variable. -/
structure Config where
  deployments : Option String
  environments : Option String

/-- The expression `v ? v.split(',').map(item => item.trim()) : []` of source lines
268-272; an empty string is falsy. -/
def configuredList (v : Option String) : List String :=
  match v with
  | none => []
  | some s => if s = "" then [] else (split s ',').map trim

/-- Source lines 274-277, the loop of `processAllDeployments`. -/
def processAllDeploymentsLoop (rt : Runtime) (store : Store) (envs : List String) :
    List String → List Value → Except JsError (List Value)
  | [], results => .ok results
  | country :: rest, results =>
    match processCountry rt store country envs with
    | .error e => .error e
    | .ok countryData => processAllDeploymentsLoop rt store envs rest (results ++ [countryData])

/-- Source lines 266-279. -/
def processAllDeployments (rt : Runtime) (store : Store) (cfg : Config) :
    Except JsError (List Value) :=
  processAllDeploymentsLoop rt store (configuredList cfg.environments)
    (configuredList cfg.deployments) []

/-! ## Publishing: the trace of a run -/

/-- The two destinations of `sendToTopoApi`: `AIOPS_RESOURCES_EP` for nodes and
`AIOPS_REFERENCES_EP` for edges. -/
inductive Endpoint where
  | resources
  | references
deriving Repr, DecidableEq, Inhabited

/-- One call of `sendToTopoApi`: the endpoint and the payload object. -/
structure Call where
  endpoint : Endpoint
  data : Value
deriving Repr, DecidableEq, Inhabited

/-- The console method a line is written with. -/
inductive Level where
  | log
  | error
  | warn
deriving Repr, DecidableEq, Inhabited

/-- One line of console output: its level and its message text (further arguments
such as an error object or a status code are not kept). -/
structure LogLine where
  level : Level
  text : String
deriving Repr, DecidableEq, Inhabited

/-- What a run has done so far: the publish calls and the console lines, oldest first. -/
structure Trace where
  calls : List Call
  console : List LogLine
deriving Repr, DecidableEq, Inhabited

/-- A step of the publisher: it reads and extends the trace, and either yields a value
or raises. The trace is kept when the step raises. -/
def Pub (α : Type) : Type :=
  Trace → Except JsError α × Trace

/-- A step that yields `a` and leaves the trace as it is. -/
def Pub.pure {α : Type} (a : α) : Pub α :=
  fun t => (.ok a, t)

/-- Sequencing: an exception of the first step ends the run. -/
def Pub.bind {α β : Type} (m : Pub α) (f : α → Pub β) : Pub β :=
  fun t =>
    match m t with
    | (.ok a, t') => f a t'
    | (.error e, t') => (.error e, t')

instance : Monad Pub where
  pure := Pub.pure
  bind := Pub.bind

/-- A pure computation that may raise, as a step. -/
def liftE {α : Type} (x : Except JsError α) : Pub α :=
  fun t => (x, t)

/-- A call of `console.log`, `console.error` or `console.warn`. -/
def consoleOut (level : Level) (text : String) : Pub Unit :=
  fun t => (.ok (), { t with console := t.console ++ [⟨level, text⟩] })

/-- A `for (const x of xs)` loop whose body yields the visited element as the body
left it. -/
def Pub.forEach {α β : Type} (f : α → Pub β) : List α → Pub (List β)
  | [] => Pub.pure []
  | x :: xs => Pub.bind (f x) (fun y => Pub.bind (Pub.forEach f xs) (fun ys => Pub.pure (y :: ys)))

/-- The outcome of each POST: `post i c` tells whether the call `c`, issued after `i`
earlier calls, succeeds. -/
abbrev PostOracle := Nat → Call → Bool

/-- Source lines 141-159: the POST is issued, its outcome is logged and returned; a
failure is caught here and never raised. -/
def sendToTopoApi (post : PostOracle) (endpoint : Endpoint) (data : Value) : Pub Bool :=
  fun t =>
    let call : Call := ⟨endpoint, data⟩
    if post t.calls.length call then
      (.ok true, { calls := t.calls ++ [call],
                   console := t.console ++ [⟨.log, "Successfully sent data to topology API!"⟩] })
    else
      (.ok false, { calls := t.calls ++ [call],
                    console := t.console ++ [⟨.log, "error"⟩,
                      ⟨.error, "Error sending data to topology API!"⟩] })

/-- The pattern `if (await sendToTopoApi(ep, data)) console.log(good) else
console.error(bad)` that follows every payload. -/
def sendAndReport (post : PostOracle) (endpoint : Endpoint) (data : Value)
    (good bad : String) : Pub Unit := do
  let ok ← sendToTopoApi post endpoint data
  if ok then consoleOut .log good else consoleOut .error bad

/-! ## Opco lookup -/

/-- The result of the GET of `fetchTopologyData`: a rejected request, or a response
with its parsed body. -/
inductive HttpGet where
  | failed
  | response (data : Value)
deriving Repr

/-- Source lines 75-77: the loop `_items.forEach(item => mapping[item.name] =
item.uniqueId)`. -/
def collectOpcos (mapping : Fields) : List Value → Except JsError Fields
  | [] => .ok mapping
  | item :: rest =>
    match item.get "name", item.get "uniqueId" with
    | .ok name, .ok uniqueId =>
      match name.toStr with
      | .ok key => collectOpcos (setField key uniqueId mapping) rest
      | .error e => .error e
    | .error e, _ => .error e
    | _, .error e => .error e

/-- Source lines 73-78 inside the `try`: a value without an `_items` array has no
`forEach`, which raises. -/
def opcoMapping (data : Value) : Except JsError Fields :=
  match data.get "_items" with
  | .error e => .error e
  | .ok (.arr items) => collectOpcos [] items
  | .ok _ => .error .typeError

/-- Source lines 61-91: the mapping from opco name to unique id, or `null` when the
request fails, the body is empty, or building the mapping raises. -/
def fetchTopologyData (topo : HttpGet) : Pub Value :=
  match topo with
  | .failed => do
    consoleOut .log "error"
    consoleOut .error "Error fetching topology data:"
    pure .null
  | .response data =>
    if data.truthy then
      match opcoMapping data with
      | .ok mapping => pure (.obj mapping)
      | .error _ => do
        consoleOut .log "error"
        consoleOut .error "Error fetching topology data:"
        pure .null
    else do
      consoleOut .error "Error collecting OPCOs from AIOps topology!"
      pure .null

/-! ## Topology publisher -/

/-- The statement `if (el.k) el.k = await epochToHumanReadable(el.k)` for a time
stamp key `k`. -/
def formatStamp (rt : Runtime) (k : String) (el : Fields) : Except JsError Fields :=
  if (lookup k el).truthy then
    match rt.epochToHumanReadable (lookup k el) with
    | .ok s => .ok (setField k (.str s) el)
    | .error e => .error e
  else .ok el

/-- Source lines 408-413: the property list of a virtual host is expanded in place and
`properties` deleted; a host without the list is left as it is. -/
def flattenVirtualHost (virtualHost : Value) : Except JsError Value :=
  match virtualHost with
  | .obj fs =>
    let properties := lookup "properties" fs
    if properties.truthy then
      match properties.get "property" with
      | .error e => .error e
      | .ok property =>
        if property.truthy then
          match property with
          | .arr props =>
            match expandProperties fs props with
            | .ok fs' => .ok (.obj (deleteField "properties" fs'))
            | .error e => .error e
          | _ => .error .typeError
        else .ok virtualHost
    else .ok virtualHost
  | v => .ok v

/-- An edge payload (source lines 329-333 and its four siblings). -/
def edgePayload (fromId toId : Value) (edgeType : String) : Value :=
  .obj [("_fromUniqueId", fromId), ("_toUniqueId", toId), ("_edgeType", .str edgeType)]

/-- Source lines 492-529, the body of the loop over the target servers of a proxy. -/
def publishTargetServer (post : PostOracle) (opcoName deploymentName envName proxyName : Value)
    (opcoS deploymentS envS proxyS proxyUniqueId : String) (targetServer : Value) :
    Pub Unit := do
  let targetServerName ← liftE (targetServer.get "name")
  let targetServerHost ← liftE (targetServer.get "host")
  let hostS ← liftE targetServerHost.toStr
  let targetServerUniqueId := opcoS ++ "_" ++ deploymentS ++ "_" ++ envS ++ "_" ++ hostS
  let nameS ← liftE targetServerName.toStr
  consoleOut .log ("Working on targetServer " ++ nameS ++ " for proxy " ++ proxyS
    ++ " for deployment " ++ deploymentS ++ " in environment " ++ envS ++ " in OPCO "
    ++ opcoS ++ "...")
  let targetServerTopoElement := objectAssign
    [("uniqueId", .str targetServerUniqueId), ("entityTypes", .arr [.str "backend"]),
     ("matchTokens", .arr [.str targetServerUniqueId]), ("opco", opcoName),
     ("environment", envName), ("deployment", deploymentName), ("proxy", proxyName),
     ("tags", .arr [deploymentName, envName, targetServerName, proxyName])] targetServer
  sendAndReport post .resources (.obj targetServerTopoElement)
    ("Successfully sent data for targetServer " ++ nameS ++ " of deployment " ++ deploymentS
      ++ " in environment " ++ envS ++ " in OPCO " ++ opcoS)
    ("Error sending data for targetServer " ++ nameS ++ " of deployment " ++ deploymentS
      ++ " in environment " ++ envS ++ " in OPCO " ++ opcoS)
  sendAndReport post .references
    (edgePayload (.str proxyUniqueId) (.str targetServerUniqueId) "runsOn")
    ("Successfully created relation from proxy " ++ proxyS ++ " to targetServer " ++ nameS)
    ("Error creating relation from proxy " ++ proxyS ++ " to targetServer " ++ nameS)

/-- Source lines 491-533: the guarded loop over the target servers of a proxy. -/
def publishTargetServers (rt : Runtime) (post : PostOracle)
    (opcoName deploymentName envName proxyName : Value)
    (opcoS deploymentS envS proxyS proxyUniqueId : String) (targetServers : Value) :
    Pub Unit :=
  if nonEmptyGuard rt targetServers then do
    let servers ← liftE (forOf targetServers)
    let _ ← Pub.forEach (publishTargetServer post opcoName deploymentName envName proxyName
      opcoS deploymentS envS proxyS proxyUniqueId) servers
    pure ()
  else
    consoleOut .warn ("No target servers found for proxy " ++ proxyS ++ " in deployment "
      ++ deploymentS ++ " in environment " ++ envS ++ " of OPCO " ++ opcoS ++ "!")

/-- Source lines 445-535, the body of the loop over the proxies of an environment. -/
def publishProxy (rt : Runtime) (post : PostOracle) (opcoName deploymentName envName : Value)
    (opcoS deploymentS envS envUniqueId : String) (proxy : Value) : Pub Unit := do
  let proxyName ← liftE (proxy.get "name")
  let proxyS ← liftE proxyName.toStr
  let proxyUniqueId := opcoS ++ "_" ++ deploymentS ++ "_" ++ envS ++ "_" ++ proxyS
  consoleOut .log ("Working on proxy " ++ proxyS ++ " for deployment " ++ deploymentS
    ++ " in environment " ++ envS ++ " in OPCO " ++ opcoS ++ "...")
  let assigned := objectAssign
    [("uniqueId", .str proxyUniqueId), ("entityTypes", .arr [.str "application"]),
     ("matchTokens", .arr [.str proxyUniqueId]), ("opco", opcoName),
     ("environment", envName), ("deployment", deploymentName),
     ("tags", .arr [deploymentName, envName, proxyName])] proxy
  let stripped := deleteField "targetServers" assigned
  let created ← liftE (formatStamp rt "createdAt" stripped)
  let proxyTopoElement ← liftE (formatStamp rt "lastModifiedAt" created)
  sendAndReport post .resources (.obj proxyTopoElement)
    ("Successfully sent data for proxy " ++ proxyS ++ " of deployment " ++ deploymentS
      ++ " in environment " ++ envS ++ " in OPCO " ++ opcoS)
    ("Error sending data for proxy " ++ proxyS ++ " of deployment " ++ deploymentS
      ++ " in environment " ++ envS ++ " in OPCO " ++ opcoS)
  sendAndReport post .references
    (edgePayload (.str envUniqueId) (.str proxyUniqueId) "uses")
    ("Successfully created relation from environment " ++ envS ++ " to proxy " ++ proxyS)
    ("Error creating relation from environment " ++ envS ++ " to proxy " ++ proxyS)
  let targetServers ← liftE (proxy.get "targetServers")
  publishTargetServers rt post opcoName deploymentName envName proxyName
    opcoS deploymentS envS proxyS proxyUniqueId targetServers

/-- Source lines 394-436, the body of the loop over the virtual hosts of an environment.
The name is read before the property list is expanded; the step yields the host as
the in-place expansion left it. -/
def publishVirtualHost (post : PostOracle) (opcoName deploymentName envName : Value)
    (opcoS deploymentS envS envUniqueId : String) (virtualHost : Value) : Pub Value := do
  let vHostName ← liftE (virtualHost.get "name")
  let vHostS ← liftE vHostName.toStr
  let vHostUniqueId := opcoS ++ "_" ++ deploymentS ++ "_" ++ envS ++ "_" ++ vHostS
  consoleOut .log ("Working on virtual host " ++ vHostS ++ " for deployment " ++ deploymentS
    ++ " in environment " ++ envS ++ " in OPCO " ++ opcoS ++ "...")
  let flattened ← liftE (flattenVirtualHost virtualHost)
  let vHostTopoElement := objectAssign
    [("uniqueId", .str vHostUniqueId), ("entityTypes", .arr [.str "host"]),
     ("matchTokens", .arr [.str vHostUniqueId]), ("opco", opcoName),
     ("environment", envName), ("deployment", deploymentName),
     ("tags", .arr [deploymentName, envName, vHostName])] flattened
  sendAndReport post .resources (.obj vHostTopoElement)
    ("Successfully sent data for virtual host " ++ vHostS ++ " of deployment " ++ deploymentS
      ++ " in environment " ++ envS ++ " in OPCO " ++ opcoS)
    ("Error sending data for virtual host " ++ vHostS ++ " of deployment " ++ deploymentS
      ++ " in environment " ++ envS ++ " in OPCO " ++ opcoS)
  sendAndReport post .references
    (edgePayload (.str envUniqueId) (.str vHostUniqueId) "contains")
    ("Successfully created relation from environment " ++ envS ++ " to virtual host " ++ vHostS)
    ("Error creating relation from environment " ++ envS ++ " to virtual host " ++ vHostS)
  pure flattened

/-- The environment object after its virtual hosts were expanded in place. -/
def withVirtualHosts (environment : Value) (hosts : List Value) : Value :=
  match environment with
  | .obj fs =>
    match lookup "virtual-hosts" fs with
    | .arr _ => .obj (setField "virtual-hosts" (.arr hosts) fs)
    | _ => environment
  | v => v

/-- Source lines 393-440: the guarded loop over the virtual hosts of an environment. It
yields the environment with its hosts as the loop left them. -/
def publishVirtualHosts (rt : Runtime) (post : PostOracle)
    (opcoName deploymentName envName : Value)
    (opcoS deploymentS envS envUniqueId : String) (environment virtualHosts : Value) :
    Pub Value :=
  if nonEmptyGuard rt virtualHosts then do
    let hosts ← liftE (forOf virtualHosts)
    let hosts' ← Pub.forEach (publishVirtualHost post opcoName deploymentName envName
      opcoS deploymentS envS envUniqueId) hosts
    pure (withVirtualHosts environment hosts')
  else do
    consoleOut .warn ("No virtual hosts found for for deployment " ++ deploymentS
      ++ " in environment " ++ envS ++ " of OPCO " ++ opcoS ++ "!")
    pure environment

/-- Source lines 444-539: the guarded loop over the proxies of an environment. -/
def publishProxies (rt : Runtime) (post : PostOracle)
    (opcoName deploymentName envName : Value)
    (opcoS deploymentS envS envUniqueId : String) (proxies : Value) : Pub Unit :=
  if nonEmptyGuard rt proxies then do
    let items ← liftE (forOf proxies)
    let _ ← Pub.forEach (publishProxy rt post opcoName deploymentName envName
      opcoS deploymentS envS envUniqueId) items
    pure ()
  else
    consoleOut .warn ("No proxies found for deployment " ++ deploymentS ++ " in environment "
      ++ envS ++ " of OPCO " ++ opcoS ++ "!")

/-- Source lines 346-541, the body of the loop over the environments of a deployment. -/
def publishEnvironment (rt : Runtime) (post : PostOracle) (opcoName deploymentName : Value)
    (opcoS deploymentS deploymentUniqueName : String) (environment : Value) : Pub Value := do
  let envName ← liftE (environment.get "name")
  let envS ← liftE envName.toStr
  let envUniqueId := opcoS ++ "_" ++ deploymentS ++ "_" ++ envS
  consoleOut .log ("Working on environment " ++ envS ++ " for deployment " ++ deploymentS
    ++ " in OPCO " ++ opcoS ++ "...")
  let assigned := objectAssign
    [("uniqueId", .str envUniqueId), ("entityTypes", .arr [.str "environment"]),
     ("matchTokens", .arr [.str envUniqueId]), ("opco", opcoName),
     ("deployment", deploymentName), ("tags", .arr [deploymentName, envName])] environment
  let created ← liftE (formatStamp rt "createdAt" assigned)
  let modified ← liftE (formatStamp rt "lastModifiedAt" created)
  let environmentTopoElement := deleteField "virtual-hosts" (deleteField "proxies" modified)
  sendAndReport post .resources (.obj environmentTopoElement)
    ("Successfully sent data for environment " ++ envS ++ " of deployment " ++ deploymentS
      ++ " in OPCO " ++ opcoS)
    ("Error sending data for environment " ++ envS ++ " of deployment " ++ deploymentS
      ++ " in OPCO " ++ opcoS)
  sendAndReport post .references
    (edgePayload (.str deploymentUniqueName) (.str envUniqueId) "runsOn")
    ("Successfully created relation from deployment " ++ deploymentS ++ " to environment "
      ++ envS)
    ("Error creating relation from deployment " ++ deploymentS ++ " to environment " ++ envS)
  let virtualHosts ← liftE (environment.get "virtual-hosts")
  let environment' ← publishVirtualHosts rt post opcoName deploymentName envName
    opcoS deploymentS envS envUniqueId environment virtualHosts
  let proxies ← liftE (environment.get "proxies")
  publishProxies rt post opcoName deploymentName envName opcoS deploymentS envS envUniqueId
    proxies
  pure environment'

/-- The aggregate after the virtual hosts of its environments were expanded in place. -/
def withEnvironments (opcoElement : Value) (environments : List Value) : Value :=
  match opcoElement with
  | .obj fs =>
    match lookup "environments" fs with
    | .arr _ => .obj (setField "environments" (.arr environments) fs)
    | _ => opcoElement
  | v => v

/-- Source lines 345-545: the guarded loop over the environments of a deployment. In
the branch of an aggregate without environments the argument `response.status` of
line 544 names a variable that is declared nowhere, so evaluating it raises a
`ReferenceError`. The step yields the aggregate as the loop left it. -/
def publishEnvironments (rt : Runtime) (post : PostOracle) (opcoName deploymentName : Value)
    (opcoS deploymentS deploymentUniqueName : String)
    (opcoElement environmentsDetails : Value) : Pub Value :=
  if nonEmptyGuard rt environmentsDetails then do
    let environments ← liftE (forOf environmentsDetails)
    let environments' ← Pub.forEach (publishEnvironment rt post opcoName deploymentName
      opcoS deploymentS deploymentUniqueName) environments
    pure (withEnvironments opcoElement environments')
  else
    liftE (.error .referenceError)

/-- Source lines 293-550, the body of the loop over the aggregates. -/
def publishDeployment (rt : Runtime) (post : PostOracle) (opcoTopoData : Fields)
    (opcoElement : Value) : Pub Value := do
  let opcoName ← liftE (opcoElement.get "opco")
  let opcoS ← liftE opcoName.toStr
  let opcoUniqueId := lookup opcoS opcoTopoData
  let deploymentDetails ← liftE (opcoElement.get "deployment")
  let deploymentName ← liftE (if deploymentDetails.truthy then deploymentDetails.get "name"
    else .ok deploymentDetails)
  let opcoIdS ← liftE opcoUniqueId.toStr
  if deploymentName.truthy then do
    let deploymentS ← liftE deploymentName.toStr
    consoleOut .log ("Working on OPCO with name " ++ opcoS ++ " and uniqueId " ++ opcoIdS
      ++ " for deployment " ++ deploymentS)
    let deploymentUniqueName := opcoS ++ "_" ++ deploymentS
    let assigned := objectAssign
      [("uniqueId", .str deploymentUniqueName), ("entityTypes", .arr [.str "deployment"]),
       ("matchTokens", .arr [.str deploymentUniqueName]), ("opco", opcoName),
       ("tags", .arr [deploymentName])] deploymentDetails
    let stripped := deleteField "properties" assigned
    let created ← liftE (formatStamp rt "createdAt" stripped)
    let deploymentTopoElement ← liftE (formatStamp rt "lastModifiedAt" created)
    sendAndReport post .resources (.obj deploymentTopoElement)
      ("Successfully sent data for deployment " ++ deploymentS ++ " in OPCO " ++ opcoS)
      ("Error sending data for deployment " ++ deploymentS ++ " in OPCO " ++ opcoS)
    sendAndReport post .references
      (edgePayload opcoUniqueId (.str deploymentUniqueName) "manages")
      ("Successfully created relation from OPCO " ++ opcoS ++ " to deployment " ++ deploymentS)
      ("Error creating relation from OPCO " ++ opcoS ++ " to deployment " ++ deploymentS ++ ":")
    let environmentsDetails ← liftE (opcoElement.get "environments")
    publishEnvironments rt post opcoName deploymentName opcoS deploymentS deploymentUniqueName
      opcoElement environmentsDetails
  else do
    consoleOut .error ("No deployment found for OPCO with name " ++ opcoS ++ " and uniqueId "
      ++ opcoIdS ++ " !")
    pure opcoElement

/-- The array after the virtual hosts of its aggregates were expanded in place. -/
def withElements (data : Value) (items : List Value) : Value :=
  match data with
  | .arr _ => .arr items
  | v => v

/-- Source lines 288-551: without the opco mapping nothing is sent; with it, the loop
over the aggregates runs. -/
def publishAll (rt : Runtime) (post : PostOracle) (data opcoTopoData : Value) : Pub Value :=
  match opcoTopoData with
  | .obj mapping => do
    let items ← liftE (forOf data)
    let items' ← Pub.forEach (publishDeployment rt post mapping) items
    pure (withElements data items')
  | _ => do
    consoleOut .error "No OCPO data found in AIOps! No topology will be send to AIOps!"
    pure data

/-- Source lines 282-556. The step yields the input as the run left it (virtual hosts
expanded in place). -/
def transformDataAndSendToApi (rt : Runtime) (topo : HttpGet) (post : PostOracle)
    (data : Value) : Pub Value := do
  if nonEmptyGuard rt data then do
    let len ← liftE (data.get "length")
    let lenS ← liftE len.toStr
    consoleOut .log ("Extracted " ++ lenS ++ " OPCO item(s)...")
    let opcoTopoData ← fetchTopologyData topo
    publishAll rt post data opcoTopoData
  else do
    consoleOut .error
      "No data found in S3 bucket. Please see previous log messages for error details."
    pure data

/-- A run of the publisher from an empty trace: its outcome and everything it did. -/
def runPublisher (rt : Runtime) (topo : HttpGet) (post : PostOracle) (data : Value) :
    Except JsError Value × Trace :=
  transformDataAndSendToApi rt topo post data ⟨[], []⟩

/-! ## Example inputs -/

/-- An environment document with the property list `a = 1`, `b = 2`. -/
def abDocument : Value :=
  .obj [("properties", .obj [("property",
    .arr [.obj [("name", .str "a"), ("value", .str "1")],
          .obj [("name", .str "b"), ("value", .str "2")]])])]

/-- A bucket that holds `abDocument` as the document of environment `e` of deployment `d`. -/
def abStore : Store :=
  [⟨"d/e/e.json", some abDocument⟩]

/-- A bucket whose environment document has one property, named `properties`. -/
def selfNamedStore : Store :=
  [⟨"d/e/e.json", some (.obj [("properties", .obj [("property",
    .arr [.obj [("name", .str "properties"), ("value", .str "x")]])])])⟩]

/-- A bucket with deployment `apigw-nl` and environment `prod`, whose environment
document has a name and no property list. -/
def plainEnvStore : Store :=
  [⟨"apigw-nl/apigw-nl.json", some (.obj [("name", .str "apigw-nl")])⟩,
   ⟨"apigw-nl/prod/prod.json", some (.obj [("name", .str "prod")])⟩]

/-- The end-to-end scenario of the specification: deployment `apigw-nl` of opco `NL`
with environment `prod`, virtual host `vh1`, proxy `px1` and its target server `ts1`
at host `1.2.3.4`. -/
def scenarioData : Value :=
  .arr [.obj [("opco", .str "NL"), ("deployment", .obj [("name", .str "apigw-nl")]),
    ("environments", .arr [.obj [
      ("proxies", .arr [.obj [("name", .str "px1"),
        ("targetServers", .arr [.obj [("name", .str "ts1"), ("host", .str "1.2.3.4")]])]]),
      ("virtual-hosts", .arr [.obj [("name", .str "vh1")]]),
      ("name", .str "prod")]])]]

/-- The body of the opco lookup of the scenario: one opco, `NL`, with the identifier
`opco-123`. -/
def scenarioBody : Value :=
  .obj [("_items", .arr [.obj [("name", .str "NL"), ("uniqueId", .str "opco-123")]])]

/-- The opco lookup of the scenario: a response that maps `NL` to `opco-123`. -/
def scenarioLookup : HttpGet :=
  .response scenarioBody

/-- Two aggregates with a deployment name and no environment, as `processCountry`
builds them when no environment is configured. -/
def noEnvironmentData : Value :=
  .arr [.obj [("opco", .str "NL"), ("deployment", .obj [("name", .str "apigw-nl")]),
          ("environments", .arr [])],
        .obj [("opco", .str "DE"), ("deployment", .obj [("name", .str "apigw-de")]),
          ("environments", .arr [])]]

/-! ## Properties of runs -/

/-- The console lines that `sendAndReport` writes, by the outcome of the POST. -/
def reportLines (ok : Bool) (good bad : String) : List LogLine :=
  if ok then [⟨.log, "Successfully sent data to topology API!"⟩, ⟨.log, good⟩]
  else [⟨.log, "error"⟩, ⟨.error, "Error sending data to topology API!"⟩, ⟨.error, bad⟩]

/-- A step that issues no publish call, whatever its outcome. -/
def Silent {α : Type} (m : Pub α) : Prop :=
  ∀ t, (m t).2.calls = t.calls

/-- The opco lookup fails: the request is rejected, or the response body is empty
(falsy). -/
def LookupFails (topo : HttpGet) : Prop :=
  topo = .failed ∨ ∃ d, topo = .response d ∧ d.truthy = false

/-- Two steps that, started from traces with the same calls, end with the same outcome
and the same calls. -/
def SameCalls {α : Type} (m₁ m₂ : Pub α) : Prop :=
  ∀ t₁ t₂ : Trace, t₁.calls = t₂.calls →
    (m₁ t₁).1 = (m₂ t₂).1 ∧ (m₁ t₁).2.calls = (m₂ t₂).2.calls


/-! ## Reading a tree and a call log -/

/-- The elements a loop of the program visits in `v`; none when `v` is not iterable. -/
def elems (v : Value) : List Value :=
  match forOf v with
  | .ok xs => xs
  | .error _ => []

/-- The member `v.k`, `undefined` where the access would raise. -/
def field (k : String) (v : Value) : Value :=
  match v.get k with
  | .ok x => x
  | .error _ => .undefined

/-- The member `k` of the payload of a call. -/
def Call.field (k : String) (c : Call) : Value :=
  ApigwTopo.field k c.data

/-- The document has an own attribute named `k`, which `Object.assign` copies. -/
def carries (k : String) (doc : Value) : Bool :=
  (ownEnumerable doc).any (fun kv => kv.1 = k)

/-- The `properties.property` list of a virtual host, empty when it has none. -/
def propertyList (virtualHost : Value) : List Value :=
  match virtualHost with
  | .obj fs =>
    match lookup "properties" fs with
    | .obj ps =>
      match lookup "property" ps with
      | .arr props => props
      | _ => []
    | _ => []
  | _ => []

/-- The property `p` of a list assigns the key `k`. -/
def propertyNamed (k : String) (p : Value) : Bool :=
  match p.get "name" with
  | .ok n => decide (n.toStr = .ok k)
  | .error _ => false

/-- The virtual host has an own attribute named `k`, or a property of that name. -/
def hostCarries (k : String) (virtualHost : Value) : Bool :=
  carries k virtualHost || (propertyList virtualHost).any (propertyNamed k)

/-- The proxy or one of its target servers has an own attribute named `k`. -/
def proxyCarries (k : String) (proxy : Value) : Bool :=
  carries k proxy || (elems (field "targetServers" proxy)).any (carries k)

/-- The environment, one of its virtual hosts, proxies or target servers has an
attribute named `k`. -/
def environmentCarries (k : String) (environment : Value) : Bool :=
  carries k environment ||
    (elems (field "virtual-hosts" environment)).any (hostCarries k) ||
    (elems (field "proxies" environment)).any (proxyCarries k)

/-- The deployment document of the aggregate, or a document below it, has an attribute
named `k`. -/
def aggregateCarries (k : String) (opcoElement : Value) : Bool :=
  carries k (field "deployment" opcoElement) ||
    (elems (field "environments" opcoElement)).any (environmentCarries k)

/-- Some source document of the tree (deployment, environment, virtual host, proxy or
target server) has an attribute named `k`; for a virtual host also a property. -/
def treeCarries (k : String) (data : Value) : Bool :=
  (elems data).any (aggregateCarries k)

/-- Node before edge, with identical identifiers: every edge call of the log is preceded
by a node call whose `uniqueId` is the edge's `_toUniqueId`, and, unless the edge has
type `manages` (opco to deployment), by a node call whose `uniqueId` is the edge's
`_fromUniqueId`. -/
def NodeBeforeEdge (calls : List Call) : Prop :=
  ∀ pre e post, calls = pre ++ e :: post → e.endpoint = .references →
    (∃ n ∈ pre, n.endpoint = .resources ∧ n.field "uniqueId" = e.field "_toUniqueId") ∧
    (e.field "_edgeType" ≠ .str "manages" →
      ∃ n ∈ pre, n.endpoint = .resources ∧ n.field "uniqueId" = e.field "_fromUniqueId")

/-- The log satisfies `NodeBeforeEdge` and holds a node call for each identifier of
`ids`. -/
def NodesSent (ids : List String) (calls : List Call) : Prop :=
  NodeBeforeEdge calls ∧
    ∀ id ∈ ids, ∃ n ∈ calls, n.endpoint = .resources ∧ n.field "uniqueId" = .str id

/-- Whatever its outcome, the step takes a log that satisfies `P` to one that
satisfies `Q`. -/
def Keeps {α : Type} (P Q : List Call → Prop) (m : Pub α) : Prop :=
  ∀ t, P t.calls → Q (m t).2.calls

/-- A deployment document that carries an attribute `uniqueId` of its own. -/
def overriddenIdData : Value :=
  .arr [.obj [("opco", .str "NL"),
    ("deployment", .obj [("name", .str "apigw-nl"), ("uniqueId", .str "x")]),
    ("environments", .arr [.obj [("proxies", .arr []), ("virtual-hosts", .arr []),
      ("name", .str "prod")]])]]

/-! ## The expected order of calls -/

/-- What the claims read off a call: of a node call its `uniqueId` and `entityTypes`,
of an edge call its `_fromUniqueId`, `_toUniqueId` and `_edgeType`. -/
abbrev Summary := Endpoint × List Value

/-- The summary of a call of the log. -/
def Call.summary (c : Call) : Summary :=
  match c.endpoint with
  | .resources => (.resources, [c.field "uniqueId", c.field "entityTypes"])
  | .references =>
    (.references, [c.field "_fromUniqueId", c.field "_toUniqueId", c.field "_edgeType"])

/-- A node call for the identifier `id` with the one entity type `ty`. -/
def nodeOf (id ty : String) : Summary :=
  (.resources, [.str id, .arr [.str ty]])

/-- An edge call from `fromId` to `toId` with relation `ty`. -/
def edgeOf (fromId : Value) (toId ty : String) : Summary :=
  (.references, [fromId, .str toId, .str ty])

/-- The text of a value inside an identifier, empty where the conversion would raise. -/
def Value.text (v : Value) : String :=
  match v.toStr with
  | .ok s => s
  | .error _ => ""

/-- The value converts to a string without raising. -/
def printable (v : Value) : Bool :=
  match v.toStr with
  | .ok _ => true
  | .error _ => false

/-- C1, target server: the backend node, identified by the environment identifier and
the `host` field, then the edge proxy `runsOn` backend. -/
def expectedTargetServer (envId proxyId : String) (targetServer : Value) : List Summary :=
  let id := envId ++ "_" ++ (field "host" targetServer).text
  [nodeOf id "backend", edgeOf (.str proxyId) id "runsOn"]

/-- C1, proxy: the application node, the edge environment `uses` proxy, then each
target server in order. -/
def expectedProxy (envId : String) (proxy : Value) : List Summary :=
  let id := envId ++ "_" ++ (field "name" proxy).text
  [nodeOf id "application", edgeOf (.str envId) id "uses"] ++
    (elems (field "targetServers" proxy)).flatMap (expectedTargetServer envId id)

/-- C1, virtual host: the host node, then the edge environment `contains` host. -/
def expectedVirtualHost (envId : String) (virtualHost : Value) : List Summary :=
  let id := envId ++ "_" ++ (field "name" virtualHost).text
  [nodeOf id "host", edgeOf (.str envId) id "contains"]

/-- C1, environment: the environment node, the edge deployment `runsOn` environment,
then each virtual host in order, then each proxy in order. -/
def expectedEnvironment (deploymentId : String) (environment : Value) : List Summary :=
  let id := deploymentId ++ "_" ++ (field "name" environment).text
  [nodeOf id "environment", edgeOf (.str deploymentId) id "runsOn"] ++
    (elems (field "virtual-hosts" environment)).flatMap (expectedVirtualHost id) ++
    (elems (field "proxies" environment)).flatMap (expectedProxy id)

/-- C1, deployment: the deployment node, the edge opco `manages` deployment whose source
is the mapped identifier of the opco, then each environment in order. -/
def expectedDeployment (mapping : Fields) (opcoElement : Value) : List Summary :=
  let opco := (field "opco" opcoElement).text
  let id := opco ++ "_" ++ (field "name" (field "deployment" opcoElement)).text
  [nodeOf id "deployment", edgeOf (lookup opco mapping) id "manages"] ++
    (elems (field "environments" opcoElement)).flatMap (expectedEnvironment id)

/-- C1: the calls of a run, deployment by deployment in input order. -/
def expectedCalls (mapping : Fields) (data : Value) : List Summary :=
  (elems data).flatMap (expectedDeployment mapping)

/-! ## Well-formed trees -/

/-- Every truthy `createdAt` and `lastModifiedAt` of the document is a time stamp the
runtime can format. -/
def stampsOk (rt : Runtime) (doc : Fields) : Bool :=
  doc.all fun kv =>
    !(kv.1 = "createdAt" || kv.1 = "lastModifiedAt") || !kv.2.truthy ||
      (match rt.epochToHumanReadable kv.2 with
       | .ok _ => true
       | .error _ => false)

/-- The collection is absent or an array whose elements satisfy `p`. -/
def arrayOf (p : Value → Bool) (v : Value) : Bool :=
  match v with
  | .undefined => true
  | .arr xs => xs.all p
  | _ => false

/-- A target server document: an object whose `name` and `host` convert to text. -/
def targetServerOk (targetServer : Value) : Bool :=
  match targetServer with
  | .obj fs => printable (lookup "name" fs) && printable (lookup "host" fs)
  | _ => false

/-- A proxy document: an object with a printable `name`, formattable time stamps and
target server documents. -/
def proxyOk (rt : Runtime) (proxy : Value) : Bool :=
  match proxy with
  | .obj fs => printable (lookup "name" fs) && stampsOk rt fs &&
      arrayOf targetServerOk (lookup "targetServers" fs)
  | _ => false

/-- An entry of a property list: an object with a printable `name`. -/
def propertyOk (p : Value) : Bool :=
  match p with
  | .obj pfs => printable (lookup "name" pfs)
  | _ => false

/-- The `properties` of a document are absent, or an object whose `property` is absent
or a list of entries. -/
def propertiesOk (fs : Fields) : Bool :=
  match lookup "properties" fs with
  | .undefined => true
  | .obj ps =>
    match lookup "property" ps with
    | .undefined => true
    | .arr props => props.all propertyOk
    | _ => false
  | _ => false

/-- A virtual host document: an object with a printable `name` and a well-formed
property list that does not redefine `name`, so that the host has one name before and
after the expansion of the list. -/
def virtualHostOk (virtualHost : Value) : Bool :=
  match virtualHost with
  | .obj fs => printable (lookup "name" fs) && propertiesOk fs &&
      !(propertyList virtualHost).any (propertyNamed "name")
  | _ => false

/-- An environment record: an object with a printable `name`, formattable time stamps,
virtual host documents and proxy documents. -/
def environmentOk (rt : Runtime) (environment : Value) : Bool :=
  match environment with
  | .obj fs => printable (lookup "name" fs) && stampsOk rt fs &&
      arrayOf virtualHostOk (lookup "virtual-hosts" fs) &&
      arrayOf (proxyOk rt) (lookup "proxies" fs)
  | _ => false

/-- An aggregate: an object with a printable `opco`, a deployment document and an
array of environment records. -/
def aggregateOk (rt : Runtime) (opcoElement : Value) : Bool :=
  match opcoElement with
  | .obj fs => printable (lookup "opco" fs) &&
      (match lookup "deployment" fs with
       | .obj d => printable (lookup "name" d) && stampsOk rt d
       | _ => false) &&
      (match lookup "environments" fs with
       | .arr envs => envs.all (environmentOk rt)
       | _ => false)
  | _ => false

/-- An assembled sequence of well-formed documents. -/
def wellFormed (rt : Runtime) (data : Value) : Bool :=
  match data with
  | .arr aggs => aggs.all (aggregateOk rt)
  | _ => false

/-- Every aggregate has a present (truthy) `deployment.name` and at least one
environment. -/
def namedWithEnvironments (data : Value) : Bool :=
  (elems data).all fun agg =>
    (field "name" (field "deployment" agg)).truthy &&
      !(elems (field "environments" agg)).isEmpty

/-- The step completes from every trace, and the calls it adds have the summaries
`notes`. -/
def EmitsAs {α : Type} (m : Pub α) (notes : List Summary) : Prop :=
  ∀ t, ∃ a t', m t = (.ok a, t') ∧ ∃ cs, t'.calls = t.calls ++ cs ∧ cs.map Call.summary = notes

/-- A virtual host document that carries an attribute `uniqueId` of its own, in the
end-to-end scenario. -/
def overriddenHostData : Value :=
  .arr [.obj [("opco", .str "NL"), ("deployment", .obj [("name", .str "apigw-nl")]),
    ("environments", .arr [.obj [("proxies", .arr []),
      ("virtual-hosts", .arr [.obj [("name", .str "vh1"), ("uniqueId", .str "zzz")]]),
      ("name", .str "prod")]])]]

/-! ## Buckets the assembler can read -/

/-- The deployment document at `name/name.json`, as `processCountry` names it. -/
def deploymentFileOf (name : String) : String :=
  name ++ "/" ++ name ++ ".json"

/-- The environment document at `name/env/env.json`, as `processCountry` names it. -/
def environmentFileOf (name env : String) : String :=
  name ++ "/" ++ env ++ "/" ++ env ++ ".json"

/-- All reads of a run succeed on well-formed documents: every object of the bucket
parses to a JSON object, every configured deployment has its document, and every
configured environment of it has a document whose property list is well formed and
which does not define `proxies` itself. -/
def storeReady (store : Store) (cfg : Config) : Bool :=
  store.all (fun o =>
    match o.body with
    | some (.obj _) => true
    | _ => false) &&
  (configuredList cfg.deployments).all (fun name =>
    (match getObjectFromS3 store (deploymentFileOf name) with
     | .ok _ => true
     | .error _ => false) &&
    (configuredList cfg.environments).all (fun env =>
      match getObjectFromS3 store (environmentFileOf name env) with
      | .ok (.obj fs) => propertiesOk fs && !hostCarries "proxies" (.obj fs)
      | _ => false))

/-- The aggregate that the claim describes for the deployment `name`: the opco code of
the name, the deployment document without its `environments` field, and one record
per configured environment. -/
def AggregateFor (rt : Runtime) (store : Store) (envs : List String) (name : String)
    (agg : Value) : Prop :=
  ∃ doc deployment records,
    getObjectFromS3 store (deploymentFileOf name) = .ok doc ∧
    (∀ fs, doc = .obj fs → deployment = .obj (deleteField "environments" fs)) ∧
    records.length = envs.length ∧
    agg = .obj [("opco", extractLettersAfterDash rt name), ("deployment", deployment),
      ("environments", .arr records)]

/-- A bucket with deployment `apigw-nl` and the environments `prod` (attribute `tier`,
proxy `px1`) and `test` (proxy `px2`). -/
def twoEnvStore : Store :=
  [⟨"apigw-nl/apigw-nl.json", some (.obj [("name", .str "apigw-nl"),
      ("environments", .arr [.str "prod", .str "test"])])⟩,
   ⟨"apigw-nl/prod/prod.json", some (.obj [("name", .str "prod"),
      ("properties", .obj [("property",
        .arr [.obj [("name", .str "tier"), ("value", .str "gold")]])])])⟩,
   ⟨"apigw-nl/prod/proxies/px1/px1.json", some (.obj [("name", .str "px1")])⟩,
   ⟨"apigw-nl/test/test.json", some (.obj [("name", .str "test"),
      ("properties", .obj [("property", .arr [])])])⟩,
   ⟨"apigw-nl/test/proxies/px2/px2.json", some (.obj [("name", .str "px2")])⟩]

/-- The configuration for `twoEnvStore`. -/
def twoEnvConfig : Config :=
  ⟨some "apigw-nl", some "prod, test"⟩

/-! ## Further example inputs -/

/-- A bucket that holds the documents of deployment `apigw-de` only: the document
`apigw-nl/apigw-nl.json` is missing. -/
def missingDeploymentStore : Store :=
  [⟨"apigw-de/apigw-de.json", some (.obj [("name", .str "apigw-de")])⟩]

/-- The configuration with the deployments `apigw-nl` and `apigw-de` and no
environment. -/
def missingDeploymentConfig : Config :=
  ⟨some "apigw-nl,apigw-de", none⟩

/-! ## Comparing two runs -/

/-- Two outcomes end alike: both raise the same exception, or both yield, with results
related by `R`. -/
def endAlike {α β : Type} (R : α → β → Prop) : Except JsError α → Except JsError β → Prop
  | .ok a, .ok b => R a b
  | .error e₁, .error e₂ => e₁ = e₂
  | _, _ => False

/-- Two steps that, from any two traces, add the same publish calls and end alike. -/
def Replays {α β : Type} (R : α → β → Prop) (m₁ : Pub α) (m₂ : Pub β) : Prop :=
  ∀ t₁ t₂ : Trace, ∃ cs, (m₁ t₁).2.calls = t₁.calls ++ cs ∧ (m₂ t₂).2.calls = t₂.calls ++ cs ∧
    endAlike R (m₁ t₁).1 (m₂ t₂).1

/-- Whenever the step completes, what it yields satisfies `Q`. -/
def Yields {α : Type} (m : Pub α) (Q : α → Prop) : Prop :=
  ∀ t a t', m t = (.ok a, t') → Q a

/-- What the publisher reads of a virtual host: its `name` and its expansion. -/
def HostAlike (vh vh' : Value) : Prop :=
  vh'.get "name" = vh.get "name" ∧ flattenVirtualHost vh' = flattenVirtualHost vh

/-- The two collections are one value, or arrays whose elements are related in pairs. -/
def ListAlike (R : Value → Value → Prop) (v v' : Value) : Prop :=
  v' = v ∨ ∃ xs xs', v = .arr xs ∧ v' = .arr xs' ∧ List.Forall₂ R xs xs'

/-- The two property lists have the same keys in the same order, and the same values
except under the key `k`. -/
def AwayFrom (k : String) (fs fs' : Fields) : Prop :=
  List.Forall₂ (fun p q => p.1 = q.1 ∧ (p.1 ≠ k → p.2 = q.2)) fs fs'

/-- What the publisher reads of an environment record: its `name`, its `proxies`, its
own properties other than `virtual-hosts`, and its virtual hosts as far as `HostAlike`
tells them apart. -/
def EnvironmentAlike (env env' : Value) : Prop :=
  env'.get "name" = env.get "name" ∧ env'.get "proxies" = env.get "proxies" ∧
  AwayFrom "virtual-hosts" (ownEnumerable env) (ownEnumerable env') ∧
  endAlike (ListAlike HostAlike) (env.get "virtual-hosts") (env'.get "virtual-hosts")

/-- What the publisher reads of an aggregate: its `opco`, its `deployment`, and its
environments as far as `EnvironmentAlike` tells them apart. -/
def AggregateAlike (agg agg' : Value) : Prop :=
  agg'.get "opco" = agg.get "opco" ∧ agg'.get "deployment" = agg.get "deployment" ∧
  endAlike (ListAlike EnvironmentAlike) (agg.get "environments") (agg'.get "environments")

/-- No virtual host of the tree has a property named `name` in its property list. -/
def hostsKeepName (data : Value) : Bool :=
  (elems data).all fun agg =>
    (elems (field "environments" agg)).all fun env =>
      (elems (field "virtual-hosts" env)).all fun vh =>
        !(propertyList vh).any (propertyNamed "name")

/-- The end-to-end scenario with one virtual host `vh0` whose property list holds a
property named `name`. -/
def renamingHostData : Value :=
  .arr [.obj [("opco", .str "NL"), ("deployment", .obj [("name", .str "apigw-nl")]),
    ("environments", .arr [.obj [("proxies", .arr []),
      ("virtual-hosts", .arr [.obj [("name", .str "vh0"),
        ("properties", .obj [("property",
          .arr [.obj [("name", .str "name"), ("value", .str "vh1")]])])]]),
      ("name", .str "prod")]])]]

/-- The tree `renamingHostData` after a run of the publisher: the property list of the
virtual host is expanded. -/
def renamedHostData : Value :=
  .arr [.obj [("opco", .str "NL"), ("deployment", .obj [("name", .str "apigw-nl")]),
    ("environments", .arr [.obj [("proxies", .arr []),
      ("virtual-hosts", .arr [.obj [("name", .str "vh1")]]),
      ("name", .str "prod")]])]]

/-- The end-to-end scenario without its proxy, and with the property list of its
virtual host still unexpanded: one property, `port`. -/
def unexpandedHostData : Value :=
  .arr [.obj [("opco", .str "NL"), ("deployment", .obj [("name", .str "apigw-nl")]),
    ("environments", .arr [.obj [("proxies", .arr []),
      ("virtual-hosts", .arr [.obj [("name", .str "vh1"),
        ("properties", .obj [("property",
          .arr [.obj [("name", .str "port"), ("value", .str "443")]])])]]),
      ("name", .str "prod")]])]]

/-- The tree `unexpandedHostData` after a run of the publisher. -/
def expandedHostData : Value :=
  .arr [.obj [("opco", .str "NL"), ("deployment", .obj [("name", .str "apigw-nl")]),
    ("environments", .arr [.obj [("proxies", .arr []),
      ("virtual-hosts", .arr [.obj [("name", .str "vh1"), ("port", .str "443")]]),
      ("name", .str "prod")]])]]

/-- The one aggregate of the end-to-end scenario. -/
def scenarioAggregate : Value :=
  .obj [("opco", .str "NL"), ("deployment", .obj [("name", .str "apigw-nl")]),
    ("environments", .arr [.obj [
      ("proxies", .arr [.obj [("name", .str "px1"),
        ("targetServers", .arr [.obj [("name", .str "ts1"), ("host", .str "1.2.3.4")]])]]),
      ("virtual-hosts", .arr [.obj [("name", .str "vh1")]]),
      ("name", .str "prod")]])]

/-! ## Composed identifiers -/

/-- The `uniqueId` of the node calls of a log, in the order of the log. -/
def nodeIds (calls : List Call) : List Value :=
  (calls.filter (fun c => c.endpoint = .resources)).map (Call.field "uniqueId")

/-- The identifiers below a proxy: the proxy's, which is the environment's followed by
`_` and the proxy's name, then one per target server, which is the environment's
followed by `_` and the target server's `host`. -/
def proxyIds (envId : String) (proxy : Value) : List String :=
  (envId ++ "_" ++ (field "name" proxy).text) ::
    (elems (field "targetServers" proxy)).map
      (fun targetServer => envId ++ "_" ++ (field "host" targetServer).text)

/-- The identifiers below an environment: the environment's, which is the deployment's
followed by `_` and the environment's name, then one per virtual host (the
environment's followed by `_` and the host's name), then those of each proxy. -/
def environmentIds (deploymentId : String) (environment : Value) : List String :=
  (deploymentId ++ "_" ++ (field "name" environment).text) ::
    ((elems (field "virtual-hosts" environment)).map
        (fun virtualHost =>
          deploymentId ++ "_" ++ (field "name" environment).text ++ "_" ++
            (field "name" virtualHost).text) ++
      (elems (field "proxies" environment)).flatMap
        (proxyIds (deploymentId ++ "_" ++ (field "name" environment).text)))

/-- The identifiers below an aggregate with a present deployment name: the
deployment's, which is the opco code followed by `_` and the deployment's name, then
those of each environment. An aggregate without deployment name publishes nothing. -/
def deploymentIds (opcoElement : Value) : List String :=
  if (field "name" (field "deployment" opcoElement)).truthy then
    ((field "opco" opcoElement).text ++ "_" ++
        (field "name" (field "deployment" opcoElement)).text) ::
      (elems (field "environments" opcoElement)).flatMap
        (environmentIds ((field "opco" opcoElement).text ++ "_" ++
          (field "name" (field "deployment" opcoElement)).text))
  else []

/-- The identifiers the publisher composes for a tree, in the order of its traversal. -/
def composedIds (data : Value) : List String :=
  (elems data).flatMap deploymentIds

/-- From every trace, the node calls the step adds carry the first identifiers of
`ids`, in order, and all of them when the step completes. -/
def EmitsIds {α : Type} (m : Pub α) (ids : List String) : Prop :=
  ∀ t, ∃ cs, (m t).2.calls = t.calls ++ cs ∧ nodeIds cs <+: ids.map Value.str ∧
    ((∃ a, (m t).1 = .ok a) → nodeIds cs = ids.map Value.str)

/-- From every trace, the node calls the step adds carry the first identifiers of
`ids`, in order. -/
def EmitsSomeIds {α : Type} (m : Pub α) (ids : List String) : Prop :=
  ∀ t, ∃ cs, (m t).2.calls = t.calls ++ cs ∧ nodeIds cs <+: ids.map Value.str

/-! ## Distinct names and distinct identifiers -/

/-- The text holds no `_`, the separator of the composed identifiers. -/
def underscoreFree (s : String) : Bool :=
  decide ('_' ∉ s.data)

/-- The name of the deployment of an aggregate, as text. -/
def deploymentNameOf (opcoElement : Value) : String :=
  (field "name" (field "deployment" opcoElement)).text

/-- The name of a document (environment, virtual host or proxy), as text. -/
def nameOf (doc : Value) : String :=
  (field "name" doc).text

/-- The host of a target server, as text. -/
def hostOf (targetServer : Value) : String :=
  (field "host" targetServer).text

/-- The aggregates that publish anything: those with a present deployment name. -/
def publishedAggregates (data : Value) : List Value :=
  (elems data).filter (fun agg => (field "name" (field "deployment" agg)).truthy)

/-- The names below an environment that end an identifier: the names of its virtual
hosts, then per proxy its name and the hosts of its target servers. -/
def leafNames (environment : Value) : List String :=
  (elems (field "virtual-hosts" environment)).map nameOf ++
    (elems (field "proxies" environment)).flatMap
      (fun proxy => nameOf proxy :: (elems (field "targetServers" proxy)).map hostOf)

/-- Modelled from the claim C15: deployment names, environment names within a
deployment, virtual-host names within an environment, proxy names within an
environment and target-server hosts within a proxy are each pairwise distinct. -/
def namesDistinct (data : Value) : Bool :=
  decide ((elems data).map deploymentNameOf).Nodup &&
  (elems data).all fun agg =>
    decide ((elems (field "environments" agg)).map nameOf).Nodup &&
    (elems (field "environments" agg)).all fun env =>
      decide ((elems (field "virtual-hosts" env)).map nameOf).Nodup &&
      decide ((elems (field "proxies" env)).map nameOf).Nodup &&
      (elems (field "proxies" env)).all fun proxy =>
        decide ((elems (field "targetServers" proxy)).map hostOf).Nodup

/-- The names of the tree keep the composed identifiers apart: among the aggregates
with a present deployment name the deployment names are pairwise distinct; opco codes,
deployment names and environment names hold no `_`; the environment names of a
deployment are pairwise distinct; and within an environment the names of the virtual
hosts, the names of the proxies and the hosts of all target servers are pairwise
distinct, taken together. -/
def idsSeparate (data : Value) : Bool :=
  decide ((publishedAggregates data).map deploymentNameOf).Nodup &&
  (publishedAggregates data).all fun agg =>
    underscoreFree (field "opco" agg).text && underscoreFree (deploymentNameOf agg) &&
    decide ((elems (field "environments" agg)).map nameOf).Nodup &&
    (elems (field "environments" agg)).all fun env =>
      underscoreFree (nameOf env) && decide (leafNames env).Nodup

/-- The identifier `id` is `stem`, or `stem` followed by `_` and more. -/
def Under (stem id : String) : Prop :=
  ∃ more : String, id = stem ++ more ∧ (more = "" ∨ ∃ x : String, more = "_" ++ x)

/-- One environment whose virtual host and proxy share the name `x`. -/
def sharedNameData : Value :=
  .arr [.obj [("opco", .str "NL"), ("deployment", .obj [("name", .str "apigw-nl")]),
    ("environments", .arr [.obj [
      ("proxies", .arr [.obj [("name", .str "x"), ("targetServers", .arr [])]]),
      ("virtual-hosts", .arr [.obj [("name", .str "x")]]),
      ("name", .str "prod")]])]]

/-- One environment whose proxies `px1` and `px2` each have a target server at the
host `1.2.3.4`. -/
def sharedHostData : Value :=
  .arr [.obj [("opco", .str "NL"), ("deployment", .obj [("name", .str "apigw-nl")]),
    ("environments", .arr [.obj [
      ("proxies", .arr [
        .obj [("name", .str "px1"),
          ("targetServers", .arr [.obj [("name", .str "ts1"), ("host", .str "1.2.3.4")]])],
        .obj [("name", .str "px2"),
          ("targetServers", .arr [.obj [("name", .str "ts2"), ("host", .str "1.2.3.4")]])]]),
      ("virtual-hosts", .arr []),
      ("name", .str "prod")]])]]

/-- Two environments, `a` with the virtual host `b`, and `a_b`. -/
def underscoreData : Value :=
  .arr [.obj [("opco", .str "NL"), ("deployment", .obj [("name", .str "apigw-nl")]),
    ("environments", .arr [
      .obj [("proxies", .arr []), ("virtual-hosts", .arr [.obj [("name", .str "b")]]),
        ("name", .str "a")],
      .obj [("proxies", .arr []), ("virtual-hosts", .arr []), ("name", .str "a_b")]])]]

/-- One environment whose virtual hosts `vh1` and `vh2` each carry the attribute
`uniqueId` with the value `zzz`. -/
def sharedOverrideData : Value :=
  .arr [.obj [("opco", .str "NL"), ("deployment", .obj [("name", .str "apigw-nl")]),
    ("environments", .arr [.obj [("proxies", .arr []),
      ("virtual-hosts", .arr [.obj [("name", .str "vh1"), ("uniqueId", .str "zzz")],
        .obj [("name", .str "vh2"), ("uniqueId", .str "zzz")]]),
      ("name", .str "prod")]])]]

/-! ## Opco code of a deployment name -/

theorem lastIndexOfAux_of_not_mem (c : Char) (s : List Char) (i : Nat) (acc : Int)
    (h : c ∉ s) : lastIndexOfAux c s i acc = acc := by
  induction s generalizing i acc with
  | nil => rfl
  | cons x xs ih =>
    have hx : x ≠ c := fun e => h (by simp [e])
    have hxs : c ∉ xs := fun m => h (List.mem_cons_of_mem _ m)
    simp [lastIndexOfAux, hx, ih _ _ hxs]

theorem lastIndexOfAux_last (c : Char) (pre suf : List Char) (i : Nat) (acc : Int)
    (h : c ∉ suf) : lastIndexOfAux c (pre ++ c :: suf) i acc = ((i + pre.length : Nat) : Int) := by
  induction pre generalizing i acc with
  | nil => simp [lastIndexOfAux, lastIndexOfAux_of_not_mem c suf _ _ h]
  | cons x xs ih =>
    show lastIndexOfAux c (xs ++ c :: suf) (i + 1) (if x = c then (i : Int) else acc) = _
    rw [ih]
    simp only [List.length_cons]
    congr 1
    omega

/-- C2. `extractLettersAfterDash` returns the two characters that follow the last dash of
the deployment name, uppercased, when the name has a dash with at least two characters
after the last one; it returns `null` when fewer than two characters follow the last
dash, and when the name has no dash. -/
theorem extractLettersAfterDash_spec (rt : Runtime) (d : String) :
    (∀ pre suf : List Char, d.data = pre ++ '-' :: suf → '-' ∉ suf → 2 ≤ suf.length →
      extractLettersAfterDash rt d = .str (rt.toUpperCase ⟨suf.take 2⟩)) ∧
    (∀ pre suf : List Char, d.data = pre ++ '-' :: suf → '-' ∉ suf → suf.length < 2 →
      extractLettersAfterDash rt d = .null) ∧
    ('-' ∉ d.data → extractLettersAfterDash rt d = .null) := by
  refine ⟨?_, ?_, ?_⟩
  · intro pre suf hd hsuf hlen
    have hidx : lastIndexOf d '-' = (pre.length : Int) := by
      simp [lastIndexOf, hd, lastIndexOfAux_last _ _ _ _ _ hsuf]
    have hcond : (pre.length : Int) ≠ -1 ∧
        (pre.length : Int) + 3 ≤ ((pre ++ '-' :: suf).length : Int) := by
      constructor
      · omega
      · simp only [List.length_append, List.length_cons]; omega
    have h1 : clampIndex ((pre.length : Int) + 1) (pre ++ '-' :: suf).length = pre.length + 1 := by
      simp only [clampIndex, List.length_append, List.length_cons]
      have : ((pre.length : Int) + 1).toNat = pre.length + 1 := by omega
      rw [this]; omega
    have h3 : clampIndex ((pre.length : Int) + 3) (pre ++ '-' :: suf).length = pre.length + 3 := by
      simp only [clampIndex, List.length_append, List.length_cons]
      have : ((pre.length : Int) + 3).toNat = pre.length + 3 := by omega
      rw [this]; omega
    have hdrop : (pre ++ '-' :: suf).drop (pre.length + 1) = suf := by
      rw [show pre ++ '-' :: suf = (pre ++ ['-']) ++ suf by simp]
      rw [List.drop_append_of_le_length (by simp)]
      simp
    have hmin : min (pre.length + 1) (pre.length + 3) = pre.length + 1 := by omega
    have hmax : max (pre.length + 1) (pre.length + 3) - (pre.length + 1) = 2 := by omega
    unfold extractLettersAfterDash
    simp only [hidx, hd]
    rw [if_pos hcond]
    simp only [substring, hd, h1, h3, hmin, hmax, hdrop]
  · intro pre suf hd hsuf hlen
    have hidx : lastIndexOf d '-' = (pre.length : Int) := by
      simp [lastIndexOf, hd, lastIndexOfAux_last _ _ _ _ _ hsuf]
    have hcond : ¬ ((pre.length : Int) ≠ -1 ∧
        (pre.length : Int) + 3 ≤ ((pre ++ '-' :: suf).length : Int)) := by
      simp only [List.length_append, List.length_cons]; omega
    unfold extractLettersAfterDash
    simp only [hidx, hd]
    rw [if_neg hcond]
  · intro h
    have hidx : lastIndexOf d '-' = -1 := by
      simp [lastIndexOf, lastIndexOfAux_of_not_mem _ _ _ _ h]
    simp [extractLettersAfterDash, hidx]

/-- Witness for C2: the deployment name `apigw-nl` gives `NL`, and `apigw` gives `null`. -/
theorem extractLettersAfterDash_spec_witness :
    extractLettersAfterDash refRuntime "apigw-nl" = .str "NL" ∧
    extractLettersAfterDash refRuntime "apigw" = .null :=
  ⟨(extractLettersAfterDash_spec refRuntime "apigw-nl").1 "apigw".data "nl".data
      (by decide) (by decide) (by decide),
   (extractLettersAfterDash_spec refRuntime "apigw").2.2 (by decide)⟩

/-! ## Objects as property lists -/

theorem lookup_setField_same (k : String) (v : Value) (fs : Fields) :
    lookup k (setField k v fs) = v := by
  induction fs with
  | nil => simp [setField, lookup]
  | cons kv rest ih =>
    obtain ⟨k', v'⟩ := kv
    by_cases h : k' = k
    · simp [setField, lookup, h]
    · simp [setField, lookup, h, ih]

theorem lookup_setField_ne (k k' : String) (v : Value) (fs : Fields) (h : k ≠ k') :
    lookup k (setField k' v fs) = lookup k fs := by
  induction fs with
  | nil => simp [setField, lookup, Ne.symm h]
  | cons kv rest ih =>
    obtain ⟨k₀, v₀⟩ := kv
    by_cases h₀ : k₀ = k'
    · have : k₀ ≠ k := by rw [h₀]; exact Ne.symm h
      simp [setField, lookup, h₀, Ne.symm h]
    · by_cases h₁ : k₀ = k
      · subst h₁
        simp [setField, lookup, h₀]
      · simp [setField, lookup, h₀, h₁, ih]

theorem lookup_deleteField_same (k : String) (fs : Fields) :
    lookup k (deleteField k fs) = .undefined := by
  induction fs with
  | nil => rfl
  | cons kv rest ih =>
    obtain ⟨k₀, v₀⟩ := kv
    by_cases h₀ : k₀ = k
    · simpa [deleteField, h₀] using ih
    · have : deleteField k ((k₀, v₀) :: rest) = (k₀, v₀) :: deleteField k rest := by
        simp [deleteField, h₀]
      rw [this]
      simp [lookup, h₀, ih]

theorem lookup_deleteField_ne (k k' : String) (fs : Fields) (h : k ≠ k') :
    lookup k (deleteField k' fs) = lookup k fs := by
  induction fs with
  | nil => rfl
  | cons kv rest ih =>
    obtain ⟨k₀, v₀⟩ := kv
    by_cases h₀ : k₀ = k'
    · have h₁ : k₀ ≠ k := by rw [h₀]; exact Ne.symm h
      have : deleteField k' ((k₀, v₀) :: rest) = deleteField k' rest := by
        simp [deleteField, h₀]
      rw [this, ih]
      simp [lookup, h₁]
    · have : deleteField k' ((k₀, v₀) :: rest) = (k₀, v₀) :: deleteField k' rest := by
        simp [deleteField, h₀]
      rw [this]
      by_cases h₁ : k₀ = k
      · simp [lookup, h₁]
      · simp [lookup, h₁, ih]

theorem not_mem_keys_deleteField (k : String) (fs : Fields) :
    k ∉ (deleteField k fs).map Prod.fst := by
  simp [deleteField, List.mem_map, List.mem_filter]

theorem lookup_append (k : String) (xs ys : Fields) :
    lookup k (xs ++ ys) = if k ∈ xs.map Prod.fst then lookup k xs else lookup k ys := by
  induction xs with
  | nil => simp
  | cons kv rest ih =>
    obtain ⟨k₀, v₀⟩ := kv
    by_cases h₀ : k₀ = k
    · simp [lookup, h₀]
    · have h₁ : ¬ k = k₀ := fun e => h₀ e.symm
      have hm : (k ∈ ((k₀, v₀) :: rest).map Prod.fst) ↔ k ∈ rest.map Prod.fst := by
        simp [h₁]
      by_cases hr : k ∈ rest.map Prod.fst
      · rw [if_pos (hm.mpr hr)]
        simp [lookup, h₀, ih, hr]
      · rw [if_neg (fun m => hr (hm.mp m))]
        simp [lookup, h₀, ih, hr]

/-- Assigning a list of pairs in order: a key among them ends with the value of its last
pair, every other key keeps its value. -/
theorem lookup_foldl_setField (k : String) (pairs : Fields) (fs : Fields) :
    lookup k (pairs.foldl (fun d nv => setField nv.1 nv.2 d) fs) =
      if k ∈ pairs.map Prod.fst then lookup k pairs.reverse else lookup k fs := by
  induction pairs generalizing fs with
  | nil => simp
  | cons p ps ih =>
    obtain ⟨n, v⟩ := p
    simp only [List.foldl_cons, ih, List.map_cons, List.reverse_cons, lookup_append,
      List.map_reverse, List.mem_reverse, List.mem_cons]
    by_cases hps : k ∈ ps.map Prod.fst
    · simp [hps]
    · by_cases hn : k = n
      · subst hn
        simp [hps, lookup_setField_same, lookup]
      · simp [hps, hn, lookup_setField_ne _ _ _ _ hn]

/-- The loop over a property list whose entries are `{name, value}` pairs with string
names performs the assignments one after the other and never raises. -/
theorem expandProperties_pairs (fs : Fields) (props : List Value) (pairs : Fields)
    (h : List.Forall₂ (fun p nv => p.get "name" = .ok (.str nv.1) ∧ p.get "value" = .ok nv.2)
      props pairs) :
    expandProperties fs props = .ok (pairs.foldl (fun d nv => setField nv.1 nv.2 d) fs) := by
  induction h generalizing fs with
  | nil => rfl
  | cons hp _ ih =>
    simp only [expandProperties, hp.1, hp.2, Value.toStr, List.foldl_cons]
    exact ih _

/-- C3, as the code has it. For a document fetched by `processEnvironmentData` whose
`properties.property` is a list of `{name, value}` pairs, the result is an object in
which every pair name other than `properties` holds the value of the last pair with
that name, every other original field except `properties` keeps its value, and no
`properties` key remains. -/
theorem processEnvironmentData_expands (store : Store) (file : String) (fs ps : Fields)
    (props : List Value) (pairs : Fields)
    (hdoc : getObjectFromS3 store file = .ok (.obj fs))
    (hps : lookup "properties" fs = .obj ps)
    (hprop : lookup "property" ps = .arr props)
    (hpairs : List.Forall₂
      (fun p nv => p.get "name" = .ok (.str nv.1) ∧ p.get "value" = .ok nv.2) props pairs) :
    ∃ fs', processEnvironmentData store file = .ok (.obj fs') ∧
      (∀ n, n ∈ pairs.map Prod.fst → n ≠ "properties" →
        lookup n fs' = lookup n pairs.reverse) ∧
      (∀ k, k ∉ pairs.map Prod.fst → k ≠ "properties" → lookup k fs' = lookup k fs) ∧
      "properties" ∉ fs'.map Prod.fst := by
  refine ⟨deleteField "properties" (pairs.foldl (fun d nv => setField nv.1 nv.2 d) fs),
    ?_, ?_, ?_, ?_⟩
  · simp [processEnvironmentData, hdoc, flattenEnvironmentData, hps, hprop, Value.truthy,
      Value.get, expandProperties_pairs fs props pairs hpairs]
  · intro n hn hne
    rw [lookup_deleteField_ne _ _ _ hne, lookup_foldl_setField, if_pos hn]
  · intro k hk hne
    rw [lookup_deleteField_ne _ _ _ hne, lookup_foldl_setField, if_neg hk]
  · exact not_mem_keys_deleteField _ _

/-- Witness for C3: the document `{properties: {property: [{name: "a", value: "1"},
{name: "b", value: "2"}]}}` is expanded, and the result is `{a: "1", b: "2"}`. -/
theorem processEnvironmentData_expands_witness :
    (∃ fs', processEnvironmentData abStore "d/e/e.json" = .ok (.obj fs') ∧
      (∀ n, n ∈ ["a", "b"] → n ≠ "properties" →
        lookup n fs' = lookup n [("b", Value.str "2"), ("a", Value.str "1")]) ∧
      (∀ k, k ∉ ["a", "b"] → k ≠ "properties" →
        lookup k fs' = lookup k [("properties", Value.obj [("property",
          .arr [.obj [("name", .str "a"), ("value", .str "1")],
                .obj [("name", .str "b"), ("value", .str "2")]])])]) ∧
      "properties" ∉ fs'.map Prod.fst) ∧
    processEnvironmentData abStore "d/e/e.json"
      = .ok (.obj [("a", .str "1"), ("b", .str "2")]) :=
  ⟨processEnvironmentData_expands abStore "d/e/e.json" _ _ _
      [("a", .str "1"), ("b", .str "2")] rfl rfl rfl
      (List.Forall₂.cons ⟨rfl, rfl⟩ (List.Forall₂.cons ⟨rfl, rfl⟩ List.Forall₂.nil)),
   by decide⟩

/-- Counterexample to C3 as stated: for a property list with the one pair
`{name: "properties", value: "x"}` the result is the empty object, so it does not
hold `doc["properties"] = "x"`. -/
theorem processEnvironmentData_self_named_counterexample :
    processEnvironmentData selfNamedStore "d/e/e.json" = .ok (.obj []) ∧
    ¬ ∃ fs', processEnvironmentData selfNamedStore "d/e/e.json" = .ok (.obj fs') ∧
        lookup "properties" fs' = .str "x" := by
  have h : processEnvironmentData selfNamedStore "d/e/e.json" = .ok (.obj []) := by decide
  refine ⟨h, ?_⟩
  rintro ⟨fs', h', hl⟩
  rw [h] at h'
  cases h'
  simp [lookup] at hl

/-- C8, the code at the failing input. For the environment document `{name: "prod"}`,
which has no property list, `processEnvironmentData` returns `null`, not the
document, and the environment record that `processCountry` assembles has no `name`. -/
theorem processEnvironmentData_without_properties_returns_null :
    getObjectFromS3 plainEnvStore "apigw-nl/prod/prod.json"
      = .ok (.obj [("name", .str "prod")]) ∧
    processEnvironmentData plainEnvStore "apigw-nl/prod/prod.json" = .ok .null ∧
    processCountry refRuntime plainEnvStore "apigw-nl" ["prod"]
      = .ok (.obj [("opco", .str "NL"), ("deployment", .obj [("name", .str "apigw-nl")]),
          ("environments", .arr [.obj [("proxies", .arr []), ("virtual-hosts", .arr [])]])]) := by
  decide

/-! ## Steps of the publisher -/

theorem Pub.bind_apply {α β : Type} (m : Pub α) (f : α → Pub β) (t : Trace) :
    (m >>= f) t = match m t with
      | (.ok a, t') => f a t'
      | (.error e, t') => (.error e, t') := rfl

theorem Pub.pure_apply {α : Type} (a : α) (t : Trace) :
    (pure a : Pub α) t = (.ok a, t) := rfl

theorem liftE_ok_bind {α β : Type} (a : α) (f : α → Pub β) :
    (liftE (.ok a) >>= f) = f a := rfl

theorem liftE_error_bind {α β : Type} (e : JsError) (f : α → Pub β) :
    (liftE (.error e) >>= f) = liftE (.error e) := rfl

theorem sendAndReport_apply (post : PostOracle) (ep : Endpoint) (d : Value) (g b : String)
    (t : Trace) :
    sendAndReport post ep d g b t =
      (.ok (), { calls := t.calls ++ [⟨ep, d⟩],
                 console := t.console ++ reportLines (post t.calls.length ⟨ep, d⟩) g b }) := by
  unfold sendAndReport
  rw [Pub.bind_apply]
  unfold sendToTopoApi
  by_cases hp : post t.calls.length ⟨ep, d⟩ = true
  · simp [hp, consoleOut, reportLines]
  · simp [hp, consoleOut, reportLines]

theorem silent_pure {α : Type} (a : α) : Silent (pure a : Pub α) := fun _ => rfl

theorem silent_liftE {α : Type} (x : Except JsError α) : Silent (liftE x) := fun _ => rfl

theorem silent_consoleOut (l : Level) (s : String) : Silent (consoleOut l s) := fun _ => rfl

theorem silent_bind {α β : Type} {m : Pub α} {f : α → Pub β} (hm : Silent m)
    (hf : ∀ a, Silent (f a)) : Silent (m >>= f) := by
  intro t
  rw [Pub.bind_apply]
  have h := hm t
  rcases hmt : m t with ⟨r, t'⟩
  rw [hmt] at h
  cases r with
  | error e => exact h
  | ok a => exact (hf a t').trans h

theorem silent_fetchTopologyData (topo : HttpGet) : Silent (fetchTopologyData topo) := by
  unfold ApigwTopo.fetchTopologyData
  cases topo with
  | failed =>
    exact silent_bind (silent_consoleOut _ _)
      (fun _ => silent_bind (silent_consoleOut _ _) (fun _ => silent_pure _))
  | response data =>
    simp only
    split
    · split
      · exact silent_pure _
      · exact silent_bind (silent_consoleOut _ _)
          (fun _ => silent_bind (silent_consoleOut _ _) (fun _ => silent_pure _))
    · exact silent_bind (silent_consoleOut _ _) (fun _ => silent_pure _)

theorem fetchTopologyData_of_fails (topo : HttpGet) (h : LookupFails topo) (t : Trace) :
    (fetchTopologyData topo t).1 = .ok .null := by
  rcases h with h | ⟨d, h, hd⟩
  · subst h; rfl
  · subst h
    simp [fetchTopologyData, hd]
    rfl

/-- C10. When the opco lookup fails (rejected request or empty response body),
`fetchTopologyData` returns `null`, and `transformDataAndSendToApi` issues no publish
call at all, whatever the input tree and the runtime. -/
theorem no_publish_when_lookup_fails (rt : Runtime) (topo : HttpGet) (post : PostOracle)
    (data : Value) (h : LookupFails topo) :
    (∀ t, (fetchTopologyData topo t).1 = .ok .null) ∧
    (runPublisher rt topo post data).2.calls = [] := by
  refine ⟨fetchTopologyData_of_fails topo h, ?_⟩
  have key : Silent (transformDataAndSendToApi rt topo post data) := by
    unfold transformDataAndSendToApi
    split
    · refine silent_bind (silent_liftE _) (fun len => ?_)
      refine silent_bind (silent_liftE _) (fun lenS => ?_)
      refine silent_bind (silent_consoleOut _ _) (fun _ => ?_)
      intro t
      rw [Pub.bind_apply]
      have h1 := silent_fetchTopologyData topo t
      have h2 := fetchTopologyData_of_fails topo h t
      rcases hft : fetchTopologyData topo t with ⟨r, t'⟩
      rw [hft] at h1 h2
      simp only at h1 h2
      subst h2
      simp only [publishAll]
      exact (silent_bind (silent_consoleOut _ _) (fun _ => silent_pure _) t').trans h1
    · exact silent_bind (silent_consoleOut _ _) (fun _ => silent_pure _)
  exact key ⟨[], []⟩

/-- Witness for C10: with a rejected lookup request the end-to-end tree yields no call. -/
theorem no_publish_when_lookup_fails_witness :
    (∀ t, (fetchTopologyData .failed t).1 = .ok .null) ∧
    (runPublisher refRuntime .failed (fun _ _ => true) scenarioData).2.calls = [] :=
  no_publish_when_lookup_fails refRuntime .failed (fun _ _ => true) scenarioData (Or.inl rfl)

/-! ## Publish calls do not depend on the outcome of earlier calls -/

theorem sameCalls_pure {α : Type} (a : α) : SameCalls (pure a : Pub α) (pure a) :=
  fun _ _ h => ⟨rfl, h⟩

theorem sameCalls_liftE {α : Type} (x : Except JsError α) : SameCalls (liftE x) (liftE x) :=
  fun _ _ h => ⟨rfl, h⟩

theorem sameCalls_consoleOut (l₁ l₂ : Level) (s₁ s₂ : String) :
    SameCalls (consoleOut l₁ s₁) (consoleOut l₂ s₂) :=
  fun _ _ h => ⟨rfl, h⟩

theorem sameCalls_bind {α β : Type} {m₁ m₂ : Pub α} {f₁ f₂ : α → Pub β}
    (hm : SameCalls m₁ m₂) (hf : ∀ a, SameCalls (f₁ a) (f₂ a)) :
    SameCalls (m₁ >>= f₁) (m₂ >>= f₂) := by
  intro t₁ t₂ h
  rw [Pub.bind_apply, Pub.bind_apply]
  obtain ⟨h1, h2⟩ := hm t₁ t₂ h
  rcases e₁ : m₁ t₁ with ⟨r₁, u₁⟩
  rcases e₂ : m₂ t₂ with ⟨r₂, u₂⟩
  rw [e₁, e₂] at h1 h2
  simp only at h1 h2
  subst h1
  cases r₁ with
  | error e => exact ⟨rfl, h2⟩
  | ok a => exact hf a u₁ u₂ h2

theorem sameCalls_sendAndReport (post₁ post₂ : PostOracle) (ep : Endpoint) (d : Value)
    (g b : String) :
    SameCalls (sendAndReport post₁ ep d g b) (sendAndReport post₂ ep d g b) := by
  intro t₁ t₂ h
  rw [sendAndReport_apply, sendAndReport_apply]
  simp [h]

theorem sameCalls_forEach {α β : Type} {f₁ f₂ : α → Pub β} (hf : ∀ a, SameCalls (f₁ a) (f₂ a))
    (xs : List α) : SameCalls (Pub.forEach f₁ xs) (Pub.forEach f₂ xs) := by
  induction xs with
  | nil => exact fun _ _ h => ⟨rfl, h⟩
  | cons x xs ih =>
    show SameCalls (f₁ x >>= fun y => Pub.forEach f₁ xs >>= fun ys => Pure.pure (y :: ys))
      (f₂ x >>= fun y => Pub.forEach f₂ xs >>= fun ys => Pure.pure (y :: ys))
    exact sameCalls_bind (hf x) (fun y => sameCalls_bind ih (fun ys => sameCalls_pure _))

theorem sameCalls_fetchTopologyData (topo : HttpGet) :
    SameCalls (fetchTopologyData topo) (fetchTopologyData topo) := by
  intro t₁ t₂ h
  have s₁ := silent_fetchTopologyData topo t₁
  have s₂ := silent_fetchTopologyData topo t₂
  refine ⟨?_, by rw [s₁, s₂, h]⟩
  unfold ApigwTopo.fetchTopologyData
  cases topo with
  | failed => rfl
  | response data =>
    simp only
    split
    · cases opcoMapping data <;> rfl
    · rfl

theorem sameCalls_publishTargetServer (post₁ post₂ : PostOracle)
    (opcoName deploymentName envName proxyName : Value)
    (opcoS deploymentS envS proxyS proxyUniqueId : String) (targetServer : Value) :
    SameCalls
      (publishTargetServer post₁ opcoName deploymentName envName proxyName opcoS deploymentS
        envS proxyS proxyUniqueId targetServer)
      (publishTargetServer post₂ opcoName deploymentName envName proxyName opcoS deploymentS
        envS proxyS proxyUniqueId targetServer) := by
  unfold ApigwTopo.publishTargetServer
  refine sameCalls_bind (sameCalls_liftE _) (fun _ => ?_)
  refine sameCalls_bind (sameCalls_liftE _) (fun _ => ?_)
  refine sameCalls_bind (sameCalls_liftE _) (fun _ => ?_)
  refine sameCalls_bind (sameCalls_liftE _) (fun _ => ?_)
  refine sameCalls_bind (sameCalls_consoleOut _ _ _ _) (fun _ => ?_)
  refine sameCalls_bind (sameCalls_sendAndReport _ _ _ _ _ _) (fun _ => ?_)
  exact sameCalls_sendAndReport _ _ _ _ _ _

theorem sameCalls_publishTargetServers (rt : Runtime) (post₁ post₂ : PostOracle)
    (opcoName deploymentName envName proxyName : Value)
    (opcoS deploymentS envS proxyS proxyUniqueId : String) (targetServers : Value) :
    SameCalls
      (publishTargetServers rt post₁ opcoName deploymentName envName proxyName opcoS
        deploymentS envS proxyS proxyUniqueId targetServers)
      (publishTargetServers rt post₂ opcoName deploymentName envName proxyName opcoS
        deploymentS envS proxyS proxyUniqueId targetServers) := by
  unfold ApigwTopo.publishTargetServers
  split
  · refine sameCalls_bind (sameCalls_liftE _) (fun _ => ?_)
    refine sameCalls_bind (sameCalls_forEach (fun ts => ?_) _) (fun _ => sameCalls_pure _)
    exact sameCalls_publishTargetServer _ _ _ _ _ _ _ _ _ _ _ _
  · exact sameCalls_consoleOut _ _ _ _

theorem sameCalls_publishProxy (rt : Runtime) (post₁ post₂ : PostOracle)
    (opcoName deploymentName envName : Value)
    (opcoS deploymentS envS envUniqueId : String) (proxy : Value) :
    SameCalls
      (publishProxy rt post₁ opcoName deploymentName envName opcoS deploymentS envS
        envUniqueId proxy)
      (publishProxy rt post₂ opcoName deploymentName envName opcoS deploymentS envS
        envUniqueId proxy) := by
  unfold ApigwTopo.publishProxy
  refine sameCalls_bind (sameCalls_liftE _) (fun _ => ?_)
  refine sameCalls_bind (sameCalls_liftE _) (fun _ => ?_)
  refine sameCalls_bind (sameCalls_consoleOut _ _ _ _) (fun _ => ?_)
  refine sameCalls_bind (sameCalls_liftE _) (fun _ => ?_)
  refine sameCalls_bind (sameCalls_liftE _) (fun _ => ?_)
  refine sameCalls_bind (sameCalls_sendAndReport _ _ _ _ _ _) (fun _ => ?_)
  refine sameCalls_bind (sameCalls_sendAndReport _ _ _ _ _ _) (fun _ => ?_)
  refine sameCalls_bind (sameCalls_liftE _) (fun targetServers => ?_)
  exact sameCalls_publishTargetServers _ _ _ _ _ _ _ _ _ _ _ _ _

theorem sameCalls_publishProxies (rt : Runtime) (post₁ post₂ : PostOracle)
    (opcoName deploymentName envName : Value)
    (opcoS deploymentS envS envUniqueId : String) (proxies : Value) :
    SameCalls
      (publishProxies rt post₁ opcoName deploymentName envName opcoS deploymentS envS
        envUniqueId proxies)
      (publishProxies rt post₂ opcoName deploymentName envName opcoS deploymentS envS
        envUniqueId proxies) := by
  unfold ApigwTopo.publishProxies
  split
  · refine sameCalls_bind (sameCalls_liftE _) (fun _ => ?_)
    refine sameCalls_bind (sameCalls_forEach (fun px => ?_) _) (fun _ => sameCalls_pure _)
    exact sameCalls_publishProxy _ _ _ _ _ _ _ _ _ _ _
  · exact sameCalls_consoleOut _ _ _ _

theorem sameCalls_publishVirtualHost (post₁ post₂ : PostOracle)
    (opcoName deploymentName envName : Value)
    (opcoS deploymentS envS envUniqueId : String) (virtualHost : Value) :
    SameCalls
      (publishVirtualHost post₁ opcoName deploymentName envName opcoS deploymentS envS
        envUniqueId virtualHost)
      (publishVirtualHost post₂ opcoName deploymentName envName opcoS deploymentS envS
        envUniqueId virtualHost) := by
  unfold ApigwTopo.publishVirtualHost
  refine sameCalls_bind (sameCalls_liftE _) (fun _ => ?_)
  refine sameCalls_bind (sameCalls_liftE _) (fun _ => ?_)
  refine sameCalls_bind (sameCalls_consoleOut _ _ _ _) (fun _ => ?_)
  refine sameCalls_bind (sameCalls_liftE _) (fun _ => ?_)
  refine sameCalls_bind (sameCalls_sendAndReport _ _ _ _ _ _) (fun _ => ?_)
  refine sameCalls_bind (sameCalls_sendAndReport _ _ _ _ _ _) (fun _ => ?_)
  exact sameCalls_pure _

theorem sameCalls_publishVirtualHosts (rt : Runtime) (post₁ post₂ : PostOracle)
    (opcoName deploymentName envName : Value)
    (opcoS deploymentS envS envUniqueId : String) (environment virtualHosts : Value) :
    SameCalls
      (publishVirtualHosts rt post₁ opcoName deploymentName envName opcoS deploymentS envS
        envUniqueId environment virtualHosts)
      (publishVirtualHosts rt post₂ opcoName deploymentName envName opcoS deploymentS envS
        envUniqueId environment virtualHosts) := by
  unfold ApigwTopo.publishVirtualHosts
  split
  · refine sameCalls_bind (sameCalls_liftE _) (fun _ => ?_)
    refine sameCalls_bind (sameCalls_forEach (fun vh => ?_) _) (fun _ => sameCalls_pure _)
    exact sameCalls_publishVirtualHost _ _ _ _ _ _ _ _ _ _
  · exact sameCalls_bind (sameCalls_consoleOut _ _ _ _) (fun _ => sameCalls_pure _)

theorem sameCalls_publishEnvironment (rt : Runtime) (post₁ post₂ : PostOracle)
    (opcoName deploymentName : Value)
    (opcoS deploymentS deploymentUniqueName : String) (environment : Value) :
    SameCalls
      (publishEnvironment rt post₁ opcoName deploymentName opcoS deploymentS
        deploymentUniqueName environment)
      (publishEnvironment rt post₂ opcoName deploymentName opcoS deploymentS
        deploymentUniqueName environment) := by
  unfold ApigwTopo.publishEnvironment
  refine sameCalls_bind (sameCalls_liftE _) (fun _ => ?_)
  refine sameCalls_bind (sameCalls_liftE _) (fun _ => ?_)
  refine sameCalls_bind (sameCalls_consoleOut _ _ _ _) (fun _ => ?_)
  refine sameCalls_bind (sameCalls_liftE _) (fun _ => ?_)
  refine sameCalls_bind (sameCalls_liftE _) (fun _ => ?_)
  refine sameCalls_bind (sameCalls_sendAndReport _ _ _ _ _ _) (fun _ => ?_)
  refine sameCalls_bind (sameCalls_sendAndReport _ _ _ _ _ _) (fun _ => ?_)
  refine sameCalls_bind (sameCalls_liftE _) (fun virtualHosts => ?_)
  refine sameCalls_bind (sameCalls_publishVirtualHosts _ _ _ _ _ _ _ _ _ _ _ _) (fun _ => ?_)
  refine sameCalls_bind (sameCalls_liftE _) (fun proxies => ?_)
  refine sameCalls_bind (sameCalls_publishProxies _ _ _ _ _ _ _ _ _ _ _) (fun _ => ?_)
  exact sameCalls_pure _

theorem sameCalls_publishEnvironments (rt : Runtime) (post₁ post₂ : PostOracle)
    (opcoName deploymentName : Value) (opcoS deploymentS deploymentUniqueName : String)
    (opcoElement environmentsDetails : Value) :
    SameCalls
      (publishEnvironments rt post₁ opcoName deploymentName opcoS deploymentS
        deploymentUniqueName opcoElement environmentsDetails)
      (publishEnvironments rt post₂ opcoName deploymentName opcoS deploymentS
        deploymentUniqueName opcoElement environmentsDetails) := by
  unfold ApigwTopo.publishEnvironments
  split
  · refine sameCalls_bind (sameCalls_liftE _) (fun _ => ?_)
    refine sameCalls_bind (sameCalls_forEach (fun env => ?_) _) (fun _ => sameCalls_pure _)
    exact sameCalls_publishEnvironment _ _ _ _ _ _ _ _ _
  · exact sameCalls_liftE _

theorem sameCalls_publishDeployment (rt : Runtime) (post₁ post₂ : PostOracle)
    (mapping : Fields) (opcoElement : Value) :
    SameCalls (publishDeployment rt post₁ mapping opcoElement)
      (publishDeployment rt post₂ mapping opcoElement) := by
  unfold ApigwTopo.publishDeployment
  refine sameCalls_bind (sameCalls_liftE _) (fun _ => ?_)
  refine sameCalls_bind (sameCalls_liftE _) (fun _ => ?_)
  refine sameCalls_bind (sameCalls_liftE _) (fun _ => ?_)
  refine sameCalls_bind (sameCalls_liftE _) (fun deploymentName => ?_)
  refine sameCalls_bind (sameCalls_liftE _) (fun _ => ?_)
  split
  · refine sameCalls_bind (sameCalls_liftE _) (fun _ => ?_)
    refine sameCalls_bind (sameCalls_consoleOut _ _ _ _) (fun _ => ?_)
    refine sameCalls_bind (sameCalls_liftE _) (fun _ => ?_)
    refine sameCalls_bind (sameCalls_liftE _) (fun _ => ?_)
    refine sameCalls_bind (sameCalls_sendAndReport _ _ _ _ _ _) (fun _ => ?_)
    refine sameCalls_bind (sameCalls_sendAndReport _ _ _ _ _ _) (fun _ => ?_)
    refine sameCalls_bind (sameCalls_liftE _) (fun environmentsDetails => ?_)
    exact sameCalls_publishEnvironments _ _ _ _ _ _ _ _ _ _
  · exact sameCalls_bind (sameCalls_consoleOut _ _ _ _) (fun _ => sameCalls_pure _)

theorem sameCalls_publishAll (rt : Runtime) (post₁ post₂ : PostOracle)
    (data opcoTopoData : Value) :
    SameCalls (publishAll rt post₁ data opcoTopoData) (publishAll rt post₂ data opcoTopoData) := by
  unfold ApigwTopo.publishAll
  split
  · refine sameCalls_bind (sameCalls_liftE _) (fun _ => ?_)
    refine sameCalls_bind (sameCalls_forEach (fun agg => ?_) _) (fun _ => sameCalls_pure _)
    exact sameCalls_publishDeployment _ _ _ _ _
  · exact sameCalls_bind (sameCalls_consoleOut _ _ _ _) (fun _ => sameCalls_pure _)

/-- C9. For every tree, runtime and opco lookup, the sequence of publish calls
(endpoints and payloads) and the outcome of the run are the same for any two patterns
of success and failure of the individual POSTs. -/
theorem calls_independent_of_post_outcomes (rt : Runtime) (topo : HttpGet) (data : Value)
    (post₁ post₂ : PostOracle) :
    (runPublisher rt topo post₁ data).2.calls = (runPublisher rt topo post₂ data).2.calls ∧
    (runPublisher rt topo post₁ data).1 = (runPublisher rt topo post₂ data).1 := by
  have key : SameCalls (transformDataAndSendToApi rt topo post₁ data)
      (transformDataAndSendToApi rt topo post₂ data) := by
    unfold transformDataAndSendToApi
    split
    · refine sameCalls_bind (sameCalls_liftE _) (fun _ => ?_)
      refine sameCalls_bind (sameCalls_liftE _) (fun _ => ?_)
      refine sameCalls_bind (sameCalls_consoleOut _ _ _ _) (fun _ => ?_)
      refine sameCalls_bind (sameCalls_fetchTopologyData _) (fun opcoTopoData => ?_)
      exact sameCalls_publishAll _ _ _ _ _
    · exact sameCalls_bind (sameCalls_consoleOut _ _ _ _) (fun _ => sameCalls_pure _)
  obtain ⟨h1, h2⟩ := key ⟨[], []⟩ ⟨[], []⟩ rfl
  exact ⟨h2, h1⟩

/-- C5, the code at the failing input. For two aggregates with a deployment name and no
environment, the run raises a `ReferenceError` after the two calls of the first
aggregate: the deployment node and edge of the second aggregate are never issued. -/
theorem publisher_raises_without_environments :
    (runPublisher refRuntime scenarioLookup (fun _ _ => true) noEnvironmentData).1
      = .error .referenceError ∧
    (runPublisher refRuntime scenarioLookup (fun _ _ => true) noEnvironmentData).2.calls
      = [⟨.resources, .obj [("uniqueId", .str "NL_apigw-nl"),
            ("entityTypes", .arr [.str "deployment"]),
            ("matchTokens", .arr [.str "NL_apigw-nl"]), ("opco", .str "NL"),
            ("tags", .arr [.str "apigw-nl"]), ("name", .str "apigw-nl")]⟩,
         ⟨.references, .obj [("_fromUniqueId", .str "opco-123"),
            ("_toUniqueId", .str "NL_apigw-nl"), ("_edgeType", .str "manages")]⟩] := by
  decide

/-! ## Node before edge -/

theorem keeps_pure {α : Type} (P : List Call → Prop) (a : α) : Keeps P P (pure a : Pub α) :=
  fun _ h => h

theorem keeps_liftE {α : Type} (P : List Call → Prop) (x : Except JsError α) :
    Keeps P P (liftE x) :=
  fun _ h => h

theorem keeps_consoleOut (P : List Call → Prop) (l : Level) (s : String) :
    Keeps P P (consoleOut l s) :=
  fun _ h => h

theorem keeps_bind {α β : Type} {P R Q : List Call → Prop} {m : Pub α} {f : α → Pub β}
    (hm : Keeps P R m) (hf : ∀ a, Keeps R Q (f a)) (hRQ : ∀ c, R c → Q c) :
    Keeps P Q (m >>= f) := by
  intro t hP
  rw [Pub.bind_apply]
  have h := hm t hP
  rcases hmt : m t with ⟨r, t'⟩
  rw [hmt] at h
  cases r with
  | error e => exact hRQ _ h
  | ok a => exact hf a t' h

theorem keeps_weaken {α : Type} {P Q Q' : List Call → Prop} {m : Pub α}
    (hm : Keeps P Q m) (h : ∀ c, Q c → Q' c) : Keeps P Q' m :=
  fun t hP => h _ (hm t hP)

theorem keeps_forEach {α β : Type} {P : List Call → Prop} {f : α → Pub β} (xs : List α)
    (hf : ∀ x ∈ xs, Keeps P P (f x)) : Keeps P P (Pub.forEach f xs) := by
  induction xs with
  | nil => exact fun _ h => h
  | cons x xs ih =>
    show Keeps P P (f x >>= fun y => Pub.forEach f xs >>= fun ys => Pure.pure (y :: ys))
    refine keeps_bind (hf x (by simp)) (fun y => ?_) (fun _ h => h)
    refine keeps_bind (ih (fun z hz => hf z (by simp [hz]))) (fun ys => ?_) (fun _ h => h)
    exact keeps_pure P _

theorem nodesSent_mono {ids ids' : List String} {calls : List Call}
    (h : ∀ id ∈ ids, id ∈ ids') (hc : NodesSent ids' calls) : NodesSent ids calls :=
  ⟨hc.1, fun id hid => hc.2 id (h id hid)⟩

theorem nodeBeforeEdge_nil : NodeBeforeEdge [] := by
  intro pre e post h
  simp at h

/-- Appending a node call keeps the invariant and adds its identifier. -/
theorem nodesSent_snoc_node {ids : List String} {calls : List Call} (el : Fields) (id : String)
    (hid : lookup "uniqueId" el = .str id) (hc : NodesSent ids calls) :
    NodesSent (id :: ids) (calls ++ [⟨.resources, .obj el⟩]) := by
  constructor
  · intro pre e post hsplit he
    rcases List.eq_nil_or_concat post with hp | ⟨post', last, hp⟩
    · subst hp
      have := List.append_inj' (hsplit : calls ++ [_] = pre ++ [e]) rfl
      obtain ⟨_, h2⟩ := this
      simp at h2
      rw [← h2] at he
      simp at he
    · subst hp
      have hsplit' : calls ++ [(⟨.resources, .obj el⟩ : Call)] = (pre ++ e :: post') ++ [last] := by
        simpa using hsplit
      have := List.append_inj' hsplit' rfl
      exact hc.1 pre e post' this.1 he
  · intro id' hid'
    rcases List.mem_cons.mp hid' with h | h
    · subst h
      refine ⟨⟨.resources, .obj el⟩, by simp, rfl, ?_⟩
      simpa [Call.field, field, Value.get] using hid
    · obtain ⟨n, hn, h1, h2⟩ := hc.2 id' h
      exact ⟨n, by simp [hn], h1, h2⟩

/-- Appending an edge call keeps the invariant when the node of its target, and unless
it is a `manages` edge the node of its source, were sent. -/
theorem nodesSent_snoc_edge {ids : List String} {calls : List Call} (fromId : Value)
    (toId ty : String) (hto : toId ∈ ids)
    (hfrom : ty = "manages" ∨ ∃ s, fromId = .str s ∧ s ∈ ids) (hc : NodesSent ids calls) :
    NodesSent ids (calls ++ [⟨.references, edgePayload fromId (.str toId) ty⟩]) := by
  constructor
  · intro pre e post hsplit he
    rcases List.eq_nil_or_concat post with hp | ⟨post', last, hp⟩
    · subst hp
      have := List.append_inj' (hsplit : calls ++ [_] = pre ++ [e]) rfl
      obtain ⟨h1, h2⟩ := this
      simp at h2
      subst h1
      subst h2
      constructor
      · obtain ⟨n, hn, hn1, hn2⟩ := hc.2 toId hto
        exact ⟨n, hn, hn1, by rw [hn2]; simp [Call.field, field, Value.get, edgePayload, lookup]⟩
      · intro hty
        rcases hfrom with h | ⟨s, hs, hmem⟩
        · exfalso
          apply hty
          simp [Call.field, field, Value.get, edgePayload, lookup, h]
        · obtain ⟨n, hn, hn1, hn2⟩ := hc.2 s hmem
          exact ⟨n, hn, hn1, by
            rw [hn2]; simp [Call.field, field, Value.get, edgePayload, lookup, hs]⟩
    · subst hp
      have hsplit' : calls ++ [(⟨.references, edgePayload fromId (.str toId) ty⟩ : Call)]
          = (pre ++ e :: post') ++ [last] := by
        simpa using hsplit
      have := List.append_inj' hsplit' rfl
      exact hc.1 pre e post' this.1 he
  · intro id' hid'
    obtain ⟨n, hn, h1, h2⟩ := hc.2 id' hid'
    exact ⟨n, by simp [hn], h1, h2⟩

theorem keeps_sendNode (post : PostOracle) (ids : List String) (el : Fields) (id : String)
    (g b : String) (hid : lookup "uniqueId" el = .str id) :
    Keeps (NodesSent ids) (NodesSent (id :: ids)) (sendAndReport post .resources (.obj el) g b) := by
  intro t h
  rw [sendAndReport_apply]
  exact nodesSent_snoc_node el id hid h

theorem keeps_sendEdge (post : PostOracle) (ids : List String) (fromId : Value)
    (toId ty : String) (g b : String) (hto : toId ∈ ids)
    (hfrom : ty = "manages" ∨ ∃ s, fromId = .str s ∧ s ∈ ids) :
    Keeps (NodesSent ids) (NodesSent ids)
      (sendAndReport post .references (edgePayload fromId (.str toId) ty) g b) := by
  intro t h
  rw [sendAndReport_apply]
  exact nodesSent_snoc_edge fromId toId ty hto hfrom h

theorem keeps_liftE_bind {α β : Type} {P Q : List Call → Prop} {x : Except JsError α}
    {f : α → Pub β} (hPQ : ∀ c, P c → Q c) (hf : ∀ a, x = .ok a → Keeps P Q (f a)) :
    Keeps P Q (ApigwTopo.liftE x >>= f) := by
  cases x with
  | error e => exact fun t h => hPQ _ h
  | ok a => exact hf a rfl

theorem field_of_get {v x : Value} {k : String} (h : v.get k = .ok x) : field k v = x := by
  simp [field, h]

theorem elems_of_forOf {v : Value} {xs : List Value} (h : forOf v = .ok xs) : elems v = xs := by
  simp [elems, h]

theorem not_mem_keys_of_carries {k : String} {fs : Fields}
    (h : carries k (.obj fs) = false) : k ∉ fs.map Prod.fst := by
  intro hm
  obtain ⟨⟨k', v⟩, hkv, hk⟩ := List.mem_map.mp hm
  have : carries k (.obj fs) = true := by
    simp only [carries, ownEnumerable, List.any_eq_true]
    exact ⟨(k', v), hkv, by simpa using hk⟩
  rw [h] at this
  exact Bool.noConfusion this

theorem lookup_objectAssign_of_not_carries (k : String) (base : Fields) (src : Value)
    (h : carries k src = false) : lookup k (objectAssign base src) = lookup k base := by
  unfold objectAssign
  rw [lookup_foldl_setField, if_neg]
  intro hm
  obtain ⟨⟨k', v⟩, hkv, hk⟩ := List.mem_map.mp hm
  have : carries k src = true := by
    simp only [carries, List.any_eq_true]
    exact ⟨(k', v), hkv, by simpa using hk⟩
  rw [h] at this
  exact Bool.noConfusion this

theorem lookup_formatStamp {rt : Runtime} {k k' : String} {el el' : Fields}
    (h : formatStamp rt k el = .ok el') (hk : k' ≠ k) : lookup k' el' = lookup k' el := by
  unfold formatStamp at h
  split at h
  · split at h
    · cases h
      exact lookup_setField_ne _ _ _ _ hk
    · cases h
  · cases h
    rfl

theorem mem_keys_setField {k k' : String} {v : Value} {fs : Fields}
    (h : k ∈ (setField k' v fs).map Prod.fst) : k = k' ∨ k ∈ fs.map Prod.fst := by
  induction fs with
  | nil => simpa [setField] using h
  | cons kv rest ih =>
    obtain ⟨k₀, v₀⟩ := kv
    by_cases h₀ : k₀ = k'
    · simp only [setField, h₀, if_true, List.map_cons, List.mem_cons] at h
      rcases h with h | h
      · exact Or.inl h
      · exact Or.inr (by simp [h])
    · simp only [setField, h₀, if_false, List.map_cons, List.mem_cons] at h
      rcases h with h | h
      · exact Or.inr (by simp [h])
      · rcases ih h with h | h
        · exact Or.inl h
        · exact Or.inr (by simp [h])

theorem mem_keys_of_deleteField {k k' : String} {fs : Fields}
    (h : k ∈ (deleteField k' fs).map Prod.fst) : k ∈ fs.map Prod.fst := by
  obtain ⟨kv, hkv, hk⟩ := List.mem_map.mp h
  exact List.mem_map.mpr ⟨kv, (List.mem_filter.mp hkv).1, hk⟩

theorem expandProperties_keys {k : String} {fs fs' : Fields} {props : List Value}
    (h : expandProperties fs props = .ok fs') (hk : k ∉ fs.map Prod.fst)
    (hp : ∀ p ∈ props, propertyNamed k p = false) : k ∉ fs'.map Prod.fst := by
  induction props generalizing fs with
  | nil =>
    simp only [expandProperties] at h
    cases h
    exact hk
  | cons p rest ih =>
    have hp₀ := hp p (by simp)
    unfold expandProperties at h
    cases hn : p.get "name" with
    | error e => simp [hn] at h
    | ok name =>
      cases hv : p.get "value" with
      | error e => simp [hn, hv] at h
      | ok value =>
        cases hs : name.toStr with
        | error e => simp [hn, hv, hs] at h
        | ok key =>
          simp only [hn, hv, hs] at h
          refine ih h ?_ (fun q hq => hp q (by simp [hq]))
          intro hm
          rcases mem_keys_setField hm with h' | h'
          · simp [propertyNamed, hn, hs, h'] at hp₀
          · exact hk h'

theorem get_eq_arr {v : Value} {k : String} {xs : List Value} (h : v.get k = .ok (.arr xs)) :
    ∃ fs, v = .obj fs ∧ lookup k fs = .arr xs := by
  cases v with
  | obj fs => exact ⟨fs, rfl, by simpa [Value.get] using h⟩
  | arr ys =>
    simp only [Value.get, Except.ok.injEq] at h
    split at h <;> cases h
  | str s =>
    simp only [Value.get, Except.ok.injEq] at h
    split at h <;> cases h
  | undefined => cases h
  | null => cases h
  | bool b => cases h
  | num lit => cases h

/-- A successful expansion of a virtual host either leaves it as it is, or assigns its
property list and deletes `properties`. -/
theorem flattenVirtualHost_cases {vh fl : Value} (h : flattenVirtualHost vh = .ok fl) :
    fl = vh ∨ ∃ fs fs', vh = .obj fs ∧ expandProperties fs (propertyList vh) = .ok fs' ∧
      fl = .obj (deleteField "properties" fs') := by
  unfold flattenVirtualHost at h
  split at h
  · rename_i fs
    simp only at h
    split at h
    · split at h
      · cases h
      · rename_i property hget
        split at h
        · split at h
          · rename_i props
            split at h
            · rename_i fs' hex
              cases h
              obtain ⟨ps, hps, hpr⟩ := get_eq_arr hget
              refine Or.inr ⟨fs, fs', rfl, ?_, rfl⟩
              simpa [propertyList, hps, hpr] using hex
            · cases h
          · cases h
        · cases h
          exact Or.inl rfl
    · cases h
      exact Or.inl rfl
  · cases h
    exact Or.inl rfl

theorem carries_flattenVirtualHost {k : String} {vh fl : Value}
    (h : flattenVirtualHost vh = .ok fl) (hk : hostCarries k vh = false) :
    carries k fl = false := by
  simp only [hostCarries, Bool.or_eq_false_iff] at hk
  obtain ⟨hc, hprops⟩ := hk
  rcases flattenVirtualHost_cases h with rfl | ⟨fs, fs', rfl, hex, rfl⟩
  · exact hc
  · have hnot := expandProperties_keys hex (not_mem_keys_of_carries hc)
      (fun p hp => by
        have := List.any_eq_false.mp hprops p hp
        simpa using this)
    simp only [carries, ownEnumerable, List.any_eq_false]
    intro kv hkv hkeq
    apply hnot
    exact mem_keys_of_deleteField (List.mem_map.mpr ⟨kv, hkv, by simpa using hkeq⟩)

theorem keeps_publishTargetServer (post : PostOracle)
    (opcoName deploymentName envName proxyName : Value)
    (opcoS deploymentS envS proxyS proxyUniqueId : String) (targetServer : Value)
    (ids : List String) (hpx : proxyUniqueId ∈ ids)
    (hts : carries "uniqueId" targetServer = false) :
    Keeps (NodesSent ids) (NodesSent ids)
      (publishTargetServer post opcoName deploymentName envName proxyName opcoS deploymentS
        envS proxyS proxyUniqueId targetServer) := by
  unfold ApigwTopo.publishTargetServer
  refine keeps_bind (keeps_liftE _ _) (fun _ => ?_) (fun _ h => h)
  refine keeps_bind (keeps_liftE _ _) (fun _ => ?_) (fun _ h => h)
  refine keeps_bind (keeps_liftE _ _) (fun hostS => ?_) (fun _ h => h)
  refine keeps_bind (keeps_liftE _ _) (fun _ => ?_) (fun _ h => h)
  refine keeps_bind (keeps_consoleOut _ _ _) (fun _ => ?_) (fun _ h => h)
  refine keeps_bind
    (keeps_sendNode post ids _ (opcoS ++ "_" ++ deploymentS ++ "_" ++ envS ++ "_" ++ hostS)
      _ _ ?_) (fun _ => ?_) (fun _ h => nodesSent_mono (fun _ hi => List.mem_cons_of_mem _ hi) h)
  · rw [lookup_objectAssign_of_not_carries _ _ _ hts]
    simp [lookup]
  · refine keeps_weaken (keeps_sendEdge post _ _ _ _ _ _ (by simp) ?_)
      (fun _ h => nodesSent_mono (fun _ hi => List.mem_cons_of_mem _ hi) h)
    exact Or.inr ⟨proxyUniqueId, rfl, List.mem_cons_of_mem _ hpx⟩

theorem keeps_publishTargetServers (rt : Runtime) (post : PostOracle)
    (opcoName deploymentName envName proxyName : Value)
    (opcoS deploymentS envS proxyS proxyUniqueId : String) (targetServers : Value)
    (ids : List String) (hpx : proxyUniqueId ∈ ids)
    (hts : ∀ ts ∈ elems targetServers, carries "uniqueId" ts = false) :
    Keeps (NodesSent ids) (NodesSent ids)
      (publishTargetServers rt post opcoName deploymentName envName proxyName opcoS
        deploymentS envS proxyS proxyUniqueId targetServers) := by
  unfold ApigwTopo.publishTargetServers
  split
  · refine keeps_liftE_bind (fun _ h => h) (fun servers hs => ?_)
    rw [elems_of_forOf hs] at hts
    refine keeps_bind (keeps_forEach servers (fun ts hmem => ?_)) (fun _ => keeps_pure _ _)
      (fun _ h => h)
    exact keeps_publishTargetServer _ _ _ _ _ _ _ _ _ _ _ _ hpx (hts ts hmem)
  · exact keeps_consoleOut _ _ _

theorem keeps_publishProxy (rt : Runtime) (post : PostOracle)
    (opcoName deploymentName envName : Value)
    (opcoS deploymentS envS envUniqueId : String) (proxy : Value)
    (ids : List String) (henv : envUniqueId ∈ ids)
    (hpx : proxyCarries "uniqueId" proxy = false) :
    Keeps (NodesSent ids) (NodesSent ids)
      (publishProxy rt post opcoName deploymentName envName opcoS deploymentS envS
        envUniqueId proxy) := by
  simp only [proxyCarries, Bool.or_eq_false_iff, List.any_eq_false] at hpx
  obtain ⟨hc, hts⟩ := hpx
  unfold ApigwTopo.publishProxy
  refine keeps_bind (keeps_liftE _ _) (fun proxyName => ?_) (fun _ h => h)
  refine keeps_bind (keeps_liftE _ _) (fun proxyS => ?_) (fun _ h => h)
  refine keeps_bind (keeps_consoleOut _ _ _) (fun _ => ?_) (fun _ h => h)
  refine keeps_liftE_bind (fun _ h => h) (fun created hcreated => ?_)
  refine keeps_liftE_bind (fun _ h => h) (fun el hel => ?_)
  refine keeps_bind
    (keeps_sendNode post ids _ (opcoS ++ "_" ++ deploymentS ++ "_" ++ envS ++ "_" ++ proxyS)
      _ _ ?_) (fun _ => ?_) (fun _ h => nodesSent_mono (fun _ hi => List.mem_cons_of_mem _ hi) h)
  · rw [lookup_formatStamp hel (by decide), lookup_formatStamp hcreated (by decide),
      lookup_deleteField_ne _ _ _ (by decide), lookup_objectAssign_of_not_carries _ _ _ hc]
    simp [lookup]
  · refine keeps_bind (keeps_sendEdge post _ _ _ _ _ _ (by simp) ?_) (fun _ => ?_)
      (fun _ h => nodesSent_mono (fun _ hi => List.mem_cons_of_mem _ hi) h)
    · exact Or.inr ⟨envUniqueId, rfl, List.mem_cons_of_mem _ henv⟩
    · refine keeps_liftE_bind (fun _ h => nodesSent_mono (fun _ hi => List.mem_cons_of_mem _ hi) h)
        (fun targetServers hget => ?_)
      rw [field_of_get hget] at hts
      refine keeps_weaken (keeps_publishTargetServers rt post _ _ _ _ _ _ _ _ _ _ _ (by simp)
        (fun ts hmem => by simpa using hts ts hmem))
        (fun _ h => nodesSent_mono (fun _ hi => List.mem_cons_of_mem _ hi) h)

theorem keeps_publishProxies (rt : Runtime) (post : PostOracle)
    (opcoName deploymentName envName : Value)
    (opcoS deploymentS envS envUniqueId : String) (proxies : Value)
    (ids : List String) (henv : envUniqueId ∈ ids)
    (hpx : ∀ px ∈ elems proxies, proxyCarries "uniqueId" px = false) :
    Keeps (NodesSent ids) (NodesSent ids)
      (publishProxies rt post opcoName deploymentName envName opcoS deploymentS envS
        envUniqueId proxies) := by
  unfold ApigwTopo.publishProxies
  split
  · refine keeps_liftE_bind (fun _ h => h) (fun items hs => ?_)
    rw [elems_of_forOf hs] at hpx
    refine keeps_bind (keeps_forEach items (fun px hmem => ?_)) (fun _ => keeps_pure _ _)
      (fun _ h => h)
    exact keeps_publishProxy _ _ _ _ _ _ _ _ _ _ _ henv (hpx px hmem)
  · exact keeps_consoleOut _ _ _

theorem keeps_publishVirtualHost (post : PostOracle)
    (opcoName deploymentName envName : Value)
    (opcoS deploymentS envS envUniqueId : String) (virtualHost : Value)
    (ids : List String) (henv : envUniqueId ∈ ids)
    (hvh : hostCarries "uniqueId" virtualHost = false) :
    Keeps (NodesSent ids) (NodesSent ids)
      (publishVirtualHost post opcoName deploymentName envName opcoS deploymentS envS
        envUniqueId virtualHost) := by
  unfold ApigwTopo.publishVirtualHost
  refine keeps_bind (keeps_liftE _ _) (fun vHostName => ?_) (fun _ h => h)
  refine keeps_bind (keeps_liftE _ _) (fun vHostS => ?_) (fun _ h => h)
  refine keeps_bind (keeps_consoleOut _ _ _) (fun _ => ?_) (fun _ h => h)
  refine keeps_liftE_bind (fun _ h => h) (fun flattened hfl => ?_)
  refine keeps_bind
    (keeps_sendNode post ids _ (opcoS ++ "_" ++ deploymentS ++ "_" ++ envS ++ "_" ++ vHostS)
      _ _ ?_) (fun _ => ?_) (fun _ h => nodesSent_mono (fun _ hi => List.mem_cons_of_mem _ hi) h)
  · rw [lookup_objectAssign_of_not_carries _ _ _ (carries_flattenVirtualHost hfl hvh)]
    simp [lookup]
  · refine keeps_bind (keeps_sendEdge post _ _ _ _ _ _ (by simp) ?_) (fun _ => ?_)
      (fun _ h => nodesSent_mono (fun _ hi => List.mem_cons_of_mem _ hi) h)
    · exact Or.inr ⟨envUniqueId, rfl, List.mem_cons_of_mem _ henv⟩
    · exact keeps_weaken (keeps_pure _ _)
        (fun _ h => nodesSent_mono (fun _ hi => List.mem_cons_of_mem _ hi) h)

theorem keeps_publishVirtualHosts (rt : Runtime) (post : PostOracle)
    (opcoName deploymentName envName : Value)
    (opcoS deploymentS envS envUniqueId : String) (environment virtualHosts : Value)
    (ids : List String) (henv : envUniqueId ∈ ids)
    (hvh : ∀ vh ∈ elems virtualHosts, hostCarries "uniqueId" vh = false) :
    Keeps (NodesSent ids) (NodesSent ids)
      (publishVirtualHosts rt post opcoName deploymentName envName opcoS deploymentS envS
        envUniqueId environment virtualHosts) := by
  unfold ApigwTopo.publishVirtualHosts
  split
  · refine keeps_liftE_bind (fun _ h => h) (fun hosts hs => ?_)
    rw [elems_of_forOf hs] at hvh
    refine keeps_bind (keeps_forEach hosts (fun vh hmem => ?_)) (fun _ => keeps_pure _ _)
      (fun _ h => h)
    exact keeps_publishVirtualHost _ _ _ _ _ _ _ _ _ _ henv (hvh vh hmem)
  · exact keeps_bind (keeps_consoleOut _ _ _) (fun _ => keeps_pure _ _) (fun _ h => h)

theorem keeps_publishEnvironment (rt : Runtime) (post : PostOracle)
    (opcoName deploymentName : Value)
    (opcoS deploymentS deploymentUniqueName : String) (environment : Value)
    (ids : List String) (hdep : deploymentUniqueName ∈ ids)
    (henv : environmentCarries "uniqueId" environment = false) :
    Keeps (NodesSent ids) (NodesSent ids)
      (publishEnvironment rt post opcoName deploymentName opcoS deploymentS
        deploymentUniqueName environment) := by
  simp only [environmentCarries, Bool.or_eq_false_iff, List.any_eq_false] at henv
  obtain ⟨⟨hc, hvh⟩, hpx⟩ := henv
  unfold ApigwTopo.publishEnvironment
  refine keeps_bind (keeps_liftE _ _) (fun envName => ?_) (fun _ h => h)
  refine keeps_bind (keeps_liftE _ _) (fun envS => ?_) (fun _ h => h)
  refine keeps_bind (keeps_consoleOut _ _ _) (fun _ => ?_) (fun _ h => h)
  refine keeps_liftE_bind (fun _ h => h) (fun created hcreated => ?_)
  refine keeps_liftE_bind (fun _ h => h) (fun modified hmodified => ?_)
  have up : ∀ c, NodesSent ((opcoS ++ "_" ++ deploymentS ++ "_" ++ envS) :: ids) c →
      NodesSent ids c := fun _ h => nodesSent_mono (fun _ hi => List.mem_cons_of_mem _ hi) h
  refine keeps_bind
    (keeps_sendNode post ids _ (opcoS ++ "_" ++ deploymentS ++ "_" ++ envS) _ _ ?_)
    (fun _ => ?_) up
  · rw [lookup_deleteField_ne _ _ _ (by decide), lookup_deleteField_ne _ _ _ (by decide),
      lookup_formatStamp hmodified (by decide), lookup_formatStamp hcreated (by decide),
      lookup_objectAssign_of_not_carries _ _ _ hc]
    simp [lookup]
  · refine keeps_bind (keeps_sendEdge post _ _ _ _ _ _ (by simp) ?_) (fun _ => ?_) up
    · exact Or.inr ⟨deploymentUniqueName, rfl, List.mem_cons_of_mem _ hdep⟩
    · refine keeps_liftE_bind up (fun virtualHosts hget => ?_)
      rw [field_of_get hget] at hvh
      refine keeps_bind (keeps_publishVirtualHosts rt post _ _ _ _ _ _ _ _ _ _ (by simp)
        (fun vh hmem => by simpa using hvh vh hmem)) (fun _ => ?_) up
      refine keeps_liftE_bind up (fun proxies hget' => ?_)
      rw [field_of_get hget'] at hpx
      refine keeps_bind (keeps_publishProxies rt post _ _ _ _ _ _ _ _ _ (by simp)
        (fun px hmem => by simpa using hpx px hmem)) (fun _ => ?_) up
      exact keeps_weaken (keeps_pure _ _) up

theorem keeps_publishEnvironments (rt : Runtime) (post : PostOracle)
    (opcoName deploymentName : Value) (opcoS deploymentS deploymentUniqueName : String)
    (opcoElement environmentsDetails : Value)
    (ids : List String) (hdep : deploymentUniqueName ∈ ids)
    (henv : ∀ env ∈ elems environmentsDetails, environmentCarries "uniqueId" env = false) :
    Keeps (NodesSent ids) (NodesSent ids)
      (publishEnvironments rt post opcoName deploymentName opcoS deploymentS
        deploymentUniqueName opcoElement environmentsDetails) := by
  unfold ApigwTopo.publishEnvironments
  split
  · refine keeps_liftE_bind (fun _ h => h) (fun environments hs => ?_)
    rw [elems_of_forOf hs] at henv
    refine keeps_bind (keeps_forEach environments (fun env hmem => ?_))
      (fun _ => keeps_pure _ _) (fun _ h => h)
    exact keeps_publishEnvironment _ _ _ _ _ _ _ _ _ hdep (henv env hmem)
  · exact keeps_liftE _ _

theorem keeps_publishDeployment (rt : Runtime) (post : PostOracle) (mapping : Fields)
    (opcoElement : Value) (hagg : aggregateCarries "uniqueId" opcoElement = false) :
    Keeps (NodesSent []) (NodesSent []) (publishDeployment rt post mapping opcoElement) := by
  simp only [aggregateCarries, Bool.or_eq_false_iff, List.any_eq_false] at hagg
  obtain ⟨hc, henv⟩ := hagg
  unfold ApigwTopo.publishDeployment
  refine keeps_bind (keeps_liftE _ _) (fun opcoName => ?_) (fun _ h => h)
  refine keeps_bind (keeps_liftE _ _) (fun opcoS => ?_) (fun _ h => h)
  refine keeps_liftE_bind (fun _ h => h) (fun deploymentDetails hget => ?_)
  rw [field_of_get hget] at hc
  refine keeps_bind (keeps_liftE _ _) (fun deploymentName => ?_) (fun _ h => h)
  refine keeps_bind (keeps_liftE _ _) (fun opcoIdS => ?_) (fun _ h => h)
  split
  · refine keeps_bind (keeps_liftE _ _) (fun deploymentS => ?_) (fun _ h => h)
    refine keeps_bind (keeps_consoleOut _ _ _) (fun _ => ?_) (fun _ h => h)
    refine keeps_liftE_bind (fun _ h => h) (fun created hcreated => ?_)
    refine keeps_liftE_bind (fun _ h => h) (fun el hel => ?_)
    have up : ∀ c, NodesSent [opcoS ++ "_" ++ deploymentS] c → NodesSent [] c :=
      fun _ h => nodesSent_mono (fun _ hi => List.mem_cons_of_mem _ hi) h
    refine keeps_bind (keeps_sendNode post [] _ (opcoS ++ "_" ++ deploymentS) _ _ ?_)
      (fun _ => ?_) up
    · rw [lookup_formatStamp hel (by decide), lookup_formatStamp hcreated (by decide),
        lookup_deleteField_ne _ _ _ (by decide), lookup_objectAssign_of_not_carries _ _ _ hc]
      simp [lookup]
    · refine keeps_bind (keeps_sendEdge post _ _ _ _ _ _ (by simp) (Or.inl rfl))
        (fun _ => ?_) up
      refine keeps_liftE_bind up (fun environmentsDetails hget' => ?_)
      rw [field_of_get hget'] at henv
      exact keeps_weaken (keeps_publishEnvironments rt post _ _ _ _ _ _ _ _ (by simp)
        (fun env hmem => by simpa using henv env hmem)) up
  · exact keeps_bind (keeps_consoleOut _ _ _) (fun _ => keeps_pure _ _) (fun _ h => h)

theorem keeps_fetchTopologyData (P : List Call → Prop) (topo : HttpGet) :
    Keeps P P (fetchTopologyData topo) := by
  intro t h
  rw [silent_fetchTopologyData topo t]
  exact h

theorem keeps_publishAll (rt : Runtime) (post : PostOracle) (data opcoTopoData : Value)
    (hdata : treeCarries "uniqueId" data = false) :
    Keeps (NodesSent []) (NodesSent []) (publishAll rt post data opcoTopoData) := by
  simp only [treeCarries, List.any_eq_false] at hdata
  unfold ApigwTopo.publishAll
  split
  · refine keeps_liftE_bind (fun _ h => h) (fun items hs => ?_)
    rw [elems_of_forOf hs] at hdata
    refine keeps_bind (keeps_forEach items (fun agg hmem => ?_)) (fun _ => keeps_pure _ _)
      (fun _ h => h)
    exact keeps_publishDeployment _ _ _ _ (by simpa using hdata agg hmem)
  · exact keeps_bind (keeps_consoleOut _ _ _) (fun _ => keeps_pure _ _) (fun _ h => h)

/-- C4, as the code has it. For every tree none of whose source documents carries an
attribute named `uniqueId` (for a virtual host: nor a property of that name), for every
runtime, opco lookup and pattern of POST outcomes, and whether the run completes or
raises, every edge call of the log is preceded by a node call whose `uniqueId` is the
edge's `_toUniqueId`, and every edge other than opco to deployment by a node call
whose `uniqueId` is its `_fromUniqueId`. -/
theorem node_before_edge (rt : Runtime) (topo : HttpGet) (post : PostOracle) (data : Value)
    (hdata : treeCarries "uniqueId" data = false) :
    NodeBeforeEdge (runPublisher rt topo post data).2.calls := by
  have key : Keeps (NodesSent []) (NodesSent []) (transformDataAndSendToApi rt topo post data) := by
    unfold transformDataAndSendToApi
    split
    · refine keeps_bind (keeps_liftE _ _) (fun _ => ?_) (fun _ h => h)
      refine keeps_bind (keeps_liftE _ _) (fun _ => ?_) (fun _ h => h)
      refine keeps_bind (keeps_consoleOut _ _ _) (fun _ => ?_) (fun _ h => h)
      refine keeps_bind (keeps_fetchTopologyData _ _) (fun opcoTopoData => ?_) (fun _ h => h)
      exact keeps_publishAll _ _ _ _ hdata
    · exact keeps_bind (keeps_consoleOut _ _ _) (fun _ => keeps_pure _ _) (fun _ h => h)
  exact (key ⟨[], []⟩ ⟨nodeBeforeEdge_nil, fun _ h => by simp at h⟩).1

/-- Witness for C4: the end-to-end scenario carries no `uniqueId` attribute, and its log
has every node before the edges that name it. -/
theorem node_before_edge_witness :
    treeCarries "uniqueId" scenarioData = false ∧
    NodeBeforeEdge (runPublisher refRuntime scenarioLookup (fun _ _ => true) scenarioData).2.calls :=
  ⟨by decide,
   node_before_edge refRuntime scenarioLookup (fun _ _ => true) scenarioData (by decide)⟩

/-- Counterexample to C4 as stated: a deployment document that carries its own
`uniqueId` attribute overrides the composed identifier in the node payload, so the
edge opco to deployment names a `_toUniqueId` for which no node call was issued. -/
theorem node_before_edge_override_counterexample :
    ¬ NodeBeforeEdge
      (runPublisher refRuntime scenarioLookup (fun _ _ => true) overriddenIdData).2.calls := by
  intro h
  have hcalls : (runPublisher refRuntime scenarioLookup (fun _ _ => true)
      overriddenIdData).2.calls =
      [⟨.resources, .obj [("uniqueId", .str "x"), ("entityTypes", .arr [.str "deployment"]),
          ("matchTokens", .arr [.str "NL_apigw-nl"]), ("opco", .str "NL"),
          ("tags", .arr [.str "apigw-nl"]), ("name", .str "apigw-nl")]⟩] ++
      (⟨.references, .obj [("_fromUniqueId", .str "opco-123"),
          ("_toUniqueId", .str "NL_apigw-nl"), ("_edgeType", .str "manages")]⟩ : Call) ::
      [⟨.resources, .obj [("uniqueId", .str "NL_apigw-nl_prod"),
          ("entityTypes", .arr [.str "environment"]),
          ("matchTokens", .arr [.str "NL_apigw-nl_prod"]), ("opco", .str "NL"),
          ("deployment", .str "apigw-nl"),
          ("tags", .arr [.str "apigw-nl", .str "prod"]), ("name", .str "prod")]⟩,
       ⟨.references, .obj [("_fromUniqueId", .str "NL_apigw-nl"),
          ("_toUniqueId", .str "NL_apigw-nl_prod"), ("_edgeType", .str "runsOn")]⟩] := by
    decide
  obtain ⟨⟨n, hn, _, hid⟩, _⟩ := h _ _ _ hcalls rfl
  simp only [List.mem_singleton] at hn
  subst hn
  revert hid
  decide

/-! ## The order of calls -/

theorem Pub.pure_bind {α β : Type} (a : α) (f : α → Pub β) :
    ((pure a : Pub α) >>= f) = f a := rfl

theorem emitsAs_pure {α : Type} (a : α) : EmitsAs (pure a : Pub α) [] :=
  fun t => ⟨a, t, rfl, [], by simp, rfl⟩

theorem emitsAs_consoleOut (l : Level) (s : String) : EmitsAs (consoleOut l s) [] :=
  fun t => ⟨(), _, rfl, [], by simp, rfl⟩

theorem emitsAs_sendAndReport (post : PostOracle) (ep : Endpoint) (d : Value) (g b : String) :
    EmitsAs (sendAndReport post ep d g b) [Call.summary ⟨ep, d⟩] :=
  fun t => ⟨(), _, sendAndReport_apply post ep d g b t, [⟨ep, d⟩], rfl, rfl⟩

theorem emitsAs_bind {α β : Type} {m : Pub α} {f : α → Pub β} {n₁ n₂ : List Summary}
    (hm : EmitsAs m n₁) (hf : ∀ a, EmitsAs (f a) n₂) : EmitsAs (m >>= f) (n₁ ++ n₂) := by
  intro t
  obtain ⟨a, t', hmt, cs, hcs, hn⟩ := hm t
  obtain ⟨b, t'', hft, cs', hcs', hn'⟩ := hf a t'
  refine ⟨b, t'', ?_, cs ++ cs', ?_, ?_⟩
  · rw [Pub.bind_apply, hmt]
    exact hft
  · rw [hcs', hcs, List.append_assoc]
  · rw [List.map_append, hn, hn']

theorem emitsAs_congr {α : Type} {m : Pub α} {n n' : List Summary} (hm : EmitsAs m n)
    (h : n = n') : EmitsAs m n' := h ▸ hm

theorem emitsAs_forEach {α β : Type} {f : α → Pub β} {e : α → List Summary} (xs : List α)
    (hf : ∀ x ∈ xs, EmitsAs (f x) (e x)) : EmitsAs (Pub.forEach f xs) (xs.flatMap e) := by
  induction xs with
  | nil => exact emitsAs_pure _
  | cons x xs ih =>
    show EmitsAs (f x >>= fun y => Pub.forEach f xs >>= fun ys => Pure.pure (y :: ys)) _
    refine emitsAs_congr (emitsAs_bind (hf x (by simp)) (fun y =>
      emitsAs_bind (ih (fun z hz => hf z (by simp [hz]))) (fun ys => emitsAs_pure _))) ?_
    simp [List.flatMap_cons]

theorem toStr_of_printable {v : Value} (h : printable v = true) : v.toStr = .ok v.text := by
  unfold printable at h
  unfold Value.text
  cases hs : v.toStr with
  | ok s => rfl
  | error e => simp [hs] at h

theorem summary_node (el : Fields) :
    Call.summary ⟨.resources, .obj el⟩ =
      (.resources, [lookup "uniqueId" el, lookup "entityTypes" el]) := rfl

theorem summary_edge (fromId : Value) (toId ty : String) :
    Call.summary ⟨.references, edgePayload fromId (.str toId) ty⟩ = edgeOf fromId toId ty := by
  simp [Call.summary, Call.field, field, Value.get, edgePayload, lookup, edgeOf]

theorem emitsAs_publishTargetServer (post : PostOracle)
    (opcoName deploymentName envName proxyName : Value)
    (opcoS deploymentS envS proxyS proxyUniqueId : String) (targetServer : Value)
    (hok : targetServerOk targetServer = true)
    (hid : carries "uniqueId" targetServer = false)
    (hty : carries "entityTypes" targetServer = false) :
    EmitsAs
      (publishTargetServer post opcoName deploymentName envName proxyName opcoS deploymentS
        envS proxyS proxyUniqueId targetServer)
      (expectedTargetServer (opcoS ++ "_" ++ deploymentS ++ "_" ++ envS) proxyUniqueId
        targetServer) := by
  cases targetServer with
  | obj fs =>
    simp only [targetServerOk, Bool.and_eq_true] at hok
    obtain ⟨hname, hhost⟩ := hok
    unfold ApigwTopo.publishTargetServer
    simp only [Value.get, liftE_ok_bind, toStr_of_printable hname, toStr_of_printable hhost]
    refine emitsAs_congr (emitsAs_bind (emitsAs_consoleOut _ _) (fun _ =>
      emitsAs_bind (emitsAs_sendAndReport _ _ _ _ _) (fun _ =>
        emitsAs_sendAndReport _ _ _ _ _))) ?_
    rw [summary_node, summary_edge, lookup_objectAssign_of_not_carries _ _ _ hid,
      lookup_objectAssign_of_not_carries _ _ _ hty]
    simp [expectedTargetServer, nodeOf, lookup, field, Value.get]
  | _ => simp [targetServerOk] at hok

theorem lookup_mem_of_mem_keys {k : String} {fs : Fields} (h : k ∈ fs.map Prod.fst) :
    (k, lookup k fs) ∈ fs := by
  induction fs with
  | nil => simp at h
  | cons kv rest ih =>
    obtain ⟨k₀, v₀⟩ := kv
    by_cases h₀ : k₀ = k
    · subst h₀
      simp [lookup]
    · have : k ∈ rest.map Prod.fst := by
        simp only [List.map_cons, List.mem_cons] at h
        rcases h with h | h
        · exact absurd h.symm h₀
        · exact h
      simp [lookup, h₀, ih this]

theorem lookup_undefined_of_not_mem_keys {k : String} {fs : Fields}
    (h : k ∉ fs.map Prod.fst) : lookup k fs = .undefined := by
  induction fs with
  | nil => rfl
  | cons kv rest ih =>
    obtain ⟨k₀, v₀⟩ := kv
    simp only [List.map_cons, List.mem_cons, not_or] at h
    simp [lookup, Ne.symm h.1, ih h.2]

/-- A time stamp of a payload built over a well-formed document can be formatted. -/
theorem stamp_ready (rt : Runtime) (doc base : Fields) (k : String)
    (hk : k = "createdAt" ∨ k = "lastModifiedAt") (hok : stampsOk rt doc = true)
    (hbase : lookup k base = .undefined)
    (ht : (lookup k (objectAssign base (.obj doc))).truthy = true) :
    ∃ s, rt.epochToHumanReadable (lookup k (objectAssign base (.obj doc))) = .ok s := by
  unfold objectAssign at ht ⊢
  simp only [ownEnumerable] at ht ⊢
  rw [lookup_foldl_setField] at ht ⊢
  by_cases hm : k ∈ doc.map Prod.fst
  · rw [if_pos hm] at ht ⊢
    have hm' : k ∈ doc.reverse.map Prod.fst := by simpa using hm
    have hmem : (k, lookup k doc.reverse) ∈ doc := by
      simpa using lookup_mem_of_mem_keys hm'
    have := List.all_eq_true.mp hok _ hmem
    simp only [Bool.or_eq_true, Bool.not_eq_true', decide_eq_true_eq] at this
    rcases this with (h | h) | h
    · rcases hk with hk | hk <;> simp [hk] at h
    · rw [h] at ht
      exact Bool.noConfusion ht
    · cases hr : rt.epochToHumanReadable (lookup k doc.reverse) with
      | ok s => exact ⟨s, rfl⟩
      | error e => simp [hr] at h
  · rw [if_neg hm, hbase] at ht
    exact Bool.noConfusion ht

theorem formatStamp_total (rt : Runtime) (k : String) (el : Fields)
    (h : (lookup k el).truthy = true → ∃ s, rt.epochToHumanReadable (lookup k el) = .ok s) :
    ∃ el', formatStamp rt k el = .ok el' ∧ ∀ k', k' ≠ k → lookup k' el' = lookup k' el := by
  unfold formatStamp
  by_cases ht : (lookup k el).truthy = true
  · obtain ⟨s, hs⟩ := h ht
    refine ⟨setField k (.str s) el, by simp [ht, hs], fun k' hk' => ?_⟩
    exact lookup_setField_ne _ _ _ _ hk'
  · exact ⟨el, by simp [ht], fun _ _ => rfl⟩

theorem expandProperties_total (fs : Fields) (props : List Value)
    (h : props.all propertyOk = true) : ∃ fs', expandProperties fs props = .ok fs' := by
  induction props generalizing fs with
  | nil => exact ⟨fs, rfl⟩
  | cons p rest ih =>
    simp only [List.all_cons, Bool.and_eq_true] at h
    obtain ⟨hp, hrest⟩ := h
    cases p with
    | obj pfs =>
      simp only [propertyOk] at hp
      simp only [expandProperties, Value.get, toStr_of_printable hp]
      exact ih _ hrest
    | _ => simp [propertyOk] at hp

theorem flattenVirtualHost_total (fs : Fields) (h : propertiesOk fs = true) :
    ∃ fl, flattenVirtualHost (.obj fs) = .ok fl := by
  unfold propertiesOk at h
  cases hps : lookup "properties" fs with
  | undefined => exact ⟨.obj fs, by simp [flattenVirtualHost, hps, Value.truthy]⟩
  | obj ps =>
    rw [hps] at h
    simp only at h
    cases hpr : lookup "property" ps with
    | undefined =>
      exact ⟨.obj fs, by simp [flattenVirtualHost, hps, hpr, Value.truthy, Value.get]⟩
    | arr props =>
      rw [hpr] at h
      simp only at h
      obtain ⟨fs', hfs'⟩ := expandProperties_total fs props h
      exact ⟨.obj (deleteField "properties" fs'),
        by simp [flattenVirtualHost, hps, hpr, Value.truthy, Value.get, hfs']⟩
    | null => rw [hpr] at h; simp at h
    | bool b => rw [hpr] at h; simp at h
    | num l => rw [hpr] at h; simp at h
    | str s => rw [hpr] at h; simp at h
    | obj o => rw [hpr] at h; simp at h
  | null => rw [hps] at h; simp at h
  | bool b => rw [hps] at h; simp at h
  | num l => rw [hps] at h; simp at h
  | str s => rw [hps] at h; simp at h
  | arr xs => rw [hps] at h; simp at h

theorem emitsAs_console_bind {β : Type} {l : Level} {s : String} {f : Unit → Pub β}
    {n : List Summary} (hf : EmitsAs (f ()) n) : EmitsAs (ApigwTopo.consoleOut l s >>= f) n :=
  emitsAs_congr (emitsAs_bind (emitsAs_consoleOut l s) (fun _ => hf)) (by simp)

theorem emitsAs_send_bind {β : Type} {post : PostOracle} {ep : Endpoint} {d : Value}
    {g b : String} {f : Unit → Pub β} {n : List Summary} (hf : EmitsAs (f ()) n) :
    EmitsAs (ApigwTopo.sendAndReport post ep d g b >>= f) (Call.summary ⟨ep, d⟩ :: n) :=
  emitsAs_congr (emitsAs_bind (emitsAs_sendAndReport post ep d g b) (fun _ => hf)) (by simp)

/-- The two time stamps of a payload are formatted one after the other; the other keys
keep their values. -/
theorem emitsAs_stamps_bind {β : Type} {rt : Runtime} {el : Fields} {f : Fields → Pub β}
    {n : List Summary}
    (hready : ∀ k, k = "createdAt" ∨ k = "lastModifiedAt" → (lookup k el).truthy = true →
      ∃ s, rt.epochToHumanReadable (lookup k el) = .ok s)
    (hf : ∀ el', (∀ k', k' ≠ "createdAt" → k' ≠ "lastModifiedAt" →
      lookup k' el' = lookup k' el) → EmitsAs (f el') n) :
    EmitsAs (ApigwTopo.liftE (formatStamp rt "createdAt" el) >>= fun created =>
      ApigwTopo.liftE (formatStamp rt "lastModifiedAt" created) >>= f) n := by
  obtain ⟨created, hcreated, hc⟩ := formatStamp_total rt "createdAt" el
    (hready _ (Or.inl rfl))
  obtain ⟨el', hel, he⟩ := formatStamp_total rt "lastModifiedAt" created
    (fun ht => by
      rw [hc _ (by decide)] at ht ⊢
      exact hready _ (Or.inr rfl) ht)
  rw [hcreated, liftE_ok_bind, hel, liftE_ok_bind]
  exact hf el' (fun k' h1 h2 => by rw [he _ h2, hc _ h1])

theorem emitsAs_publishTargetServers (rt : Runtime) (post : PostOracle)
    (opcoName deploymentName envName proxyName : Value)
    (opcoS deploymentS envS proxyS proxyUniqueId : String) (targetServers : Value)
    (hok : arrayOf targetServerOk targetServers = true)
    (hid : ∀ ts ∈ elems targetServers, carries "uniqueId" ts = false)
    (hty : ∀ ts ∈ elems targetServers, carries "entityTypes" ts = false) :
    EmitsAs
      (publishTargetServers rt post opcoName deploymentName envName proxyName opcoS
        deploymentS envS proxyS proxyUniqueId targetServers)
      ((elems targetServers).flatMap
        (expectedTargetServer (opcoS ++ "_" ++ deploymentS ++ "_" ++ envS) proxyUniqueId)) := by
  unfold ApigwTopo.publishTargetServers
  cases targetServers with
  | undefined => simpa [nonEmptyGuard, elems, forOf] using emitsAs_consoleOut _ _
  | arr xs =>
    simp only [arrayOf] at hok
    simp only [elems, forOf] at hid hty
    cases xs with
    | nil => simpa [nonEmptyGuard, elems, forOf] using emitsAs_consoleOut _ _
    | cons x rest =>
      simp only [nonEmptyGuard, List.isEmpty_cons, Bool.not_false, if_true, forOf,
        liftE_ok_bind, elems]
      refine emitsAs_congr (emitsAs_bind (emitsAs_forEach
        (e := expectedTargetServer (opcoS ++ "_" ++ deploymentS ++ "_" ++ envS) proxyUniqueId)
        (x :: rest) (fun ts hmem => ?_)) (fun _ => emitsAs_pure _)) (by simp)
      exact emitsAs_publishTargetServer _ _ _ _ _ _ _ _ _ _ _
        (List.all_eq_true.mp hok ts hmem) (hid ts hmem) (hty ts hmem)
  | _ => simp [arrayOf] at hok

theorem emitsAs_publishProxy (rt : Runtime) (post : PostOracle)
    (opcoName deploymentName envName : Value)
    (opcoS deploymentS envS envUniqueId : String) (proxy : Value)
    (henv : envUniqueId = opcoS ++ "_" ++ deploymentS ++ "_" ++ envS)
    (hok : proxyOk rt proxy = true)
    (hid : proxyCarries "uniqueId" proxy = false)
    (hty : proxyCarries "entityTypes" proxy = false) :
    EmitsAs
      (publishProxy rt post opcoName deploymentName envName opcoS deploymentS envS
        envUniqueId proxy)
      (expectedProxy envUniqueId proxy) := by
  cases proxy with
  | obj fs =>
    simp only [proxyOk, Bool.and_eq_true] at hok
    obtain ⟨⟨hname, hstamps⟩, hts⟩ := hok
    simp only [proxyCarries, Bool.or_eq_false_iff, List.any_eq_false] at hid hty
    obtain ⟨hid, hids⟩ := hid
    obtain ⟨hty, htys⟩ := hty
    have hfield : field "targetServers" (.obj fs) = lookup "targetServers" fs := rfl
    rw [hfield] at hids htys
    unfold ApigwTopo.publishProxy
    simp only [Value.get, liftE_ok_bind, toStr_of_printable hname]
    refine emitsAs_console_bind (emitsAs_stamps_bind (fun k hk ht => ?_) (fun el hl => ?_))
    · have hne : k ≠ "targetServers" := by rcases hk with hk | hk <;> simp [hk]
      rw [lookup_deleteField_ne _ _ _ hne] at ht ⊢
      exact stamp_ready rt fs _ k hk hstamps
        (by rcases hk with hk | hk <;> simp [hk, lookup]) ht
    · refine emitsAs_congr (emitsAs_send_bind (emitsAs_send_bind
        (emitsAs_publishTargetServers rt post _ _ _ _ _ _ _ _ _ _ hts
          (fun ts hmem => by simpa using hids ts hmem)
          (fun ts hmem => by simpa using htys ts hmem)))) ?_
      rw [summary_node, summary_edge, hl _ (by decide) (by decide),
        hl _ (by decide) (by decide), lookup_deleteField_ne _ _ _ (by decide),
        lookup_deleteField_ne _ _ _ (by decide),
        lookup_objectAssign_of_not_carries _ _ _ hid,
        lookup_objectAssign_of_not_carries _ _ _ hty]
      subst henv
      simp [expectedProxy, nodeOf, lookup, field, Value.get]
  | _ => simp [proxyOk] at hok

theorem emitsAs_publishProxies (rt : Runtime) (post : PostOracle)
    (opcoName deploymentName envName : Value)
    (opcoS deploymentS envS envUniqueId : String) (proxies : Value)
    (henv : envUniqueId = opcoS ++ "_" ++ deploymentS ++ "_" ++ envS)
    (hok : arrayOf (proxyOk rt) proxies = true)
    (hid : ∀ px ∈ elems proxies, proxyCarries "uniqueId" px = false)
    (hty : ∀ px ∈ elems proxies, proxyCarries "entityTypes" px = false) :
    EmitsAs
      (publishProxies rt post opcoName deploymentName envName opcoS deploymentS envS
        envUniqueId proxies)
      ((elems proxies).flatMap (expectedProxy envUniqueId)) := by
  unfold ApigwTopo.publishProxies
  cases proxies with
  | undefined => simpa [nonEmptyGuard, elems, forOf] using emitsAs_consoleOut _ _
  | arr xs =>
    simp only [arrayOf] at hok
    simp only [elems, forOf] at hid hty
    cases xs with
    | nil => simpa [nonEmptyGuard, elems, forOf] using emitsAs_consoleOut _ _
    | cons x rest =>
      simp only [nonEmptyGuard, List.isEmpty_cons, Bool.not_false, if_true, forOf,
        liftE_ok_bind, elems]
      refine emitsAs_congr (emitsAs_bind (emitsAs_forEach (e := expectedProxy envUniqueId)
        (x :: rest) (fun px hmem => ?_)) (fun _ => emitsAs_pure _)) (by simp)
      exact emitsAs_publishProxy _ _ _ _ _ _ _ _ _ _ henv
        (List.all_eq_true.mp hok px hmem) (hid px hmem) (hty px hmem)
  | _ => simp [arrayOf] at hok

theorem emitsAs_publishVirtualHost (post : PostOracle)
    (opcoName deploymentName envName : Value)
    (opcoS deploymentS envS envUniqueId : String) (virtualHost : Value)
    (henv : envUniqueId = opcoS ++ "_" ++ deploymentS ++ "_" ++ envS)
    (hok : virtualHostOk virtualHost = true)
    (hid : hostCarries "uniqueId" virtualHost = false)
    (hty : hostCarries "entityTypes" virtualHost = false) :
    EmitsAs
      (publishVirtualHost post opcoName deploymentName envName opcoS deploymentS envS
        envUniqueId virtualHost)
      (expectedVirtualHost envUniqueId virtualHost) := by
  cases virtualHost with
  | obj fs =>
    simp only [virtualHostOk, Bool.and_eq_true] at hok
    obtain ⟨⟨hname, hprops⟩, _⟩ := hok
    obtain ⟨fl, hfl⟩ := flattenVirtualHost_total fs hprops
    unfold ApigwTopo.publishVirtualHost
    simp only [Value.get, liftE_ok_bind, toStr_of_printable hname, hfl]
    refine emitsAs_console_bind (emitsAs_congr (emitsAs_send_bind (emitsAs_send_bind
      (emitsAs_pure _))) ?_)
    rw [summary_node, summary_edge,
      lookup_objectAssign_of_not_carries _ _ _ (carries_flattenVirtualHost hfl hid),
      lookup_objectAssign_of_not_carries _ _ _ (carries_flattenVirtualHost hfl hty)]
    subst henv
    simp [expectedVirtualHost, nodeOf, lookup, field, Value.get]
  | _ => simp [virtualHostOk] at hok

theorem emitsAs_publishVirtualHosts (rt : Runtime) (post : PostOracle)
    (opcoName deploymentName envName : Value)
    (opcoS deploymentS envS envUniqueId : String) (environment virtualHosts : Value)
    (henv : envUniqueId = opcoS ++ "_" ++ deploymentS ++ "_" ++ envS)
    (hok : arrayOf virtualHostOk virtualHosts = true)
    (hid : ∀ vh ∈ elems virtualHosts, hostCarries "uniqueId" vh = false)
    (hty : ∀ vh ∈ elems virtualHosts, hostCarries "entityTypes" vh = false) :
    EmitsAs
      (publishVirtualHosts rt post opcoName deploymentName envName opcoS deploymentS envS
        envUniqueId environment virtualHosts)
      ((elems virtualHosts).flatMap (expectedVirtualHost envUniqueId)) := by
  unfold ApigwTopo.publishVirtualHosts
  cases virtualHosts with
  | undefined =>
    simpa [nonEmptyGuard, elems, forOf] using emitsAs_console_bind (emitsAs_pure environment)
  | arr xs =>
    simp only [arrayOf] at hok
    simp only [elems, forOf] at hid hty
    cases xs with
    | nil =>
      simpa [nonEmptyGuard, elems, forOf] using
        emitsAs_console_bind (emitsAs_pure environment)
    | cons x rest =>
      simp only [nonEmptyGuard, List.isEmpty_cons, Bool.not_false, if_true, forOf,
        liftE_ok_bind, elems]
      refine emitsAs_congr (emitsAs_bind (emitsAs_forEach (e := expectedVirtualHost envUniqueId)
        (x :: rest) (fun vh hmem => ?_)) (fun _ => emitsAs_pure _)) (by simp)
      exact emitsAs_publishVirtualHost _ _ _ _ _ _ _ _ _ henv
        (List.all_eq_true.mp hok vh hmem) (hid vh hmem) (hty vh hmem)
  | _ => simp [arrayOf] at hok

theorem emitsAs_publishEnvironment (rt : Runtime) (post : PostOracle)
    (opcoName deploymentName : Value)
    (opcoS deploymentS deploymentUniqueName : String) (environment : Value)
    (hdep : deploymentUniqueName = opcoS ++ "_" ++ deploymentS)
    (hok : environmentOk rt environment = true)
    (hid : environmentCarries "uniqueId" environment = false)
    (hty : environmentCarries "entityTypes" environment = false) :
    EmitsAs
      (publishEnvironment rt post opcoName deploymentName opcoS deploymentS
        deploymentUniqueName environment)
      (expectedEnvironment deploymentUniqueName environment) := by
  cases environment with
  | obj fs =>
    simp only [environmentOk, Bool.and_eq_true] at hok
    obtain ⟨⟨⟨hname, hstamps⟩, hvhs⟩, hpxs⟩ := hok
    simp only [environmentCarries, Bool.or_eq_false_iff, List.any_eq_false] at hid hty
    obtain ⟨⟨hid, hidv⟩, hidp⟩ := hid
    obtain ⟨⟨hty, htyv⟩, htyp⟩ := hty
    have hfv : field "virtual-hosts" (.obj fs) = lookup "virtual-hosts" fs := rfl
    have hfp : field "proxies" (.obj fs) = lookup "proxies" fs := rfl
    rw [hfv] at hidv htyv
    rw [hfp] at hidp htyp
    unfold ApigwTopo.publishEnvironment
    simp only [Value.get, liftE_ok_bind, toStr_of_printable hname]
    refine emitsAs_console_bind (emitsAs_stamps_bind (fun k hk ht => ?_) (fun el hl => ?_))
    · exact stamp_ready rt fs _ k hk hstamps
        (by rcases hk with hk | hk <;> simp [hk, lookup]) ht
    · refine emitsAs_congr (emitsAs_send_bind (emitsAs_send_bind
        (emitsAs_bind
          (emitsAs_publishVirtualHosts rt post _ _ _ _ _ _ _ _ _ rfl hvhs
            (fun vh hmem => by simpa using hidv vh hmem)
            (fun vh hmem => by simpa using htyv vh hmem))
          (fun env' => emitsAs_bind
            (emitsAs_publishProxies rt post _ _ _ _ _ _ _ _ rfl hpxs
              (fun px hmem => by simpa using hidp px hmem)
              (fun px hmem => by simpa using htyp px hmem))
            (fun _ => emitsAs_pure env'))))) ?_
      rw [summary_node, summary_edge, lookup_deleteField_ne _ _ _ (by decide),
        lookup_deleteField_ne _ _ _ (by decide), lookup_deleteField_ne _ _ _ (by decide),
        lookup_deleteField_ne _ _ _ (by decide), hl _ (by decide) (by decide),
        hl _ (by decide) (by decide), lookup_objectAssign_of_not_carries _ _ _ hid,
        lookup_objectAssign_of_not_carries _ _ _ hty]
      subst hdep
      simp [expectedEnvironment, nodeOf, lookup, field, Value.get]
  | _ => simp [environmentOk] at hok

theorem emitsAs_publishEnvironments (rt : Runtime) (post : PostOracle)
    (opcoName deploymentName : Value) (opcoS deploymentS deploymentUniqueName : String)
    (opcoElement : Value) (envs : List Value)
    (hdep : deploymentUniqueName = opcoS ++ "_" ++ deploymentS)
    (hne : envs.isEmpty = false)
    (hok : envs.all (environmentOk rt) = true)
    (hid : ∀ env ∈ envs, environmentCarries "uniqueId" env = false)
    (hty : ∀ env ∈ envs, environmentCarries "entityTypes" env = false) :
    EmitsAs
      (publishEnvironments rt post opcoName deploymentName opcoS deploymentS
        deploymentUniqueName opcoElement (.arr envs))
      (envs.flatMap (expectedEnvironment deploymentUniqueName)) := by
  unfold ApigwTopo.publishEnvironments
  simp only [nonEmptyGuard, hne, Bool.not_false, if_true, forOf, liftE_ok_bind]
  refine emitsAs_congr (emitsAs_bind (emitsAs_forEach (e := expectedEnvironment deploymentUniqueName)
    envs (fun env hmem => ?_)) (fun _ => emitsAs_pure _)) (by simp)
  exact emitsAs_publishEnvironment _ _ _ _ _ _ _ _ hdep
    (List.all_eq_true.mp hok env hmem) (hid env hmem) (hty env hmem)

theorem lookup_printable_of_all {mapping : Fields} (k : String)
    (h : mapping.all (fun kv => printable kv.2) = true) : printable (lookup k mapping) = true := by
  by_cases hm : k ∈ mapping.map Prod.fst
  · exact List.all_eq_true.mp h _ (lookup_mem_of_mem_keys hm)
  · rw [lookup_undefined_of_not_mem_keys hm]
    rfl

theorem emitsAs_publishDeployment (rt : Runtime) (post : PostOracle) (mapping : Fields)
    (opcoElement : Value)
    (hmp : mapping.all (fun kv => printable kv.2) = true)
    (hok : aggregateOk rt opcoElement = true)
    (hname : (field "name" (field "deployment" opcoElement)).truthy = true)
    (hne : (elems (field "environments" opcoElement)).isEmpty = false)
    (hid : aggregateCarries "uniqueId" opcoElement = false)
    (hty : aggregateCarries "entityTypes" opcoElement = false) :
    EmitsAs (publishDeployment rt post mapping opcoElement)
      (expectedDeployment mapping opcoElement) := by
  cases opcoElement with
  | obj fs =>
    simp only [aggregateOk, Bool.and_eq_true] at hok
    obtain ⟨⟨hopco, hdepl⟩, henvs⟩ := hok
    simp only [aggregateCarries, Bool.or_eq_false_iff, List.any_eq_false] at hid hty
    obtain ⟨hid, hide⟩ := hid
    obtain ⟨hty, htye⟩ := hty
    have hfd : field "deployment" (.obj fs) = lookup "deployment" fs := rfl
    have hfe : field "environments" (.obj fs) = lookup "environments" fs := rfl
    rw [hfd] at hid hty hname
    rw [hfe] at hide htye hne
    cases hd : lookup "deployment" fs with
    | obj d =>
      rw [hd] at hdepl hid hty hname
      simp only [Bool.and_eq_true] at hdepl
      obtain ⟨hprint, hstamps⟩ := hdepl
      have hname' : (lookup "name" d).truthy = true := hname
      cases he : lookup "environments" fs with
      | arr envs =>
        rw [he] at henvs hide htye hne
        simp only [elems, forOf] at hide htye hne
        unfold ApigwTopo.publishDeployment
        have hobj : (Value.obj d).truthy = true := rfl
        simp only at henvs
        simp only [Value.get, liftE_ok_bind, toStr_of_printable hopco, hd, hobj,
          if_true, hname', toStr_of_printable hprint,
          toStr_of_printable (lookup_printable_of_all _ hmp), he]
        refine emitsAs_console_bind
          (emitsAs_stamps_bind (fun k hk ht => ?_) (fun el hl => ?_))
        · have hne' : k ≠ "properties" := by rcases hk with hk | hk <;> simp [hk]
          rw [lookup_deleteField_ne _ _ _ hne'] at ht ⊢
          exact stamp_ready rt d _ k hk hstamps
            (by rcases hk with hk | hk <;> simp [hk, lookup]) ht
        · refine emitsAs_congr (emitsAs_send_bind (emitsAs_send_bind
            (emitsAs_publishEnvironments rt post _ _ _ _ _ _ envs rfl hne henvs
              (fun env hmem => by simpa using hide env hmem)
              (fun env hmem => by simpa using htye env hmem)))) ?_
          rw [summary_node, summary_edge, hl _ (by decide) (by decide),
            hl _ (by decide) (by decide), lookup_deleteField_ne _ _ _ (by decide),
            lookup_deleteField_ne _ _ _ (by decide),
            lookup_objectAssign_of_not_carries _ _ _ hid,
            lookup_objectAssign_of_not_carries _ _ _ hty]
          simp [expectedDeployment, nodeOf, lookup, field, Value.get, hd, he, elems, forOf]
      | _ => rw [he] at henvs; simp at henvs
    | _ => rw [hd] at hdepl; simp at hdepl
  | _ => simp [aggregateOk] at hok

theorem fetchTopologyData_of_mapping {d : Value} {mapping : Fields} (hd : d.truthy = true)
    (hm : opcoMapping d = .ok mapping) :
    fetchTopologyData (.response d) = (pure (.obj mapping) : Pub Value) := by
  simp [fetchTopologyData, hd, hm]

theorem emitsAs_publishAll (rt : Runtime) (post : PostOracle) (mapping : Fields)
    (aggs : List Value)
    (hmp : mapping.all (fun kv => printable kv.2) = true)
    (hwf : aggs.all (aggregateOk rt) = true)
    (hnamed : ∀ agg ∈ aggs, (field "name" (field "deployment" agg)).truthy = true ∧
      (elems (field "environments" agg)).isEmpty = false)
    (hid : ∀ agg ∈ aggs, aggregateCarries "uniqueId" agg = false)
    (hty : ∀ agg ∈ aggs, aggregateCarries "entityTypes" agg = false) :
    EmitsAs (publishAll rt post (.arr aggs) (.obj mapping))
      (aggs.flatMap (expectedDeployment mapping)) := by
  unfold ApigwTopo.publishAll
  simp only [forOf, liftE_ok_bind]
  refine emitsAs_congr (emitsAs_bind (emitsAs_forEach (e := expectedDeployment mapping)
    aggs (fun agg hmem => ?_)) (fun _ => emitsAs_pure _)) (by simp)
  exact emitsAs_publishDeployment rt post mapping agg hmp (List.all_eq_true.mp hwf agg hmem)
    (hnamed agg hmem).1 (hnamed agg hmem).2 (hid agg hmem) (hty agg hmem)

/-- C1, as the code has it. With a successful opco lookup whose identifiers are
printable, for every well-formed assembled sequence whose aggregates have a present
`deployment.name` and at least one environment, and none of whose documents carries
an attribute (for a virtual host: or a property) named `uniqueId` or `entityTypes`,
the run completes and its calls are, in this order: per deployment in input order the
deployment node and the edge opco `manages` deployment; per environment the
environment node and the edge deployment `runsOn` environment; per virtual host the
host node and the edge environment `contains` host; per proxy the application node,
the edge environment `uses` proxy, and per target server the backend node (identified
by the `host` field) and the edge proxy `runsOn` backend. -/
theorem publisher_emits_in_order (rt : Runtime) (post : PostOracle) (d : Value)
    (mapping : Fields) (data : Value)
    (hd : d.truthy = true) (hm : opcoMapping d = .ok mapping)
    (hmp : mapping.all (fun kv => printable kv.2) = true)
    (hwf : wellFormed rt data = true) (hnamed : namedWithEnvironments data = true)
    (hid : treeCarries "uniqueId" data = false)
    (hty : treeCarries "entityTypes" data = false) :
    (∃ data', (runPublisher rt (.response d) post data).1 = .ok data') ∧
    (runPublisher rt (.response d) post data).2.calls.map Call.summary
      = expectedCalls mapping data := by
  cases data with
  | arr aggs =>
    simp only [wellFormed] at hwf
    simp only [namedWithEnvironments, elems, forOf, List.all_eq_true, Bool.and_eq_true,
      Bool.not_eq_true'] at hnamed
    simp only [treeCarries, elems, forOf, List.any_eq_false] at hid hty
    have key : EmitsAs (transformDataAndSendToApi rt (.response d) post (.arr aggs))
        (expectedCalls mapping (.arr aggs)) := by
      unfold transformDataAndSendToApi
      cases aggs with
      | nil =>
        simpa [nonEmptyGuard, expectedCalls, elems, forOf] using
          emitsAs_console_bind (emitsAs_pure (Value.arr []))
      | cons x rest =>
        simp only [nonEmptyGuard, List.isEmpty_cons, Bool.not_false, if_true, Value.get,
          liftE_ok_bind, Value.toStr, fetchTopologyData_of_mapping hd hm, Pub.pure_bind]
        refine emitsAs_console_bind ?_
        exact emitsAs_publishAll rt post mapping (x :: rest) hmp hwf hnamed
          (fun agg hmem => by simpa using hid agg hmem)
          (fun agg hmem => by simpa using hty agg hmem)
    obtain ⟨a, t', hrun, cs, hcs, hsum⟩ := key ⟨[], []⟩
    have hrun' : runPublisher rt (.response d) post (.arr aggs) = (.ok a, t') := hrun
    rw [hrun']
    refine ⟨⟨a, rfl⟩, ?_⟩
    simp only [List.nil_append] at hcs
    rw [hcs, hsum]
  | _ => simp [wellFormed] at hwf


/-- Witness for C1: the `apigw-nl` / `prod` / `vh1` / `px1` / `ts1` at `1.2.3.4`
scenario with the mapping `NL` to `opco-123` yields exactly the ten listed calls. -/
theorem publisher_emits_in_order_witness :
    (wellFormed refRuntime scenarioData = true ∧ namedWithEnvironments scenarioData = true ∧
      treeCarries "uniqueId" scenarioData = false ∧
      treeCarries "entityTypes" scenarioData = false) ∧
    (∃ data', (runPublisher refRuntime (.response scenarioBody) (fun _ _ => true)
      scenarioData).1 = .ok data') ∧
    (runPublisher refRuntime (.response scenarioBody) (fun _ _ => true)
        scenarioData).2.calls.map Call.summary
      = [nodeOf "NL_apigw-nl" "deployment",
         edgeOf (.str "opco-123") "NL_apigw-nl" "manages",
         nodeOf "NL_apigw-nl_prod" "environment",
         edgeOf (.str "NL_apigw-nl") "NL_apigw-nl_prod" "runsOn",
         nodeOf "NL_apigw-nl_prod_vh1" "host",
         edgeOf (.str "NL_apigw-nl_prod") "NL_apigw-nl_prod_vh1" "contains",
         nodeOf "NL_apigw-nl_prod_px1" "application",
         edgeOf (.str "NL_apigw-nl_prod") "NL_apigw-nl_prod_px1" "uses",
         nodeOf "NL_apigw-nl_prod_1.2.3.4" "backend",
         edgeOf (.str "NL_apigw-nl_prod_px1") "NL_apigw-nl_prod_1.2.3.4" "runsOn"] :=
  have h := publisher_emits_in_order refRuntime (fun _ _ => true) scenarioBody
    [("NL", .str "opco-123")] scenarioData (by decide) (by decide) (by decide) (by decide)
    (by decide) (by decide) (by decide)
  ⟨⟨by decide, by decide, by decide, by decide⟩, h.1, h.2.trans (by decide)⟩

/-- Counterexample to C1 as stated: a virtual host document that carries its own
`uniqueId` attribute is published under that value (`zzz`), not under the identifier
suffixed by the host's name, so the calls of the run are not the listed ones. -/
theorem publisher_order_override_counterexample :
    (runPublisher refRuntime scenarioLookup (fun _ _ => true) overriddenHostData).2.calls.map
        Call.summary
      ≠ expectedCalls [("NL", .str "opco-123")] overriddenHostData := by
  have hcalls : (runPublisher refRuntime scenarioLookup (fun _ _ => true)
      overriddenHostData).2.calls =
      [⟨.resources, .obj [("uniqueId", .str "NL_apigw-nl"),
          ("entityTypes", .arr [.str "deployment"]),
          ("matchTokens", .arr [.str "NL_apigw-nl"]), ("opco", .str "NL"),
          ("tags", .arr [.str "apigw-nl"]), ("name", .str "apigw-nl")]⟩,
       ⟨.references, .obj [("_fromUniqueId", .str "opco-123"),
          ("_toUniqueId", .str "NL_apigw-nl"), ("_edgeType", .str "manages")]⟩,
       ⟨.resources, .obj [("uniqueId", .str "NL_apigw-nl_prod"),
          ("entityTypes", .arr [.str "environment"]),
          ("matchTokens", .arr [.str "NL_apigw-nl_prod"]), ("opco", .str "NL"),
          ("deployment", .str "apigw-nl"),
          ("tags", .arr [.str "apigw-nl", .str "prod"]), ("name", .str "prod")]⟩,
       ⟨.references, .obj [("_fromUniqueId", .str "NL_apigw-nl"),
          ("_toUniqueId", .str "NL_apigw-nl_prod"), ("_edgeType", .str "runsOn")]⟩,
       ⟨.resources, .obj [("uniqueId", .str "zzz"), ("entityTypes", .arr [.str "host"]),
          ("matchTokens", .arr [.str "NL_apigw-nl_prod_vh1"]), ("opco", .str "NL"),
          ("environment", .str "prod"), ("deployment", .str "apigw-nl"),
          ("tags", .arr [.str "apigw-nl", .str "prod", .str "vh1"]),
          ("name", .str "vh1")]⟩,
       ⟨.references, .obj [("_fromUniqueId", .str "NL_apigw-nl_prod"),
          ("_toUniqueId", .str "NL_apigw-nl_prod_vh1"), ("_edgeType", .str "contains")]⟩] := by
    decide
  rw [hcalls]
  decide

/-! ## Assembler -/

/-- C7, the code at the failing input. For deployment `apigw-nl` with the environments
`prod` (attribute `tier`, proxy `px1`) and `test` (proxy `px2`), both entries of the
assembled `environments` list are the one accumulator in its final state: each has the
name `test`, the attribute `tier` of `prod`, and the proxies of both environments. -/
theorem processCountry_reuses_environment_record :
    processCountry refRuntime twoEnvStore "apigw-nl" ["prod", "test"]
      = .ok (.obj [("opco", .str "NL"), ("deployment", .obj [("name", .str "apigw-nl")]),
          ("environments", .arr [
            .obj [("proxies", .arr [.obj [("name", .str "px1"), ("targetServers", .arr [])],
                    .obj [("name", .str "px2"), ("targetServers", .arr [])]]),
                  ("virtual-hosts", .arr []), ("name", .str "test"), ("tier", .str "gold")],
            .obj [("proxies", .arr [.obj [("name", .str "px1"), ("targetServers", .arr [])],
                    .obj [("name", .str "px2"), ("targetServers", .arr [])]]),
                  ("virtual-hosts", .arr []), ("name", .str "test"), ("tier", .str "gold")]])]) := by
  decide

theorem mem_store_of_listed {store : Store} {stem : String} {o : S3Object}
    (h : o ∈ listObjectsFromS3 store stem) : o ∈ store :=
  (List.mem_filter.mp (List.mem_of_mem_take h)).1

theorem getObjectFromS3_of_mem {store : Store} {o : S3Object}
    (hall : ∀ x ∈ store, ∃ fs, x.body = some (.obj fs)) (ho : o ∈ store) :
    ∃ fs, getObjectFromS3 store o.key = .ok (.obj fs) := by
  unfold getObjectFromS3
  cases hf : store.find? (fun x => x.key = o.key) with
  | none =>
    have := List.find?_eq_none.mp hf o ho
    simp at this
  | some x =>
    obtain ⟨fs, hfs⟩ := hall x (List.mem_of_find?_eq_some hf)
    exact ⟨fs, by simp [hfs]⟩

theorem processProxyLoop_total {store : Store}
    (hall : ∀ x ∈ store, ∃ fs, x.body = some (.obj fs)) (objs : List S3Object)
    (hobjs : ∀ o ∈ objs, o ∈ store) (acc : List Value) :
    ∃ r, processProxyLoop store objs acc = .ok r := by
  induction objs generalizing acc with
  | nil => exact ⟨acc, rfl⟩
  | cons o rest ih =>
    have hrest : ∀ x ∈ rest, x ∈ store := fun x hx => hobjs x (List.mem_cons_of_mem _ hx)
    unfold processProxyLoop
    split
    · obtain ⟨fs, hfs⟩ := getObjectFromS3_of_mem hall (hobjs o (by simp))
      simp only [hfs]
      exact ih hrest _
    · exact ih hrest _

theorem processVirtualHostsLoop_total {store : Store}
    (hall : ∀ x ∈ store, ∃ fs, x.body = some (.obj fs)) (objs : List S3Object)
    (hobjs : ∀ o ∈ objs, o ∈ store) (acc : List Value) :
    ∃ r, processVirtualHostsLoop store objs acc = .ok r := by
  induction objs generalizing acc with
  | nil => exact ⟨acc, rfl⟩
  | cons o rest ih =>
    have hrest : ∀ x ∈ rest, x ∈ store := fun x hx => hobjs x (List.mem_cons_of_mem _ hx)
    unfold processVirtualHostsLoop
    split
    · obtain ⟨fs, hfs⟩ := getObjectFromS3_of_mem hall (hobjs o (by simp))
      simp only [hfs]
      exact ih hrest _
    · exact ih hrest _

/-- The proxy loop completes and leaves `proxies` an array, when it starts with one. -/
theorem processCountryProxies_total {store : Store}
    (hall : ∀ x ∈ store, ∃ fs, x.body = some (.obj fs)) (objs : List S3Object)
    (hobjs : ∀ o ∈ objs, o ∈ store) (acc : Fields)
    (hacc : ∃ xs, lookup "proxies" acc = .arr xs) :
    ∃ acc', processCountryProxies store objs acc = .ok acc' ∧
      ∃ xs, lookup "proxies" acc' = .arr xs := by
  induction objs generalizing acc with
  | nil => exact ⟨acc, rfl, hacc⟩
  | cons o rest ih =>
    have hrest : ∀ x ∈ rest, x ∈ store := fun x hx => hobjs x (List.mem_cons_of_mem _ hx)
    unfold processCountryProxies
    split
    · obtain ⟨fs, hfs⟩ := getObjectFromS3_of_mem hall (hobjs o (by simp))
      obtain ⟨ts, hts⟩ := processProxyLoop_total hall
        (listObjectsFromS3 store (replaceLastSegment o.key "target-servers/"))
        (fun x hx => mem_store_of_listed hx) []
      obtain ⟨xs, hxs⟩ := hacc
      simp only [hfs, processProxy, hts, spreadWithTargetServers, pushProxy, hxs]
      exact ih hrest _ ⟨_, lookup_setField_same _ _ _⟩
    · exact ih hrest _ hacc

/-- The expansion of a well-formed environment document completes, and its result
carries no key `k` that neither the document nor its property list names. -/
theorem flattenEnvironmentData_total {k : String} (fs : Fields) (hok : propertiesOk fs = true)
    (hk : hostCarries k (.obj fs) = false) :
    ∃ v, flattenEnvironmentData (.obj fs) = .ok v ∧ carries k v = false := by
  simp only [hostCarries, Bool.or_eq_false_iff] at hk
  obtain ⟨hc, hprops⟩ := hk
  unfold propertiesOk at hok
  cases hps : lookup "properties" fs with
  | undefined => exact ⟨.null, by simp [flattenEnvironmentData, hps, Value.truthy], rfl⟩
  | obj ps =>
    rw [hps] at hok
    simp only at hok
    cases hpr : lookup "property" ps with
    | undefined =>
      exact ⟨.null, by simp [flattenEnvironmentData, hps, hpr, Value.truthy, Value.get], rfl⟩
    | arr props =>
      rw [hpr] at hok
      simp only at hok
      obtain ⟨fs', hfs'⟩ := expandProperties_total fs props hok
      refine ⟨.obj (deleteField "properties" fs'),
        by simp [flattenEnvironmentData, hps, hpr, Value.truthy, Value.get, hfs'], ?_⟩
      have hpl : propertyList (.obj fs) = props := by simp [propertyList, hps, hpr]
      rw [hpl] at hprops
      have hnot := expandProperties_keys hfs' (not_mem_keys_of_carries hc)
        (fun p hp => by
          have := List.any_eq_false.mp hprops p hp
          simpa using this)
      simp only [carries, ownEnumerable, List.any_eq_false]
      intro kv hkv hkeq
      apply hnot
      exact mem_keys_of_deleteField (List.mem_map.mpr ⟨kv, hkv, by simpa using hkeq⟩)
    | null => rw [hpr] at hok; simp at hok
    | bool b => rw [hpr] at hok; simp at hok
    | num l => rw [hpr] at hok; simp at hok
    | str s => rw [hpr] at hok; simp at hok
    | obj o => rw [hpr] at hok; simp at hok
  | null => rw [hps] at hok; simp at hok
  | bool b => rw [hps] at hok; simp at hok
  | num l => rw [hps] at hok; simp at hok
  | str s => rw [hps] at hok; simp at hok
  | arr xs => rw [hps] at hok; simp at hok

theorem processCountryLoop_total {store : Store} (name : String)
    (hall : ∀ x ∈ store, ∃ fs, x.body = some (.obj fs)) (envs : List String)
    (henvs : ∀ env ∈ envs, ∃ fs, getObjectFromS3 store (environmentFileOf name env)
      = .ok (.obj fs) ∧ propertiesOk fs = true ∧ hostCarries "proxies" (.obj fs) = false)
    (acc : Fields) (pushed : Nat) (hacc : ∃ xs, lookup "proxies" acc = .arr xs) :
    ∃ r, processCountryLoop store name envs acc pushed = .ok r := by
  induction envs generalizing acc pushed with
  | nil => exact ⟨_, rfl⟩
  | cons env rest ih =>
    obtain ⟨fs, hget, hok, hk⟩ := henvs env (by simp)
    have hget' : getObjectFromS3 store (name ++ "/" ++ env ++ "/" ++ env ++ ".json")
        = .ok (.obj fs) := hget
    obtain ⟨v, hv, hcv⟩ := flattenEnvironmentData_total fs hok hk
    obtain ⟨vhs, hvhs⟩ := processVirtualHostsLoop_total hall
      (listObjectsFromS3 store (name ++ "/" ++ env ++ "/" ++ "virtual-hosts/"))
      (fun x hx => mem_store_of_listed hx) []
    obtain ⟨xs, hxs⟩ := hacc
    have hmerged : ∃ ys, lookup "proxies"
        (setField "virtual-hosts" (.arr vhs) (objectAssign acc v)) = .arr ys := by
      rw [lookup_setField_ne _ _ _ _ (by decide), lookup_objectAssign_of_not_carries _ _ _ hcv]
      exact ⟨xs, hxs⟩
    obtain ⟨acc', hacc', hxs'⟩ := processCountryProxies_total hall
      (listObjectsFromS3 store (name ++ "/" ++ env ++ "/"))
      (fun x hx => mem_store_of_listed hx) _ hmerged
    unfold processCountryLoop
    simp only [processEnvironmentData, hget', hv, processVirtualHosts, hvhs, hacc']
    exact ih (fun e he => henvs e (List.mem_cons_of_mem _ he)) _ _ hxs'

theorem processCountryLoop_pushed {store : Store} {name : String} (envs : List String)
    (acc : Fields) (pushed : Nat) {r : Fields × Nat}
    (h : processCountryLoop store name envs acc pushed = .ok r) :
    r.2 = pushed + envs.length := by
  induction envs generalizing acc pushed with
  | nil =>
    simp only [processCountryLoop, Except.ok.injEq] at h
    subst h
    rfl
  | cons env rest ih =>
    unfold processCountryLoop at h
    simp only at h
    split at h
    · cases h
    · split at h
      · cases h
      · split at h
        · cases h
        · rw [ih _ _ h, List.length_cons]
          omega

theorem processCountry_shape {rt : Runtime} {store : Store} {name : String}
    {envs : List String} {agg : Value} (h : processCountry rt store name envs = .ok agg) :
    AggregateFor rt store envs name agg := by
  unfold processCountry at h
  simp only at h
  split at h
  · cases h
  · rename_i deployment hdep
    split at h
    · cases h
    · rename_i acc pushed hloop
      cases h
      have hp := processCountryLoop_pushed envs _ 0 hloop
      simp only [Nat.zero_add] at hp
      unfold processDeploymentData at hdep
      split at hdep
      · cases hdep
      · rename_i doc hdoc
        refine ⟨doc, deployment, List.replicate pushed (.obj acc), hdoc, ?_, ?_, rfl⟩
        · intro fs hfs
          subst hfs
          simpa [Value.truthy] using hdep.symm
        · simp [hp]

theorem processAllDeploymentsLoop_shape {rt : Runtime} {store : Store} {envs : List String}
    (names : List String) (acc results : List Value)
    (h : processAllDeploymentsLoop rt store envs names acc = .ok results) :
    ∃ news, results = acc ++ news ∧ List.Forall₂ (AggregateFor rt store envs) names news := by
  induction names generalizing acc with
  | nil =>
    simp only [processAllDeploymentsLoop, Except.ok.injEq] at h
    exact ⟨[], by simp [h], List.Forall₂.nil⟩
  | cons name rest ih =>
    unfold processAllDeploymentsLoop at h
    split at h
    · cases h
    · rename_i agg hagg
      obtain ⟨news, hres, hall⟩ := ih _ h
      exact ⟨agg :: news, by simp [hres], List.Forall₂.cons (processCountry_shape hagg) hall⟩

theorem processAllDeploymentsLoop_total {rt : Runtime} {store : Store} {envs : List String}
    (hall : ∀ x ∈ store, ∃ fs, x.body = some (.obj fs)) (names : List String)
    (hnames : ∀ name ∈ names,
      (∃ doc, getObjectFromS3 store (deploymentFileOf name) = .ok doc) ∧
      ∀ env ∈ envs, ∃ fs, getObjectFromS3 store (environmentFileOf name env)
        = .ok (.obj fs) ∧ propertiesOk fs = true ∧ hostCarries "proxies" (.obj fs) = false)
    (acc : List Value) :
    ∃ results, processAllDeploymentsLoop rt store envs names acc = .ok results := by
  induction names generalizing acc with
  | nil => exact ⟨acc, rfl⟩
  | cons name rest ih =>
    obtain ⟨⟨doc, hdoc⟩, henvs⟩ := hnames name (by simp)
    have hdoc' : getObjectFromS3 store (name ++ "/" ++ name ++ ".json") = .ok doc := hdoc
    obtain ⟨r, hr⟩ := processCountryLoop_total name hall envs henvs
      [("proxies", .arr []), ("virtual-hosts", .arr [])] 0 ⟨[], rfl⟩
    have hdep : ∃ dep, processDeploymentData store (name ++ "/" ++ name ++ ".json") = .ok dep := by
      unfold processDeploymentData
      rw [hdoc']
      simp only
      split
      · split <;> exact ⟨_, rfl⟩
      · exact ⟨_, rfl⟩
    obtain ⟨dep, hdep⟩ := hdep
    unfold processAllDeploymentsLoop
    simp only [processCountry, hdep, hr]
    exact ih (fun n hn => hnames n (List.mem_cons_of_mem _ hn)) _

theorem storeReady_unfold {store : Store} {cfg : Config} (hready : storeReady store cfg = true) :
    (∀ x ∈ store, ∃ fs, x.body = some (.obj fs)) ∧
    ∀ name ∈ configuredList cfg.deployments,
      (∃ doc, getObjectFromS3 store (deploymentFileOf name) = .ok doc) ∧
      ∀ env ∈ configuredList cfg.environments, ∃ fs,
        getObjectFromS3 store (environmentFileOf name env) = .ok (.obj fs) ∧
        propertiesOk fs = true ∧ hostCarries "proxies" (.obj fs) = false := by
  simp only [storeReady, Bool.and_eq_true, List.all_eq_true] at hready
  obtain ⟨hall, hnames⟩ := hready
  constructor
  · intro x hx
    have := hall x hx
    split at this
    · rename_i fs hfs
      exact ⟨fs, hfs⟩
    · cases this
  · intro name hname
    obtain ⟨hdoc, henvs⟩ := hnames name hname
    constructor
    · split at hdoc
      · rename_i doc hd
        exact ⟨doc, hd⟩
      · cases hdoc
    · intro env henv
      have := henvs env henv
      split at this
      · rename_i fs hfs
        simp only [Bool.and_eq_true, Bool.not_eq_true'] at this
        exact ⟨fs, hfs, this.1, this.2⟩
      · cases this

/-- C6. The configured deployment entries are the trimmed pieces of the comma-separated
list. Whenever `processAllDeployments` returns, its result pairs off, in order, with
these entries: one aggregate per entry, whose `opco` is `extractLettersAfterDash` of
the trimmed name, whose `deployment` is the deployment's document without its
`environments` field, and whose `environments` list has one record per configured
environment name. And it does return when all reads of the run succeed on well-formed
documents (`storeReady`). -/
theorem processAllDeployments_shape (rt : Runtime) (store : Store) (cfg : Config) :
    (∀ s, cfg.deployments = some s → s ≠ "" →
      configuredList cfg.deployments = (split s ',').map trim) ∧
    (∀ results, processAllDeployments rt store cfg = .ok results →
      List.Forall₂ (AggregateFor rt store (configuredList cfg.environments))
        (configuredList cfg.deployments) results) ∧
    (storeReady store cfg = true →
      ∃ results, processAllDeployments rt store cfg = .ok results) := by
  refine ⟨?_, ?_, ?_⟩
  · intro s hs hne
    simp [configuredList, hs, hne]
  · intro results hres
    obtain ⟨news, hnews, hforall⟩ := processAllDeploymentsLoop_shape _ _ _ hres
    simp only [List.nil_append] at hnews
    rw [hnews]
    exact hforall
  · intro hready
    obtain ⟨hall, hnames⟩ := storeReady_unfold hready
    exact processAllDeploymentsLoop_total hall (configuredList cfg.deployments) hnames []

/-- Witness for C6: the bucket with deployment `apigw-nl` and the configured
environments `prod, test` is ready; the run returns, and its result pairs off with the
one configured deployment entry. -/
theorem processAllDeployments_shape_witness :
    storeReady twoEnvStore twoEnvConfig = true ∧
    configuredList twoEnvConfig.deployments = (split "apigw-nl" ',').map trim ∧
    ∃ results, processAllDeployments refRuntime twoEnvStore twoEnvConfig = .ok results ∧
      List.Forall₂ (AggregateFor refRuntime twoEnvStore (configuredList twoEnvConfig.environments))
        (configuredList twoEnvConfig.deployments) results :=
  have h := processAllDeployments_shape refRuntime twoEnvStore twoEnvConfig
  ⟨by decide, h.1 "apigw-nl" rfl (by decide),
    (h.2.2 (by decide)).elim (fun results hres => ⟨results, hres, h.2.1 results hres⟩)⟩

/-- C12, the code at the failing input. With `apigw-nl/apigw-nl.json` missing from the
bucket, the read raises, and nothing catches it: `processDeploymentData` raises
instead of returning `null`, `processCountry` raises instead of returning an
aggregate, and `processAllDeployments` raises before it reaches the second configured
deployment `apigw-de`, whose document is present. -/
theorem processDeploymentData_raises_on_missing_document :
    getObjectFromS3 missingDeploymentStore "apigw-nl/apigw-nl.json" = .error .fetchError ∧
    processDeploymentData missingDeploymentStore "apigw-nl/apigw-nl.json"
      = .error .fetchError ∧
    processCountry refRuntime missingDeploymentStore "apigw-nl" [] = .error .fetchError ∧
    configuredList missingDeploymentConfig.deployments = ["apigw-nl", "apigw-de"] ∧
    processAllDeployments refRuntime missingDeploymentStore missingDeploymentConfig
      = .error .fetchError ∧
    processCountry refRuntime missingDeploymentStore "apigw-de" []
      = .ok (.obj [("opco", .str "DE"), ("deployment", .obj [("name", .str "apigw-de")]),
          ("environments", .arr [])]) := by
  decide

/-! ## Two runs that add the same calls -/

theorem endAlike_refl {α : Type} {R : α → α → Prop} (hR : ∀ a, R a a) (x : Except JsError α) :
    endAlike R x x := by
  cases x with
  | ok a => exact hR a
  | error e => rfl

theorem replays_pure {α β : Type} {R : α → β → Prop} {a : α} {b : β} (h : R a b) :
    Replays R (pure a : Pub α) (pure b : Pub β) :=
  fun _ _ => ⟨[], by rw [List.append_nil]; rfl, by rw [List.append_nil]; rfl, h⟩

theorem replays_liftE {α β : Type} {R : α → β → Prop} {x : Except JsError α}
    {y : Except JsError β} (h : endAlike R x y) : Replays R (liftE x) (liftE y) :=
  fun _ _ => ⟨[], by simp [liftE], by simp [liftE], h⟩

theorem replays_mono {α β : Type} {R S : α → β → Prop} {m₁ : Pub α} {m₂ : Pub β}
    (h : Replays R m₁ m₂) (hRS : ∀ a b, R a b → S a b) : Replays S m₁ m₂ := by
  intro t₁ t₂
  obtain ⟨cs, h1, h2, h3⟩ := h t₁ t₂
  refine ⟨cs, h1, h2, ?_⟩
  cases e₁ : (m₁ t₁).1 <;> cases e₂ : (m₂ t₂).1 <;> rw [e₁, e₂] at h3
  · exact h3
  · exact h3
  · exact h3
  · exact hRS _ _ h3

theorem replays_bind {α α' β β' : Type} {R : α → α' → Prop} {S : β → β' → Prop}
    {m₁ : Pub α} {m₂ : Pub α'} {f₁ : α → Pub β} {f₂ : α' → Pub β'}
    (hm : Replays R m₁ m₂) (hf : ∀ a b, R a b → Replays S (f₁ a) (f₂ b)) :
    Replays S (m₁ >>= f₁) (m₂ >>= f₂) := by
  intro t₁ t₂
  rw [Pub.bind_apply, Pub.bind_apply]
  obtain ⟨cs, h1, h2, h3⟩ := hm t₁ t₂
  rcases e₁ : m₁ t₁ with ⟨r₁, u₁⟩
  rcases e₂ : m₂ t₂ with ⟨r₂, u₂⟩
  rw [e₁] at h1 h3
  rw [e₂] at h2 h3
  simp only at h1 h2 h3
  cases r₁ with
  | error e =>
    cases r₂ with
    | error e' => exact ⟨cs, h1, h2, h3⟩
    | ok b => exact h3.elim
  | ok a =>
    cases r₂ with
    | error e' => exact h3.elim
    | ok b =>
      obtain ⟨cs', g1, g2, g3⟩ := hf a b h3 u₁ u₂
      exact ⟨cs ++ cs', by rw [g1, h1, List.append_assoc], by rw [g2, h2, List.append_assoc], g3⟩

theorem replays_liftE_bind {α β β' : Type} {S : β → β' → Prop} {x : Except JsError α}
    {f₁ : α → Pub β} {f₂ : α → Pub β'} (hf : ∀ a, x = .ok a → Replays S (f₁ a) (f₂ a)) :
    Replays S (ApigwTopo.liftE x >>= f₁) (ApigwTopo.liftE x >>= f₂) := by
  cases x with
  | error e => exact fun t₁ t₂ => ⟨[], by simp [liftE_error_bind, liftE],
      by simp [liftE_error_bind, liftE], rfl⟩
  | ok a => exact hf a rfl

theorem replays_console_bind {β β' : Type} {S : β → β' → Prop} {l₁ l₂ : Level}
    {s₁ s₂ : String} {f₁ : Unit → Pub β} {f₂ : Unit → Pub β'} (hf : Replays S (f₁ ()) (f₂ ())) :
    Replays S (ApigwTopo.consoleOut l₁ s₁ >>= f₁) (ApigwTopo.consoleOut l₂ s₂ >>= f₂) := by
  intro t₁ t₂
  exact hf _ _

theorem replays_send_bind {β β' : Type} {S : β → β' → Prop} {post₁ post₂ : PostOracle}
    {ep : Endpoint} {d : Value} {g₁ b₁ g₂ b₂ : String} {f₁ : Unit → Pub β} {f₂ : Unit → Pub β'}
    (hf : Replays S (f₁ ()) (f₂ ())) :
    Replays S (ApigwTopo.sendAndReport post₁ ep d g₁ b₁ >>= f₁)
      (ApigwTopo.sendAndReport post₂ ep d g₂ b₂ >>= f₂) := by
  intro t₁ t₂
  rw [Pub.bind_apply, Pub.bind_apply, sendAndReport_apply, sendAndReport_apply]
  obtain ⟨cs, h1, h2, h3⟩ := hf
    { calls := t₁.calls ++ [⟨ep, d⟩],
      console := t₁.console ++ reportLines (post₁ t₁.calls.length ⟨ep, d⟩) g₁ b₁ }
    { calls := t₂.calls ++ [⟨ep, d⟩],
      console := t₂.console ++ reportLines (post₂ t₂.calls.length ⟨ep, d⟩) g₂ b₂ }
  exact ⟨⟨ep, d⟩ :: cs, by simpa using h1, by simpa using h2, h3⟩

theorem replays_consoleOut (l₁ l₂ : Level) (s₁ s₂ : String) :
    Replays (fun _ _ => True) (consoleOut l₁ s₁) (consoleOut l₂ s₂) :=
  fun _ _ => ⟨[], by rw [List.append_nil]; rfl, by rw [List.append_nil]; rfl, trivial⟩

theorem replays_sendAndReport (post₁ post₂ : PostOracle) (ep : Endpoint) (d : Value)
    (g₁ b₁ g₂ b₂ : String) :
    Replays (fun _ _ => True) (sendAndReport post₁ ep d g₁ b₁)
      (sendAndReport post₂ ep d g₂ b₂) := by
  intro t₁ t₂
  rw [sendAndReport_apply, sendAndReport_apply]
  exact ⟨[⟨ep, d⟩], rfl, rfl, trivial⟩

theorem replays_fetchTopologyData (topo : HttpGet) :
    Replays Eq (fetchTopologyData topo) (fetchTopologyData topo) := by
  intro t₁ t₂
  refine ⟨[], by rw [List.append_nil]; exact silent_fetchTopologyData topo t₁,
    by rw [List.append_nil]; exact silent_fetchTopologyData topo t₂, ?_⟩
  have h : (fetchTopologyData topo t₁).1 = (fetchTopologyData topo t₂).1 := by
    unfold ApigwTopo.fetchTopologyData
    cases topo with
    | failed => rfl
    | response data =>
      simp only
      split
      · cases opcoMapping data <;> rfl
      · rfl
  rw [h]
  exact endAlike_refl (fun _ => rfl) _

theorem replays_forEach {α α' β β' : Type} {Q : α → α' → Prop} {R : β → β' → Prop}
    {f : α → Pub β} {g : α' → Pub β'} {xs : List α} {ys : List α'} (h : List.Forall₂ Q xs ys)
    (hf : ∀ x y, Q x y → Replays R (f x) (g y)) :
    Replays (List.Forall₂ R) (Pub.forEach f xs) (Pub.forEach g ys) := by
  induction h with
  | nil => exact fun _ _ => ⟨[], by simp [Pub.forEach, Pub.pure], by simp [Pub.forEach, Pub.pure],
      List.Forall₂.nil⟩
  | @cons x y xs ys hxy _ ih =>
    show Replays _ (f x >>= fun b => Pub.forEach f xs >>= fun bs => Pure.pure (b :: bs))
      (g y >>= fun b => Pub.forEach g ys >>= fun bs => Pure.pure (b :: bs))
    exact replays_bind (hf x y hxy) (fun a b hab =>
      replays_bind ih (fun _ _ habs => replays_pure (List.Forall₂.cons hab habs)))

/-! ## What a completed step yields -/

theorem yields_pure {α : Type} {Q : α → Prop} {a : α} (h : Q a) : Yields (pure a : Pub α) Q := by
  intro t b t' hb
  have hb' : ((.ok a, t) : Except JsError α × Trace) = (.ok b, t') := hb
  cases hb'
  exact h

theorem yields_bind {α β : Type} {P : α → Prop} {Q : β → Prop} {m : Pub α} {f : α → Pub β}
    (hm : Yields m P) (hf : ∀ a, P a → Yields (f a) Q) : Yields (m >>= f) Q := by
  intro t b t' hb
  rw [Pub.bind_apply] at hb
  rcases e : m t with ⟨r, u⟩
  rw [e] at hb
  cases r with
  | error err => simp at hb
  | ok a => exact hf a (hm t a u e) u b t' hb

theorem yields_skip_bind {α β : Type} {Q : β → Prop} {m : Pub α} {f : α → Pub β}
    (hf : ∀ a, Yields (f a) Q) : Yields (m >>= f) Q :=
  yields_bind (P := fun _ => True) (fun _ _ _ _ => trivial) (fun a _ => hf a)

theorem yields_liftE_bind {α β : Type} {Q : β → Prop} {x : Except JsError α} {f : α → Pub β}
    (hf : ∀ a, x = .ok a → Yields (f a) Q) : Yields (ApigwTopo.liftE x >>= f) Q := by
  cases x with
  | error e =>
    intro t b t' hb
    simp [liftE_error_bind, liftE] at hb
  | ok a => exact hf a rfl

theorem yields_forEach {α β : Type} {R : α → β → Prop} {f : α → Pub β} (xs : List α)
    (hf : ∀ x ∈ xs, Yields (f x) (R x)) : Yields (Pub.forEach f xs) (List.Forall₂ R xs) := by
  induction xs with
  | nil =>
    intro t b t' hb
    simp only [Pub.forEach, Pub.pure, Prod.mk.injEq, Except.ok.injEq] at hb
    exact hb.1 ▸ List.Forall₂.nil
  | cons x xs ih =>
    show Yields (f x >>= fun b => Pub.forEach f xs >>= fun bs => Pure.pure (b :: bs)) _
    refine yields_bind (hf x (by simp)) (fun b hb => ?_)
    refine yields_bind (ih (fun y hy => hf y (by simp [hy]))) (fun bs hbs => ?_)
    exact yields_pure (List.Forall₂.cons hb hbs)

/-! ## Property lists that differ under one key -/

theorem deleteField_cons (k : String) (kv : String × Value) (rest : Fields) :
    deleteField k (kv :: rest) = if kv.1 = k then deleteField k rest
      else kv :: deleteField k rest := by
  by_cases h : kv.1 = k <;> simp [deleteField, List.filter_cons, h]

theorem deleteField_setField_same (k : String) (v : Value) (fs : Fields) :
    deleteField k (setField k v fs) = deleteField k fs := by
  induction fs with
  | nil => simp [setField, deleteField]
  | cons kv rest ih =>
    obtain ⟨k₀, v₀⟩ := kv
    by_cases h₀ : k₀ = k
    · simp only [setField, h₀, if_true, deleteField_cons]
    · simp only [setField, h₀, if_false, deleteField_cons, ih]

theorem deleteField_setField_ne (k k' : String) (v : Value) (fs : Fields) (h : k' ≠ k) :
    deleteField k (setField k' v fs) = setField k' v (deleteField k fs) := by
  induction fs with
  | nil => simp [setField, deleteField, h]
  | cons kv rest ih =>
    obtain ⟨k₀, v₀⟩ := kv
    by_cases h₀ : k₀ = k'
    · subst h₀
      simp only [setField, if_true, deleteField_cons, h, if_false]
    · by_cases h₁ : k₀ = k
      · subst h₁
        simp only [setField, h₀, if_false, deleteField_cons, if_true, ih]
      · simp only [setField, h₀, if_false, deleteField_cons, h₁, ih]

theorem deleteField_comm (k k' : String) (fs : Fields) :
    deleteField k (deleteField k' fs) = deleteField k' (deleteField k fs) := by
  simp only [deleteField, List.filter_filter]
  congr 1
  funext kv
  exact Bool.and_comm _ _

theorem sameAway_setField {k : String} {a b : Fields} (k' : String) (v w : Value)
    (h : deleteField k a = deleteField k b) (hvw : k' ≠ k → v = w) :
    deleteField k (setField k' v a) = deleteField k (setField k' w b) := by
  by_cases hk : k' = k
  · subst hk
    rw [deleteField_setField_same, deleteField_setField_same, h]
  · rw [deleteField_setField_ne _ _ _ _ hk, deleteField_setField_ne _ _ _ _ hk, h, hvw hk]

theorem sameAway_foldl {k : String} {fs fs' : Fields} (h : AwayFrom k fs fs') :
    ∀ a b : Fields, deleteField k a = deleteField k b →
      deleteField k (fs.foldl (fun t kv => setField kv.1 kv.2 t) a) =
        deleteField k (fs'.foldl (fun t kv => setField kv.1 kv.2 t) b) := by
  induction h with
  | nil => exact fun a b hab => hab
  | @cons p q ps qs hpq _ ih =>
    intro a b hab
    simp only [List.foldl_cons]
    apply ih
    rw [← hpq.1]
    exact sameAway_setField p.1 p.2 q.2 hab hpq.2

theorem sameAway_lookup {k k' : String} {a b : Fields}
    (h : deleteField k a = deleteField k b) (hk : k' ≠ k) : lookup k' a = lookup k' b := by
  rw [← lookup_deleteField_ne k' k a hk, ← lookup_deleteField_ne k' k b hk, h]

theorem sameAway_formatStamp (rt : Runtime) (k' : String) {k : String} {a b : Fields}
    (h : deleteField k a = deleteField k b) (hk : k' ≠ k) :
    endAlike (fun x y => deleteField k x = deleteField k y)
      (formatStamp rt k' a) (formatStamp rt k' b) := by
  unfold formatStamp
  rw [sameAway_lookup h hk]
  split
  · cases rt.epochToHumanReadable (lookup k' b) with
    | ok s => exact sameAway_setField k' _ _ h (fun _ => rfl)
    | error e => rfl
  · exact h

theorem awayFrom_refl (k : String) (fs : Fields) : AwayFrom k fs fs := by
  induction fs with
  | nil => exact List.Forall₂.nil
  | cons kv rest ih => exact List.Forall₂.cons ⟨rfl, fun _ => rfl⟩ ih

theorem awayFrom_setField (k : String) (v : Value) (fs : Fields) (h : k ∈ fs.map Prod.fst) :
    AwayFrom k fs (setField k v fs) := by
  induction fs with
  | nil => simp at h
  | cons kv rest ih =>
    obtain ⟨k₀, v₀⟩ := kv
    by_cases h₀ : k₀ = k
    · simp only [setField, h₀, if_true]
      exact List.Forall₂.cons ⟨rfl, fun hne => absurd rfl hne⟩ (awayFrom_refl k rest)
    · simp only [setField, h₀, if_false]
      refine List.Forall₂.cons ⟨rfl, fun _ => rfl⟩ (ih ?_)
      simp only [List.map_cons, List.mem_cons] at h
      rcases h with h | h
      · exact absurd h.symm h₀
      · exact h

theorem mem_keys_of_lookup_ne_undefined {k : String} {fs : Fields}
    (h : lookup k fs ≠ .undefined) : k ∈ fs.map Prod.fst := by
  by_contra hk
  exact h (lookup_undefined_of_not_mem_keys hk)

/-! ## The publisher reads a tree through `TreeAlike` views -/

theorem hostAlike_refl (vh : Value) : HostAlike vh vh := ⟨rfl, rfl⟩

theorem environmentAlike_refl (env : Value) : EnvironmentAlike env env :=
  ⟨rfl, rfl, awayFrom_refl _ _, endAlike_refl (R := ListAlike HostAlike) (fun _ => Or.inl rfl) _⟩

theorem aggregateAlike_refl (agg : Value) : AggregateAlike agg agg :=
  ⟨rfl, rfl, endAlike_refl (R := ListAlike EnvironmentAlike) (fun _ => Or.inl rfl) _⟩

theorem forall₂_refl {R : Value → Value → Prop} (hR : ∀ x, R x x) (xs : List Value) :
    List.Forall₂ R xs xs :=
  List.forall₂_same.mpr (fun x _ => hR x)

theorem listAlike_guard (rt : Runtime) {R : Value → Value → Prop} {v v' : Value}
    (h : ListAlike R v v') : nonEmptyGuard rt v' = nonEmptyGuard rt v := by
  rcases h with rfl | ⟨xs, xs', rfl, rfl, hxs⟩
  · rfl
  · cases hxs <;> rfl

theorem listAlike_length {R : Value → Value → Prop} {v v' : Value}
    (h : ListAlike R v v') : v'.get "length" = v.get "length" := by
  rcases h with rfl | ⟨xs, xs', rfl, rfl, hxs⟩
  · rfl
  · simp [Value.get, hxs.length_eq]

theorem listAlike_forOf {R : Value → Value → Prop} (hR : ∀ x, R x x) {v v' : Value}
    (h : ListAlike R v v') : endAlike (List.Forall₂ R) (forOf v) (forOf v') := by
  rcases h with rfl | ⟨xs, xs', rfl, rfl, hxs⟩
  · exact endAlike_refl (forall₂_refl hR) _
  · exact hxs

theorem replays_publishTargetServer (post₁ post₂ : PostOracle)
    (opcoName deploymentName envName proxyName : Value)
    (opcoS deploymentS envS proxyS proxyUniqueId : String) (targetServer : Value) :
    Replays (fun _ _ => True)
      (publishTargetServer post₁ opcoName deploymentName envName proxyName opcoS deploymentS
        envS proxyS proxyUniqueId targetServer)
      (publishTargetServer post₂ opcoName deploymentName envName proxyName opcoS deploymentS
        envS proxyS proxyUniqueId targetServer) := by
  unfold ApigwTopo.publishTargetServer
  refine replays_liftE_bind (fun _ _ => ?_)
  refine replays_liftE_bind (fun _ _ => ?_)
  refine replays_liftE_bind (fun _ _ => ?_)
  refine replays_liftE_bind (fun _ _ => ?_)
  refine replays_console_bind ?_
  refine replays_send_bind ?_
  exact replays_sendAndReport _ _ _ _ _ _ _ _

theorem replays_publishTargetServers (rt : Runtime) (post₁ post₂ : PostOracle)
    (opcoName deploymentName envName proxyName : Value)
    (opcoS deploymentS envS proxyS proxyUniqueId : String) (targetServers : Value) :
    Replays (fun _ _ => True)
      (publishTargetServers rt post₁ opcoName deploymentName envName proxyName opcoS
        deploymentS envS proxyS proxyUniqueId targetServers)
      (publishTargetServers rt post₂ opcoName deploymentName envName proxyName opcoS
        deploymentS envS proxyS proxyUniqueId targetServers) := by
  unfold ApigwTopo.publishTargetServers
  split
  · refine replays_liftE_bind (fun servers _ => ?_)
    refine replays_bind (replays_forEach (R := fun _ _ => True)
      (forall₂_refl (R := Eq) (fun _ => rfl) servers)
      (fun x y hxy => ?_)) (fun _ _ _ => replays_pure trivial)
    subst hxy
    exact replays_publishTargetServer _ _ _ _ _ _ _ _ _ _ _ _
  · exact replays_consoleOut _ _ _ _

theorem replays_publishProxy (rt : Runtime) (post₁ post₂ : PostOracle)
    (opcoName deploymentName envName : Value)
    (opcoS deploymentS envS envUniqueId : String) (proxy : Value) :
    Replays (fun _ _ => True)
      (publishProxy rt post₁ opcoName deploymentName envName opcoS deploymentS envS
        envUniqueId proxy)
      (publishProxy rt post₂ opcoName deploymentName envName opcoS deploymentS envS
        envUniqueId proxy) := by
  unfold ApigwTopo.publishProxy
  refine replays_liftE_bind (fun _ _ => ?_)
  refine replays_liftE_bind (fun _ _ => ?_)
  refine replays_console_bind ?_
  refine replays_liftE_bind (fun _ _ => ?_)
  refine replays_liftE_bind (fun _ _ => ?_)
  refine replays_send_bind ?_
  refine replays_send_bind ?_
  refine replays_liftE_bind (fun _ _ => ?_)
  exact replays_publishTargetServers _ _ _ _ _ _ _ _ _ _ _ _ _

theorem replays_publishProxies (rt : Runtime) (post₁ post₂ : PostOracle)
    (opcoName deploymentName envName : Value)
    (opcoS deploymentS envS envUniqueId : String) (proxies : Value) :
    Replays (fun _ _ => True)
      (publishProxies rt post₁ opcoName deploymentName envName opcoS deploymentS envS
        envUniqueId proxies)
      (publishProxies rt post₂ opcoName deploymentName envName opcoS deploymentS envS
        envUniqueId proxies) := by
  unfold ApigwTopo.publishProxies
  split
  · refine replays_liftE_bind (fun items _ => ?_)
    refine replays_bind (replays_forEach (R := fun _ _ => True)
      (forall₂_refl (R := Eq) (fun _ => rfl) items)
      (fun x y hxy => ?_)) (fun _ _ _ => replays_pure trivial)
    subst hxy
    exact replays_publishProxy _ _ _ _ _ _ _ _ _ _ _
  · exact replays_consoleOut _ _ _ _

theorem replays_publishVirtualHost (post₁ post₂ : PostOracle)
    (opcoName deploymentName envName : Value)
    (opcoS deploymentS envS envUniqueId : String) {vh vh' : Value} (h : HostAlike vh vh') :
    Replays (fun _ _ => True)
      (publishVirtualHost post₁ opcoName deploymentName envName opcoS deploymentS envS
        envUniqueId vh)
      (publishVirtualHost post₂ opcoName deploymentName envName opcoS deploymentS envS
        envUniqueId vh') := by
  unfold ApigwTopo.publishVirtualHost
  rw [h.1, h.2]
  refine replays_liftE_bind (fun _ _ => ?_)
  refine replays_liftE_bind (fun _ _ => ?_)
  refine replays_console_bind ?_
  refine replays_liftE_bind (fun _ _ => ?_)
  refine replays_send_bind ?_
  refine replays_send_bind ?_
  exact replays_pure trivial

theorem replays_publishVirtualHosts (rt : Runtime) (post₁ post₂ : PostOracle)
    (opcoName deploymentName envName : Value)
    (opcoS deploymentS envS envUniqueId : String) (env env' : Value) {vhs vhs' : Value}
    (h : ListAlike HostAlike vhs vhs') :
    Replays (fun _ _ => True)
      (publishVirtualHosts rt post₁ opcoName deploymentName envName opcoS deploymentS envS
        envUniqueId env vhs)
      (publishVirtualHosts rt post₂ opcoName deploymentName envName opcoS deploymentS envS
        envUniqueId env' vhs') := by
  unfold ApigwTopo.publishVirtualHosts
  rw [listAlike_guard rt h]
  split
  · refine replays_bind (replays_liftE (listAlike_forOf hostAlike_refl h)) (fun xs xs' hxs => ?_)
    refine replays_bind (replays_forEach (R := fun _ _ => True) hxs (fun x y hxy => ?_))
      (fun _ _ _ => replays_pure trivial)
    exact replays_publishVirtualHost _ _ _ _ _ _ _ _ _ hxy
  · exact replays_console_bind (replays_pure trivial)

theorem replays_publishEnvironment (rt : Runtime) (post₁ post₂ : PostOracle)
    (opcoName deploymentName : Value) (opcoS deploymentS deploymentUniqueName : String)
    {env env' : Value} (h : EnvironmentAlike env env') :
    Replays (fun _ _ => True)
      (publishEnvironment rt post₁ opcoName deploymentName opcoS deploymentS
        deploymentUniqueName env)
      (publishEnvironment rt post₂ opcoName deploymentName opcoS deploymentS
        deploymentUniqueName env') := by
  obtain ⟨hname, hproxies, haway, hhosts⟩ := h
  unfold ApigwTopo.publishEnvironment
  rw [hname, hproxies]
  refine replays_liftE_bind (fun envName _ => ?_)
  refine replays_liftE_bind (fun envS _ => ?_)
  refine replays_console_bind ?_
  have hassign := fun base : Fields => sameAway_foldl haway base base rfl
  refine replays_bind (replays_liftE (sameAway_formatStamp rt "createdAt"
    (hassign _) (by decide))) (fun created created' hc => ?_)
  refine replays_bind (replays_liftE (sameAway_formatStamp rt "lastModifiedAt"
    hc (by decide))) (fun modified modified' hm => ?_)
  have hel : deleteField "virtual-hosts" (deleteField "proxies" modified)
      = deleteField "virtual-hosts" (deleteField "proxies" modified') := by
    rw [deleteField_comm, deleteField_comm _ _ modified', hm]
  rw [hel]
  refine replays_send_bind ?_
  refine replays_send_bind ?_
  refine replays_bind (replays_liftE hhosts) (fun vhs vhs' hv => ?_)
  refine replays_bind (replays_publishVirtualHosts _ _ _ _ _ _ _ _ _ _ _ _ hv) (fun _ _ _ => ?_)
  refine replays_liftE_bind (fun proxies _ => ?_)
  exact replays_bind (replays_publishProxies _ _ _ _ _ _ _ _ _ _ _)
    (fun _ _ _ => replays_pure trivial)

theorem replays_publishEnvironments (rt : Runtime) (post₁ post₂ : PostOracle)
    (opcoName deploymentName : Value) (opcoS deploymentS deploymentUniqueName : String)
    (agg agg' : Value) {envs envs' : Value} (h : ListAlike EnvironmentAlike envs envs') :
    Replays (fun _ _ => True)
      (publishEnvironments rt post₁ opcoName deploymentName opcoS deploymentS
        deploymentUniqueName agg envs)
      (publishEnvironments rt post₂ opcoName deploymentName opcoS deploymentS
        deploymentUniqueName agg' envs') := by
  unfold ApigwTopo.publishEnvironments
  rw [listAlike_guard rt h]
  split
  · refine replays_bind (replays_liftE (listAlike_forOf environmentAlike_refl h))
      (fun xs xs' hxs => ?_)
    refine replays_bind (replays_forEach (R := fun _ _ => True) hxs (fun x y hxy => ?_))
      (fun _ _ _ => replays_pure trivial)
    exact replays_publishEnvironment _ _ _ _ _ _ _ _ hxy
  · exact replays_liftE (R := fun _ _ => True) (x := .error .referenceError)
      (y := .error .referenceError) rfl

theorem replays_publishDeployment (rt : Runtime) (post₁ post₂ : PostOracle)
    (mapping : Fields) {agg agg' : Value} (h : AggregateAlike agg agg') :
    Replays (fun _ _ => True) (publishDeployment rt post₁ mapping agg)
      (publishDeployment rt post₂ mapping agg') := by
  obtain ⟨hopco, hdep, henvs⟩ := h
  unfold ApigwTopo.publishDeployment
  rw [hopco, hdep]
  refine replays_liftE_bind (fun _ _ => ?_)
  refine replays_liftE_bind (fun _ _ => ?_)
  refine replays_liftE_bind (fun _ _ => ?_)
  refine replays_liftE_bind (fun deploymentName _ => ?_)
  refine replays_liftE_bind (fun _ _ => ?_)
  split
  · refine replays_liftE_bind (fun _ _ => ?_)
    refine replays_console_bind ?_
    refine replays_liftE_bind (fun _ _ => ?_)
    refine replays_liftE_bind (fun _ _ => ?_)
    refine replays_send_bind ?_
    refine replays_send_bind ?_
    refine replays_bind (replays_liftE henvs) (fun envs envs' he => ?_)
    exact replays_publishEnvironments _ _ _ _ _ _ _ _ _ _ he
  · exact replays_console_bind (replays_pure trivial)

theorem replays_publishAll (rt : Runtime) (post₁ post₂ : PostOracle) (opcoTopoData : Value)
    {data data' : Value} (h : ListAlike AggregateAlike data data') :
    Replays (fun _ _ => True) (publishAll rt post₁ data opcoTopoData)
      (publishAll rt post₂ data' opcoTopoData) := by
  unfold ApigwTopo.publishAll
  split
  · refine replays_bind (replays_liftE (listAlike_forOf aggregateAlike_refl h))
      (fun xs xs' hxs => ?_)
    refine replays_bind (replays_forEach (R := fun _ _ => True) hxs (fun x y hxy => ?_))
      (fun _ _ _ => replays_pure trivial)
    exact replays_publishDeployment _ _ _ _ hxy
  · exact replays_console_bind (replays_pure trivial)

theorem replays_transformDataAndSendToApi (rt : Runtime) (topo : HttpGet)
    (post₁ post₂ : PostOracle) {data data' : Value} (h : ListAlike AggregateAlike data data') :
    Replays (fun _ _ => True) (transformDataAndSendToApi rt topo post₁ data)
      (transformDataAndSendToApi rt topo post₂ data') := by
  unfold ApigwTopo.transformDataAndSendToApi
  rw [listAlike_guard rt h, listAlike_length h]
  split
  · refine replays_liftE_bind (fun _ _ => ?_)
    refine replays_liftE_bind (fun _ _ => ?_)
    refine replays_console_bind ?_
    refine replays_bind (replays_fetchTopologyData topo) (fun a b hab => ?_)
    subst hab
    exact replays_publishAll _ _ _ _ h
  · exact replays_console_bind (replays_pure trivial)

/-! ## The tree a run yields -/

theorem expandProperties_lookup {k : String} {fs fs' : Fields} {props : List Value}
    (h : expandProperties fs props = .ok fs')
    (hp : ∀ p ∈ props, propertyNamed k p = false) : lookup k fs' = lookup k fs := by
  induction props generalizing fs with
  | nil =>
    simp only [expandProperties] at h
    cases h
    rfl
  | cons p rest ih =>
    have hp₀ := hp p (by simp)
    unfold expandProperties at h
    cases hn : p.get "name" with
    | error e => simp [hn] at h
    | ok name =>
      cases hv : p.get "value" with
      | error e => simp [hn, hv] at h
      | ok value =>
        cases hs : name.toStr with
        | error e => simp [hn, hv, hs] at h
        | ok key =>
          simp only [hn, hv, hs] at h
          rw [ih h (fun q hq => hp q (by simp [hq]))]
          apply lookup_setField_ne
          intro hk
          simp [propertyNamed, hn, hs, hk] at hp₀

theorem flattenVirtualHost_deleted (fs : Fields) :
    flattenVirtualHost (.obj (deleteField "properties" fs))
      = .ok (.obj (deleteField "properties" fs)) := by
  simp [flattenVirtualHost, lookup_deleteField_same, Value.truthy]

theorem hostAlike_of_flatten {vh fl : Value} (h : flattenVirtualHost vh = .ok fl)
    (hk : (propertyList vh).any (propertyNamed "name") = false) : HostAlike vh fl := by
  rcases flattenVirtualHost_cases h with rfl | ⟨fs, fs', rfl, hex, rfl⟩
  · exact hostAlike_refl _
  · constructor
    · simp only [Value.get, Except.ok.injEq]
      rw [lookup_deleteField_ne _ _ _ (by decide)]
      exact expandProperties_lookup hex (fun p hp => by
        have := List.any_eq_false.mp hk p hp
        simpa using this)
    · rw [h]
      exact flattenVirtualHost_deleted fs'

theorem yields_publishVirtualHost (post : PostOracle) (opcoName deploymentName envName : Value)
    (opcoS deploymentS envS envUniqueId : String) (vh : Value)
    (hk : (propertyList vh).any (propertyNamed "name") = false) :
    Yields (publishVirtualHost post opcoName deploymentName envName opcoS deploymentS envS
      envUniqueId vh) (HostAlike vh) := by
  unfold ApigwTopo.publishVirtualHost
  refine yields_skip_bind (fun _ => ?_)
  refine yields_skip_bind (fun _ => ?_)
  refine yields_skip_bind (fun _ => ?_)
  refine yields_liftE_bind (fun fl hfl => ?_)
  refine yields_skip_bind (fun _ => ?_)
  refine yields_skip_bind (fun _ => ?_)
  exact yields_pure (hostAlike_of_flatten hfl hk)

theorem environmentAlike_withVirtualHosts {env vhs : Value} {hosts hosts' : List Value}
    (hv : env.get "virtual-hosts" = .ok vhs) (hh : forOf vhs = .ok hosts)
    (hf : List.Forall₂ HostAlike hosts hosts') :
    EnvironmentAlike env (withVirtualHosts env hosts') := by
  cases vhs with
  | arr xs =>
    obtain ⟨fs, rfl, hl⟩ := get_eq_arr hv
    simp only [forOf, Except.ok.injEq] at hh
    subst hh
    have hw : withVirtualHosts (.obj fs) hosts'
        = .obj (setField "virtual-hosts" (.arr hosts') fs) := by
      simp [withVirtualHosts, hl]
    rw [hw]
    refine ⟨?_, ?_, ?_, ?_⟩
    · simp only [Value.get, Except.ok.injEq]
      exact lookup_setField_ne _ _ _ _ (by decide)
    · simp only [Value.get, Except.ok.injEq]
      exact lookup_setField_ne _ _ _ _ (by decide)
    · have hne : lookup "virtual-hosts" fs ≠ .undefined := by
        rw [hl]
        exact fun h => Value.noConfusion h
      exact awayFrom_setField _ _ fs (mem_keys_of_lookup_ne_undefined hne)
    · simp only [Value.get, hl, lookup_setField_same, endAlike]
      exact Or.inr ⟨xs, hosts', rfl, rfl, hf⟩
  | str s =>
    have hw : withVirtualHosts env hosts' = env := by
      cases env with
      | obj fs =>
        simp only [Value.get, Except.ok.injEq] at hv
        simp [withVirtualHosts, hv]
      | _ => rfl
    rw [hw]
    exact environmentAlike_refl env
  | undefined => cases hh
  | null => cases hh
  | bool b => cases hh
  | num lit => cases hh
  | obj fs => cases hh

theorem yields_publishVirtualHosts (rt : Runtime) (post : PostOracle)
    (opcoName deploymentName envName : Value)
    (opcoS deploymentS envS envUniqueId : String) (env vhs : Value)
    (hv : env.get "virtual-hosts" = .ok vhs)
    (hk : ∀ vh ∈ elems vhs, (propertyList vh).any (propertyNamed "name") = false) :
    Yields (publishVirtualHosts rt post opcoName deploymentName envName opcoS deploymentS envS
      envUniqueId env vhs) (EnvironmentAlike env) := by
  unfold ApigwTopo.publishVirtualHosts
  split
  · refine yields_liftE_bind (fun hosts hh => ?_)
    refine yields_bind (yields_forEach (R := HostAlike) hosts (fun x hx =>
      yields_publishVirtualHost _ _ _ _ _ _ _ _ x
        (hk x (by rw [elems_of_forOf hh]; exact hx)))) (fun hosts' hf => ?_)
    exact yields_pure (environmentAlike_withVirtualHosts hv hh hf)
  · exact yields_skip_bind (fun _ => yields_pure (environmentAlike_refl env))

theorem yields_publishEnvironment (rt : Runtime) (post : PostOracle)
    (opcoName deploymentName : Value) (opcoS deploymentS deploymentUniqueName : String)
    (env : Value)
    (hk : ∀ vh ∈ elems (field "virtual-hosts" env),
      (propertyList vh).any (propertyNamed "name") = false) :
    Yields (publishEnvironment rt post opcoName deploymentName opcoS deploymentS
      deploymentUniqueName env) (EnvironmentAlike env) := by
  unfold ApigwTopo.publishEnvironment
  refine yields_skip_bind (fun _ => ?_)
  refine yields_skip_bind (fun _ => ?_)
  refine yields_skip_bind (fun _ => ?_)
  refine yields_skip_bind (fun _ => ?_)
  refine yields_skip_bind (fun _ => ?_)
  refine yields_skip_bind (fun _ => ?_)
  refine yields_skip_bind (fun _ => ?_)
  refine yields_liftE_bind (fun vhs hv => ?_)
  refine yields_bind (yields_publishVirtualHosts _ _ _ _ _ _ _ _ _ _ _ hv
    (by rw [← field_of_get hv]; exact hk)) (fun env' he => ?_)
  refine yields_skip_bind (fun _ => ?_)
  refine yields_skip_bind (fun _ => ?_)
  exact yields_pure he

theorem aggregateAlike_withEnvironments {agg envsV : Value} {envs envs' : List Value}
    (hv : agg.get "environments" = .ok envsV) (hh : forOf envsV = .ok envs)
    (hf : List.Forall₂ EnvironmentAlike envs envs') :
    AggregateAlike agg (withEnvironments agg envs') := by
  cases envsV with
  | arr xs =>
    obtain ⟨fs, rfl, hl⟩ := get_eq_arr hv
    simp only [forOf, Except.ok.injEq] at hh
    subst hh
    have hw : withEnvironments (.obj fs) envs'
        = .obj (setField "environments" (.arr envs') fs) := by
      simp [withEnvironments, hl]
    rw [hw]
    refine ⟨?_, ?_, ?_⟩
    · simp only [Value.get, Except.ok.injEq]
      exact lookup_setField_ne _ _ _ _ (by decide)
    · simp only [Value.get, Except.ok.injEq]
      exact lookup_setField_ne _ _ _ _ (by decide)
    · simp only [Value.get, hl, lookup_setField_same, endAlike]
      exact Or.inr ⟨xs, envs', rfl, rfl, hf⟩
  | str s =>
    have hw : withEnvironments agg envs' = agg := by
      cases agg with
      | obj fs =>
        simp only [Value.get, Except.ok.injEq] at hv
        simp [withEnvironments, hv]
      | _ => rfl
    rw [hw]
    exact aggregateAlike_refl agg
  | undefined => cases hh
  | null => cases hh
  | bool b => cases hh
  | num lit => cases hh
  | obj fs => cases hh

theorem yields_publishEnvironments (rt : Runtime) (post : PostOracle)
    (opcoName deploymentName : Value) (opcoS deploymentS deploymentUniqueName : String)
    (agg envsV : Value) (hv : agg.get "environments" = .ok envsV)
    (hk : ∀ env ∈ elems envsV, ∀ vh ∈ elems (field "virtual-hosts" env),
      (propertyList vh).any (propertyNamed "name") = false) :
    Yields (publishEnvironments rt post opcoName deploymentName opcoS deploymentS
      deploymentUniqueName agg envsV) (AggregateAlike agg) := by
  unfold ApigwTopo.publishEnvironments
  split
  · refine yields_liftE_bind (fun envs hh => ?_)
    refine yields_bind (yields_forEach (R := EnvironmentAlike) envs (fun x hx =>
      yields_publishEnvironment _ _ _ _ _ _ _ x
        (hk x (by rw [elems_of_forOf hh]; exact hx)))) (fun envs' hf => ?_)
    exact yields_pure (aggregateAlike_withEnvironments hv hh hf)
  · intro t a t' h
    cases h

theorem yields_publishDeployment (rt : Runtime) (post : PostOracle) (mapping : Fields)
    (agg : Value)
    (hk : ∀ env ∈ elems (field "environments" agg), ∀ vh ∈ elems (field "virtual-hosts" env),
      (propertyList vh).any (propertyNamed "name") = false) :
    Yields (publishDeployment rt post mapping agg) (AggregateAlike agg) := by
  unfold ApigwTopo.publishDeployment
  refine yields_skip_bind (fun _ => ?_)
  refine yields_skip_bind (fun _ => ?_)
  refine yields_skip_bind (fun _ => ?_)
  refine yields_skip_bind (fun _ => ?_)
  refine yields_skip_bind (fun _ => ?_)
  split
  · refine yields_skip_bind (fun _ => ?_)
    refine yields_skip_bind (fun _ => ?_)
    refine yields_skip_bind (fun _ => ?_)
    refine yields_skip_bind (fun _ => ?_)
    refine yields_skip_bind (fun _ => ?_)
    refine yields_skip_bind (fun _ => ?_)
    refine yields_liftE_bind (fun envsV hv => ?_)
    exact yields_publishEnvironments _ _ _ _ _ _ _ _ _ hv
      (by rw [← field_of_get hv]; exact hk)
  · exact yields_skip_bind (fun _ => yields_pure (aggregateAlike_refl agg))

theorem listAlike_withElements {data : Value} {items items' : List Value}
    (hh : forOf data = .ok items) (hf : List.Forall₂ AggregateAlike items items') :
    ListAlike AggregateAlike data (withElements data items') := by
  cases data with
  | arr xs =>
    simp only [forOf, Except.ok.injEq] at hh
    subst hh
    exact Or.inr ⟨xs, items', rfl, rfl, hf⟩
  | _ => exact Or.inl rfl

theorem hostsKeepName_unfold {data : Value} (h : hostsKeepName data = true) :
    ∀ agg ∈ elems data, ∀ env ∈ elems (field "environments" agg),
      ∀ vh ∈ elems (field "virtual-hosts" env),
        (propertyList vh).any (propertyNamed "name") = false := by
  intro agg hagg env henv vh hvh
  simp only [hostsKeepName, List.all_eq_true] at h
  have := h agg hagg env henv vh hvh
  simpa using this

theorem yields_publishAll (rt : Runtime) (post : PostOracle) (data opcoTopoData : Value)
    (hk : hostsKeepName data = true) :
    Yields (publishAll rt post data opcoTopoData) (ListAlike AggregateAlike data) := by
  unfold ApigwTopo.publishAll
  split
  · refine yields_liftE_bind (fun items hh => ?_)
    refine yields_bind (yields_forEach (R := AggregateAlike) items (fun x hx =>
      yields_publishDeployment _ _ _ x
        (hostsKeepName_unfold hk x (by rw [elems_of_forOf hh]; exact hx))))
      (fun items' hf => ?_)
    exact yields_pure (listAlike_withElements hh hf)
  · exact yields_skip_bind (fun _ => yields_pure (Or.inl rfl))

theorem yields_transformDataAndSendToApi (rt : Runtime) (topo : HttpGet) (post : PostOracle)
    (data : Value) (hk : hostsKeepName data = true) :
    Yields (transformDataAndSendToApi rt topo post data) (ListAlike AggregateAlike data) := by
  unfold ApigwTopo.transformDataAndSendToApi
  split
  · refine yields_skip_bind (fun _ => ?_)
    refine yields_skip_bind (fun _ => ?_)
    refine yields_skip_bind (fun _ => ?_)
    refine yields_skip_bind (fun _ => ?_)
    exact yields_publishAll _ _ _ _ hk
  · exact yields_skip_bind (fun _ => yields_pure (Or.inl rfl))

/-! ## Publishing twice -/

/-- C14, as amended. For every tree in which no virtual host has a property named
`name` in its property list, and on which a run of the publisher completes: a second
run, on the tree as the first run left it (virtual hosts expanded in place) and with
the same opco lookup, completes too and issues the same calls, endpoint by endpoint and
payload by payload, whatever the outcomes of the POSTs of either run. -/
theorem republish_same_calls (rt : Runtime) (topo : HttpGet) (post₁ post₂ : PostOracle)
    (data data' : Value) (hrun : (runPublisher rt topo post₁ data).1 = .ok data')
    (hkeep : hostsKeepName data = true) :
    (runPublisher rt topo post₂ data').2.calls = (runPublisher rt topo post₁ data).2.calls ∧
    ∃ data'', (runPublisher rt topo post₂ data').1 = .ok data'' := by
  have hy : ListAlike AggregateAlike data data' :=
    yields_transformDataAndSendToApi rt topo post₁ data hkeep ⟨[], []⟩ data'
      (runPublisher rt topo post₁ data).2 (Prod.ext hrun rfl)
  obtain ⟨cs, h1, h2, h3⟩ :=
    replays_transformDataAndSendToApi rt topo post₁ post₂ hy ⟨[], []⟩ ⟨[], []⟩
  refine ⟨?_, ?_⟩
  · show (transformDataAndSendToApi rt topo post₂ data' ⟨[], []⟩).2.calls
      = (transformDataAndSendToApi rt topo post₁ data ⟨[], []⟩).2.calls
    rw [h1, h2]
  · have hrun' : (transformDataAndSendToApi rt topo post₁ data ⟨[], []⟩).1 = .ok data' := hrun
    rw [hrun'] at h3
    show ∃ data'', (transformDataAndSendToApi rt topo post₂ data' ⟨[], []⟩).1 = .ok data''
    cases h : (transformDataAndSendToApi rt topo post₂ data' ⟨[], []⟩).1 with
    | ok d => exact ⟨d, rfl⟩
    | error e =>
      rw [h] at h3
      exact h3.elim

/-- Witness for C14: the scenario whose virtual host `vh1` has the unexpanded property
`port`; the second run, on the expanded tree and with every POST failing, issues the
calls of the first. -/
theorem republish_same_calls_witness :
    (runPublisher refRuntime scenarioLookup (fun _ _ => false) expandedHostData).2.calls
      = (runPublisher refRuntime scenarioLookup (fun _ _ => true) unexpandedHostData).2.calls ∧
    ∃ data'', (runPublisher refRuntime scenarioLookup (fun _ _ => false) expandedHostData).1
      = .ok data'' :=
  republish_same_calls refRuntime scenarioLookup (fun _ _ => true) (fun _ _ => false)
    unexpandedHostData expandedHostData (by decide!) (by decide)

/-- C14, counterexample. The virtual host `vh0` of `renamingHostData` has a property
named `name` with the value `vh1`. The first run reads the name before it expands the
list and publishes the host as `NL_apigw-nl_prod_vh0`; it leaves the tree as
`renamedHostData`, on which the second run publishes the host as
`NL_apigw-nl_prod_vh1`: the two call sequences differ. -/
theorem republish_renamed_host_counterexample :
    (runPublisher refRuntime scenarioLookup (fun _ _ => true) renamingHostData).1
      = .ok renamedHostData ∧
    ((runPublisher refRuntime scenarioLookup (fun _ _ => true) renamingHostData).2.calls.map
        (Call.field "uniqueId")).filter (fun v => v ≠ .undefined)
      = [.str "NL_apigw-nl", .str "NL_apigw-nl_prod", .str "NL_apigw-nl_prod_vh0"] ∧
    ((runPublisher refRuntime scenarioLookup (fun _ _ => true) renamedHostData).2.calls.map
        (Call.field "uniqueId")).filter (fun v => v ≠ .undefined)
      = [.str "NL_apigw-nl", .str "NL_apigw-nl_prod", .str "NL_apigw-nl_prod_vh1"] ∧
    (runPublisher refRuntime scenarioLookup (fun _ _ => true) renamedHostData).2.calls
      ≠ (runPublisher refRuntime scenarioLookup (fun _ _ => true) renamingHostData).2.calls := by
  have h₀ : (runPublisher refRuntime scenarioLookup (fun _ _ => true) renamingHostData).1
      = .ok renamedHostData := by
    decide!
  have h₁ : ((runPublisher refRuntime scenarioLookup (fun _ _ => true)
      renamingHostData).2.calls.map (Call.field "uniqueId")).filter (fun v => v ≠ .undefined)
      = [.str "NL_apigw-nl", .str "NL_apigw-nl_prod", .str "NL_apigw-nl_prod_vh0"] := by
    decide!
  have h₂ : ((runPublisher refRuntime scenarioLookup (fun _ _ => true)
      renamedHostData).2.calls.map (Call.field "uniqueId")).filter (fun v => v ≠ .undefined)
      = [.str "NL_apigw-nl", .str "NL_apigw-nl_prod", .str "NL_apigw-nl_prod_vh1"] := by
    decide!
  have hne : [Value.str "NL_apigw-nl", .str "NL_apigw-nl_prod", .str "NL_apigw-nl_prod_vh0"]
      ≠ [.str "NL_apigw-nl", .str "NL_apigw-nl_prod", .str "NL_apigw-nl_prod_vh1"] := by
    decide
  refine ⟨h₀, h₁, h₂, ?_⟩
  intro h
  rw [h, h₁] at h₂
  exact hne h₂

/-! ## An opco that the lookup does not know -/

theorem console_bind_apply {β : Type} (l : Level) (s : String) (f : Unit → Pub β) (t : Trace) :
    (ApigwTopo.consoleOut l s >>= f) t = f () { t with console := t.console ++ [⟨l, s⟩] } := rfl

theorem send_bind_apply {β : Type} (post : PostOracle) (ep : Endpoint) (d : Value)
    (g b : String) (f : Unit → Pub β) (t : Trace) :
    (ApigwTopo.sendAndReport post ep d g b >>= f) t =
      f () { calls := t.calls ++ [⟨ep, d⟩],
             console := t.console ++ reportLines (post t.calls.length ⟨ep, d⟩) g b } := by
  rw [Pub.bind_apply, sendAndReport_apply]

/-- An aggregate with a present, printable deployment name and formattable time stamps:
whatever the mapping holds for the opco (as long as it converts to text), the step sends
the deployment node, then the `manages` edge whose source is the mapped value, and goes
on with the environments. The node does not depend on the mapping. -/
theorem publishDeployment_named (rt : Runtime) (post : PostOracle)
    (opcoElement opcoName : Value) (opcoS deploymentS : String) (d : Fields)
    (hopco : opcoElement.get "opco" = .ok opcoName) (hopcoS : opcoName.toStr = .ok opcoS)
    (hdep : opcoElement.get "deployment" = .ok (.obj d))
    (hname : (lookup "name" d).truthy = true)
    (hnameS : (lookup "name" d).toStr = .ok deploymentS)
    (hstamps : stampsOk rt d = true) :
    ∃ el : Fields, ∀ (mapping : Fields) (t : Trace), printable (lookup opcoS mapping) = true →
      ∃ t' : Trace,
        t'.calls = t.calls ++ [⟨.resources, .obj el⟩,
          ⟨.references, edgePayload (lookup opcoS mapping)
            (.str (opcoS ++ "_" ++ deploymentS)) "manages"⟩] ∧
        publishDeployment rt post mapping opcoElement t =
          (ApigwTopo.liftE (opcoElement.get "environments") >>= fun environmentsDetails =>
            publishEnvironments rt post opcoName (lookup "name" d) opcoS deploymentS
              (opcoS ++ "_" ++ deploymentS) opcoElement environmentsDetails) t' := by
  have hready : ∀ k, k = "createdAt" ∨ k = "lastModifiedAt" →
      (lookup k (deleteField "properties" (objectAssign
        [("uniqueId", .str (opcoS ++ "_" ++ deploymentS)),
         ("entityTypes", .arr [.str "deployment"]),
         ("matchTokens", .arr [.str (opcoS ++ "_" ++ deploymentS)]), ("opco", opcoName),
         ("tags", .arr [lookup "name" d])] (.obj d)))).truthy = true →
      ∃ s, rt.epochToHumanReadable (lookup k (deleteField "properties" (objectAssign
        [("uniqueId", .str (opcoS ++ "_" ++ deploymentS)),
         ("entityTypes", .arr [.str "deployment"]),
         ("matchTokens", .arr [.str (opcoS ++ "_" ++ deploymentS)]), ("opco", opcoName),
         ("tags", .arr [lookup "name" d])] (.obj d)))) = .ok s := by
    intro k hk ht
    have hne' : k ≠ "properties" := by rcases hk with hk | hk <;> simp [hk]
    rw [lookup_deleteField_ne _ _ _ hne'] at ht ⊢
    exact stamp_ready rt d _ k hk hstamps (by rcases hk with hk | hk <;> simp [hk, lookup]) ht
  obtain ⟨created, hcreated, hc⟩ := formatStamp_total rt "createdAt" _ (hready _ (Or.inl rfl))
  obtain ⟨el, hel, _⟩ := formatStamp_total rt "lastModifiedAt" created
    (fun ht => by
      rw [hc _ (by decide)] at ht ⊢
      exact hready _ (Or.inr rfl) ht)
  refine ⟨el, fun mapping t hprint => ?_⟩
  have hobj : (Value.obj d).truthy = true := rfl
  have hget : (Value.obj d).get "name" = .ok (lookup "name" d) := rfl
  unfold ApigwTopo.publishDeployment
  simp only [hopco, liftE_ok_bind, hopcoS, hdep, hobj, if_true, hget, hname, hnameS,
    toStr_of_printable hprint, hcreated, hel, console_bind_apply, send_bind_apply]
  exact ⟨_, by simp, rfl⟩

/-- C11. Take an aggregate with a printable opco code, a present and printable
`deployment.name` and formattable time stamps, and a mapping of which the opco code is
not a key. From any trace, the step for this aggregate sends the deployment node and
then the `manages` edge with `_fromUniqueId` undefined, `_toUniqueId`
`{opco}_{deploymentName}` and `_edgeType` `manages`; and it proceeds as under any mapping
`matched` that holds a printable identifier for the opco: the two steps send the same
node, the same calls after the edge, and end alike (both complete, or both raise the
same exception), so that the calls differ in the source of the `manages` edge only.
(The mapping is read by own property, as the member access of line 295 does for every
key that is no member of `Object.prototype`; the two-letter codes and the `null` that
`extractLettersAfterDash` returns are none.) -/
theorem missing_opco_is_not_fatal (rt : Runtime) (post : PostOracle) (mapping matched : Fields)
    (opcoElement opcoName : Value) (opcoS deploymentS : String) (d : Fields) (t : Trace)
    (hopco : opcoElement.get "opco" = .ok opcoName) (hopcoS : opcoName.toStr = .ok opcoS)
    (hmiss : opcoS ∉ mapping.map Prod.fst)
    (hmatched : printable (lookup opcoS matched) = true)
    (hdep : opcoElement.get "deployment" = .ok (.obj d))
    (hname : (lookup "name" d).truthy = true)
    (hnameS : (lookup "name" d).toStr = .ok deploymentS)
    (hstamps : stampsOk rt d = true) :
    ∃ (node : Call) (rest : List Call),
      node.endpoint = .resources ∧
      (publishDeployment rt post mapping opcoElement t).2.calls =
        t.calls ++ node :: ⟨.references,
          edgePayload .undefined (.str (opcoS ++ "_" ++ deploymentS)) "manages"⟩ :: rest ∧
      (publishDeployment rt post matched opcoElement t).2.calls =
        t.calls ++ node :: ⟨.references, edgePayload (lookup opcoS matched)
          (.str (opcoS ++ "_" ++ deploymentS)) "manages"⟩ :: rest ∧
      endAlike (fun _ _ => True) (publishDeployment rt post mapping opcoElement t).1
        (publishDeployment rt post matched opcoElement t).1 := by
  obtain ⟨el, hel⟩ := publishDeployment_named rt post opcoElement opcoName opcoS deploymentS d
    hopco hopcoS hdep hname hnameS hstamps
  have hundef : lookup opcoS mapping = .undefined := lookup_undefined_of_not_mem_keys hmiss
  obtain ⟨t₁, hc₁, hr₁⟩ := hel mapping t (by rw [hundef]; rfl)
  obtain ⟨t₂, hc₂, hr₂⟩ := hel matched t hmatched
  have hK : Replays (fun (_ _ : Value) => True)
      (ApigwTopo.liftE (opcoElement.get "environments") >>= fun environmentsDetails =>
        publishEnvironments rt post opcoName (lookup "name" d) opcoS deploymentS
          (opcoS ++ "_" ++ deploymentS) opcoElement environmentsDetails)
      (ApigwTopo.liftE (opcoElement.get "environments") >>= fun environmentsDetails =>
        publishEnvironments rt post opcoName (lookup "name" d) opcoS deploymentS
          (opcoS ++ "_" ++ deploymentS) opcoElement environmentsDetails) :=
    replays_liftE_bind (fun envs _ =>
      replays_publishEnvironments _ _ _ _ _ _ _ _ _ _ (Or.inl rfl))
  obtain ⟨cs, h1, h2, h3⟩ := hK t₁ t₂
  refine ⟨⟨.resources, .obj el⟩, cs, rfl, ?_, ?_, ?_⟩
  · rw [hr₁, h1, hc₁, hundef]
    simp
  · rw [hr₂, h2, hc₂]
    simp
  · rw [hr₁, hr₂]
    exact h3

/-- Witness for C11: the aggregate of the end-to-end scenario under a mapping that knows
the opco `DE` only, next to the mapping of the scenario. -/
theorem missing_opco_is_not_fatal_witness :
    ∃ (node : Call) (rest : List Call),
      node.endpoint = .resources ∧
      (publishDeployment refRuntime (fun _ _ => true) [("DE", .str "opco-456")]
          scenarioAggregate ⟨[], []⟩).2.calls =
        [] ++ node :: ⟨.references,
          edgePayload .undefined (.str ("NL" ++ "_" ++ "apigw-nl")) "manages"⟩ :: rest ∧
      (publishDeployment refRuntime (fun _ _ => true) [("NL", .str "opco-123")]
          scenarioAggregate ⟨[], []⟩).2.calls =
        [] ++ node :: ⟨.references, edgePayload (lookup "NL" [("NL", .str "opco-123")])
          (.str ("NL" ++ "_" ++ "apigw-nl")) "manages"⟩ :: rest ∧
      endAlike (fun _ _ => True)
        (publishDeployment refRuntime (fun _ _ => true) [("DE", .str "opco-456")]
          scenarioAggregate ⟨[], []⟩).1
        (publishDeployment refRuntime (fun _ _ => true) [("NL", .str "opco-123")]
          scenarioAggregate ⟨[], []⟩).1 :=
  missing_opco_is_not_fatal refRuntime (fun _ _ => true) [("DE", .str "opco-456")]
    [("NL", .str "opco-123")] scenarioAggregate (.str "NL") "NL" "apigw-nl"
    [("name", .str "apigw-nl")] ⟨[], []⟩ rfl rfl (by decide) (by decide) rfl (by decide) rfl
    (by decide)

/-! ## The identifiers of the node calls -/

theorem nodeIds_append (xs ys : List Call) : nodeIds (xs ++ ys) = nodeIds xs ++ nodeIds ys := by
  simp [nodeIds]

theorem emitsIds_pure {α : Type} (a : α) : EmitsIds (pure a : Pub α) [] :=
  fun t => ⟨[], by rw [List.append_nil]; rfl, List.prefix_refl _, fun _ => rfl⟩

theorem emitsIds_error {α : Type} (e : JsError) (ids : List String) :
    EmitsIds (liftE (.error e) : Pub α) ids :=
  fun t => ⟨[], by rw [List.append_nil]; rfl, List.nil_prefix,
    fun ⟨_, h⟩ => Except.noConfusion (h : (Except.error e : Except JsError α) = _)⟩

theorem emitsIds_liftE_bind {α β : Type} {x : Except JsError α} {f : α → Pub β}
    {ids : List String} (hf : ∀ a, x = .ok a → EmitsIds (f a) ids) :
    EmitsIds (ApigwTopo.liftE x >>= f) ids := by
  cases x with
  | error e => exact emitsIds_error e ids
  | ok a => exact hf a rfl

theorem emitsIds_console_bind {β : Type} {l : Level} {s : String} {f : Unit → Pub β}
    {ids : List String} (hf : EmitsIds (f ()) ids) :
    EmitsIds (ApigwTopo.consoleOut l s >>= f) ids :=
  fun _ => hf _

theorem emitsIds_node_bind {β : Type} {post : PostOracle} {el : Fields} {g b : String}
    {f : Unit → Pub β} {id : String} {ids : List String}
    (hid : lookup "uniqueId" el = .str id) (hf : EmitsIds (f ()) ids) :
    EmitsIds (ApigwTopo.sendAndReport post .resources (.obj el) g b >>= f) (id :: ids) := by
  intro t
  rw [send_bind_apply]
  obtain ⟨cs, h1, h2, h3⟩ := hf
    { calls := t.calls ++ [⟨.resources, .obj el⟩],
      console := t.console ++ reportLines (post t.calls.length ⟨.resources, .obj el⟩) g b }
  have hn : nodeIds (⟨.resources, .obj el⟩ :: cs) = .str id :: nodeIds cs := by
    simp [nodeIds, Call.field, field, Value.get, hid]
  refine ⟨⟨.resources, .obj el⟩ :: cs, by simpa using h1, ?_, fun h => ?_⟩
  · rw [hn, List.map_cons]
    exact (List.prefix_cons_inj _).mpr h2
  · rw [hn, List.map_cons, h3 h]

theorem emitsIds_edge_bind {β : Type} {post : PostOracle} {d : Value} {g b : String}
    {f : Unit → Pub β} {ids : List String} (hf : EmitsIds (f ()) ids) :
    EmitsIds (ApigwTopo.sendAndReport post .references d g b >>= f) ids := by
  intro t
  rw [send_bind_apply]
  obtain ⟨cs, h1, h2, h3⟩ := hf
    { calls := t.calls ++ [⟨.references, d⟩],
      console := t.console ++ reportLines (post t.calls.length ⟨.references, d⟩) g b }
  have hn : nodeIds (⟨.references, d⟩ :: cs) = nodeIds cs := by
    simp [nodeIds]
  exact ⟨⟨.references, d⟩ :: cs, by simpa using h1, by rw [hn]; exact h2,
    fun h => by rw [hn]; exact h3 h⟩

theorem emitsIds_consoleOut (l : Level) (s : String) : EmitsIds (consoleOut l s) [] :=
  fun t => ⟨[], by rw [List.append_nil]; rfl, List.prefix_refl _, fun _ => rfl⟩

theorem emitsIds_edge (post : PostOracle) (d : Value) (g b : String) :
    EmitsIds (sendAndReport post .references d g b) [] := by
  intro t
  rw [sendAndReport_apply]
  exact ⟨[⟨.references, d⟩], rfl, by simp [nodeIds], fun _ => by simp [nodeIds]⟩

theorem emitsIds_bind {α β : Type} {m : Pub α} {f : α → Pub β} {i₁ i₂ : List String}
    (hm : EmitsIds m i₁) (hf : ∀ a, EmitsIds (f a) i₂) : EmitsIds (m >>= f) (i₁ ++ i₂) := by
  intro t
  rw [Pub.bind_apply]
  obtain ⟨cs, h1, h2, h3⟩ := hm t
  rcases e : m t with ⟨r, u⟩
  rw [e] at h1 h3
  simp only at h1 h3
  cases r with
  | error err =>
    refine ⟨cs, h1, ?_, fun ⟨a, h⟩ => Except.noConfusion h⟩
    rw [List.map_append]
    exact h2.trans (List.prefix_append _ _)
  | ok a =>
    obtain ⟨cs', g1, g2, g3⟩ := hf a u
    have hfull := h3 ⟨a, rfl⟩
    refine ⟨cs ++ cs', by rw [g1, h1, List.append_assoc], ?_, fun h => ?_⟩
    · rw [nodeIds_append, hfull, List.map_append]
      exact (List.prefix_append_right_inj _).mpr g2
    · rw [nodeIds_append, hfull, List.map_append, g3 h]

theorem emitsIds_congr {α : Type} {m : Pub α} {i i' : List String} (hm : EmitsIds m i)
    (h : i = i') : EmitsIds m i' := h ▸ hm

theorem emitsIds_forEach {α β : Type} {f : α → Pub β} {e : α → List String} (xs : List α)
    (hf : ∀ x ∈ xs, EmitsIds (f x) (e x)) : EmitsIds (Pub.forEach f xs) (xs.flatMap e) := by
  induction xs with
  | nil => exact emitsIds_pure _
  | cons x xs ih =>
    show EmitsIds (f x >>= fun y => Pub.forEach f xs >>= fun ys => Pure.pure (y :: ys)) _
    refine emitsIds_congr (emitsIds_bind (hf x (by simp)) (fun y =>
      emitsIds_bind (ih (fun z hz => hf z (by simp [hz]))) (fun ys => emitsIds_pure _))) ?_
    simp

theorem flatMap_singleton_map {α β : Type} (f : α → β) (xs : List α) :
    xs.flatMap (fun x => [f x]) = xs.map f := by
  induction xs with
  | nil => rfl
  | cons x xs ih => simp [List.flatMap_cons, ih]

theorem elems_of_guard_false {rt : Runtime} {v : Value} (h : ¬ nonEmptyGuard rt v = true) :
    elems v = [] := by
  cases v with
  | arr xs =>
    cases xs with
    | nil => rfl
    | cons x rest => simp [nonEmptyGuard] at h
  | str s =>
    simp only [nonEmptyGuard, Bool.not_eq_true, Bool.not_eq_false', List.isEmpty_iff] at h
    simp [elems, forOf, h]
  | _ => rfl

theorem text_of_toStr {v : Value} {s : String} (h : v.toStr = .ok s) : v.text = s := by
  simp [Value.text, h]

theorem emitsIds_publishTargetServer (post : PostOracle)
    (opcoName deploymentName envName proxyName : Value)
    (opcoS deploymentS envS proxyS proxyUniqueId envUniqueId : String) (targetServer : Value)
    (henv : envUniqueId = opcoS ++ "_" ++ deploymentS ++ "_" ++ envS)
    (hts : carries "uniqueId" targetServer = false) :
    EmitsIds
      (publishTargetServer post opcoName deploymentName envName proxyName opcoS deploymentS
        envS proxyS proxyUniqueId targetServer)
      [envUniqueId ++ "_" ++ (field "host" targetServer).text] := by
  subst henv
  unfold ApigwTopo.publishTargetServer
  refine emitsIds_liftE_bind (fun _ _ => ?_)
  refine emitsIds_liftE_bind (fun host hget => ?_)
  refine emitsIds_liftE_bind (fun hostS hs => ?_)
  refine emitsIds_liftE_bind (fun _ _ => ?_)
  refine emitsIds_console_bind ?_
  rw [field_of_get hget, text_of_toStr hs]
  refine emitsIds_node_bind ?_ (emitsIds_edge _ _ _ _)
  rw [lookup_objectAssign_of_not_carries _ _ _ hts]
  simp [lookup]

theorem emitsIds_publishTargetServers (rt : Runtime) (post : PostOracle)
    (opcoName deploymentName envName proxyName : Value)
    (opcoS deploymentS envS proxyS proxyUniqueId envUniqueId : String) (targetServers : Value)
    (henv : envUniqueId = opcoS ++ "_" ++ deploymentS ++ "_" ++ envS)
    (hts : ∀ ts ∈ elems targetServers, carries "uniqueId" ts = false) :
    EmitsIds
      (publishTargetServers rt post opcoName deploymentName envName proxyName opcoS
        deploymentS envS proxyS proxyUniqueId targetServers)
      ((elems targetServers).map
        (fun targetServer => envUniqueId ++ "_" ++ (field "host" targetServer).text)) := by
  unfold ApigwTopo.publishTargetServers
  split
  · refine emitsIds_liftE_bind (fun servers hs => ?_)
    rw [elems_of_forOf hs] at hts ⊢
    refine emitsIds_congr (emitsIds_bind (emitsIds_forEach servers (fun ts hmem =>
      emitsIds_publishTargetServer post _ _ _ _ _ _ _ _ _ envUniqueId ts henv (hts ts hmem)))
      (fun _ => emitsIds_pure _)) ?_
    rw [List.append_nil, flatMap_singleton_map]
  · rename_i hg
    rw [elems_of_guard_false hg]
    exact emitsIds_consoleOut _ _

theorem emitsIds_publishProxy (rt : Runtime) (post : PostOracle)
    (opcoName deploymentName envName : Value)
    (opcoS deploymentS envS envUniqueId : String) (proxy : Value)
    (henv : envUniqueId = opcoS ++ "_" ++ deploymentS ++ "_" ++ envS)
    (hpx : proxyCarries "uniqueId" proxy = false) :
    EmitsIds
      (publishProxy rt post opcoName deploymentName envName opcoS deploymentS envS
        envUniqueId proxy)
      (proxyIds envUniqueId proxy) := by
  simp only [proxyCarries, Bool.or_eq_false_iff, List.any_eq_false] at hpx
  obtain ⟨hc, hts⟩ := hpx
  subst henv
  unfold ApigwTopo.publishProxy
  refine emitsIds_liftE_bind (fun proxyName hget => ?_)
  refine emitsIds_liftE_bind (fun proxyS hs => ?_)
  refine emitsIds_console_bind ?_
  refine emitsIds_liftE_bind (fun created hcreated => ?_)
  refine emitsIds_liftE_bind (fun el hel => ?_)
  unfold proxyIds
  rw [field_of_get hget, text_of_toStr hs]
  refine emitsIds_node_bind ?_ (emitsIds_edge_bind (emitsIds_liftE_bind (fun tss hget' => ?_)))
  · rw [lookup_formatStamp hel (by decide), lookup_formatStamp hcreated (by decide),
      lookup_deleteField_ne _ _ _ (by decide), lookup_objectAssign_of_not_carries _ _ _ hc]
    simp [lookup]
  · rw [field_of_get hget'] at hts ⊢
    exact emitsIds_publishTargetServers rt post _ _ _ _ _ _ _ _ _ _ tss rfl
      (fun ts hmem => by simpa using hts ts hmem)

theorem emitsIds_publishProxies (rt : Runtime) (post : PostOracle)
    (opcoName deploymentName envName : Value)
    (opcoS deploymentS envS envUniqueId : String) (proxies : Value)
    (henv : envUniqueId = opcoS ++ "_" ++ deploymentS ++ "_" ++ envS)
    (hpx : ∀ px ∈ elems proxies, proxyCarries "uniqueId" px = false) :
    EmitsIds
      (publishProxies rt post opcoName deploymentName envName opcoS deploymentS envS
        envUniqueId proxies)
      ((elems proxies).flatMap (proxyIds envUniqueId)) := by
  unfold ApigwTopo.publishProxies
  split
  · refine emitsIds_liftE_bind (fun items hs => ?_)
    rw [elems_of_forOf hs] at hpx ⊢
    refine emitsIds_congr (emitsIds_bind (emitsIds_forEach items (fun px hmem =>
      emitsIds_publishProxy rt post _ _ _ _ _ _ envUniqueId px henv (hpx px hmem)))
      (fun _ => emitsIds_pure _)) ?_
    rw [List.append_nil]
  · rename_i hg
    rw [elems_of_guard_false hg]
    exact emitsIds_consoleOut _ _

theorem emitsIds_publishVirtualHost (post : PostOracle)
    (opcoName deploymentName envName : Value)
    (opcoS deploymentS envS envUniqueId : String) (virtualHost : Value)
    (henv : envUniqueId = opcoS ++ "_" ++ deploymentS ++ "_" ++ envS)
    (hvh : hostCarries "uniqueId" virtualHost = false) :
    EmitsIds
      (publishVirtualHost post opcoName deploymentName envName opcoS deploymentS envS
        envUniqueId virtualHost)
      [envUniqueId ++ "_" ++ (field "name" virtualHost).text] := by
  subst henv
  unfold ApigwTopo.publishVirtualHost
  refine emitsIds_liftE_bind (fun vHostName hget => ?_)
  refine emitsIds_liftE_bind (fun vHostS hs => ?_)
  refine emitsIds_console_bind ?_
  refine emitsIds_liftE_bind (fun flattened hfl => ?_)
  rw [field_of_get hget, text_of_toStr hs]
  refine emitsIds_node_bind ?_ (emitsIds_edge_bind (emitsIds_pure _))
  rw [lookup_objectAssign_of_not_carries _ _ _ (carries_flattenVirtualHost hfl hvh)]
  simp [lookup]

theorem emitsIds_publishVirtualHosts (rt : Runtime) (post : PostOracle)
    (opcoName deploymentName envName : Value)
    (opcoS deploymentS envS envUniqueId : String) (environment virtualHosts : Value)
    (henv : envUniqueId = opcoS ++ "_" ++ deploymentS ++ "_" ++ envS)
    (hvh : ∀ vh ∈ elems virtualHosts, hostCarries "uniqueId" vh = false) :
    EmitsIds
      (publishVirtualHosts rt post opcoName deploymentName envName opcoS deploymentS envS
        envUniqueId environment virtualHosts)
      ((elems virtualHosts).map
        (fun virtualHost => envUniqueId ++ "_" ++ (field "name" virtualHost).text)) := by
  unfold ApigwTopo.publishVirtualHosts
  split
  · refine emitsIds_liftE_bind (fun hosts hs => ?_)
    rw [elems_of_forOf hs] at hvh ⊢
    refine emitsIds_congr (emitsIds_bind (emitsIds_forEach hosts (fun vh hmem =>
      emitsIds_publishVirtualHost post _ _ _ _ _ _ envUniqueId vh henv (hvh vh hmem)))
      (fun _ => emitsIds_pure _)) ?_
    rw [List.append_nil, flatMap_singleton_map]
  · rename_i hg
    rw [elems_of_guard_false hg]
    exact emitsIds_console_bind (emitsIds_pure _)

theorem emitsIds_publishEnvironment (rt : Runtime) (post : PostOracle)
    (opcoName deploymentName : Value)
    (opcoS deploymentS deploymentUniqueName : String) (environment : Value)
    (hdep : deploymentUniqueName = opcoS ++ "_" ++ deploymentS)
    (henv : environmentCarries "uniqueId" environment = false) :
    EmitsIds
      (publishEnvironment rt post opcoName deploymentName opcoS deploymentS
        deploymentUniqueName environment)
      (environmentIds deploymentUniqueName environment) := by
  simp only [environmentCarries, Bool.or_eq_false_iff, List.any_eq_false] at henv
  obtain ⟨⟨hc, hvh⟩, hpx⟩ := henv
  subst hdep
  unfold ApigwTopo.publishEnvironment
  refine emitsIds_liftE_bind (fun envName hget => ?_)
  refine emitsIds_liftE_bind (fun envS hs => ?_)
  refine emitsIds_console_bind ?_
  refine emitsIds_liftE_bind (fun created hcreated => ?_)
  refine emitsIds_liftE_bind (fun modified hmodified => ?_)
  unfold environmentIds
  rw [field_of_get hget, text_of_toStr hs]
  refine emitsIds_node_bind ?_ (emitsIds_edge_bind (emitsIds_liftE_bind (fun vhs hv => ?_)))
  · rw [lookup_deleteField_ne _ _ _ (by decide), lookup_deleteField_ne _ _ _ (by decide),
      lookup_formatStamp hmodified (by decide), lookup_formatStamp hcreated (by decide),
      lookup_objectAssign_of_not_carries _ _ _ hc]
    simp [lookup]
  · rw [field_of_get hv] at hvh ⊢
    refine emitsIds_bind (emitsIds_publishVirtualHosts rt post _ _ _ _ _ _ _ _ vhs rfl
      (fun vh hmem => by simpa using hvh vh hmem)) (fun _ => ?_)
    refine emitsIds_liftE_bind (fun pxs hp => ?_)
    rw [field_of_get hp] at hpx ⊢
    refine emitsIds_congr (emitsIds_bind (emitsIds_publishProxies rt post _ _ _ _ _ _ _ pxs rfl
      (fun px hmem => by simpa using hpx px hmem)) (fun _ => emitsIds_pure _)) ?_
    rw [List.append_nil]

theorem emitsIds_publishEnvironments (rt : Runtime) (post : PostOracle)
    (opcoName deploymentName : Value) (opcoS deploymentS deploymentUniqueName : String)
    (opcoElement environmentsDetails : Value)
    (hdep : deploymentUniqueName = opcoS ++ "_" ++ deploymentS)
    (henv : ∀ env ∈ elems environmentsDetails, environmentCarries "uniqueId" env = false) :
    EmitsIds
      (publishEnvironments rt post opcoName deploymentName opcoS deploymentS
        deploymentUniqueName opcoElement environmentsDetails)
      ((elems environmentsDetails).flatMap (environmentIds deploymentUniqueName)) := by
  unfold ApigwTopo.publishEnvironments
  split
  · refine emitsIds_liftE_bind (fun envs hs => ?_)
    rw [elems_of_forOf hs] at henv ⊢
    refine emitsIds_congr (emitsIds_bind (emitsIds_forEach envs (fun env hmem =>
      emitsIds_publishEnvironment rt post _ _ _ _ deploymentUniqueName env hdep
        (henv env hmem))) (fun _ => emitsIds_pure _)) ?_
    rw [List.append_nil]
  · exact emitsIds_error _ _

theorem deploymentName_of_get {opcoElement deploymentDetails deploymentName : Value}
    (hget : opcoElement.get "deployment" = .ok deploymentDetails)
    (hname : (if deploymentDetails.truthy then deploymentDetails.get "name"
      else .ok deploymentDetails) = .ok deploymentName) :
    (field "name" (field "deployment" opcoElement)).truthy = deploymentName.truthy ∧
    (deploymentName.truthy = true →
      field "name" (field "deployment" opcoElement) = deploymentName) := by
  rw [field_of_get hget]
  by_cases ht : deploymentDetails.truthy = true
  · rw [if_pos ht] at hname
    rw [field_of_get hname]
    exact ⟨rfl, fun _ => rfl⟩
  · rw [if_neg ht] at hname
    cases hname
    have hf : (field "name" deploymentDetails).truthy = false := by
      cases deploymentDetails with
      | arr xs => exact absurd rfl ht
      | obj fs => exact absurd rfl ht
      | str s => simp [field, Value.get, Value.truthy]
      | _ => rfl
    simp only [Bool.not_eq_true] at ht
    rw [hf, ht]
    exact ⟨rfl, fun h => Bool.noConfusion h⟩

theorem emitsIds_publishDeployment (rt : Runtime) (post : PostOracle) (mapping : Fields)
    (opcoElement : Value) (hagg : aggregateCarries "uniqueId" opcoElement = false) :
    EmitsIds (publishDeployment rt post mapping opcoElement) (deploymentIds opcoElement) := by
  simp only [aggregateCarries, Bool.or_eq_false_iff, List.any_eq_false] at hagg
  obtain ⟨hc, henv⟩ := hagg
  unfold ApigwTopo.publishDeployment
  refine emitsIds_liftE_bind (fun opcoName hopco => ?_)
  refine emitsIds_liftE_bind (fun opcoS hs => ?_)
  refine emitsIds_liftE_bind (fun deploymentDetails hget => ?_)
  rw [field_of_get hget] at hc
  refine emitsIds_liftE_bind (fun deploymentName hname => ?_)
  refine emitsIds_liftE_bind (fun opcoIdS _ => ?_)
  obtain ⟨htruthy, hfield⟩ := deploymentName_of_get hget hname
  unfold deploymentIds
  rw [htruthy]
  split
  · rename_i ht
    rw [hfield ht, field_of_get hopco, text_of_toStr hs]
    refine emitsIds_liftE_bind (fun deploymentS hds => ?_)
    rw [text_of_toStr hds]
    refine emitsIds_console_bind ?_
    refine emitsIds_liftE_bind (fun created hcreated => ?_)
    refine emitsIds_liftE_bind (fun el hel => ?_)
    refine emitsIds_node_bind ?_ (emitsIds_edge_bind (emitsIds_liftE_bind (fun envs he => ?_)))
    · rw [lookup_formatStamp hel (by decide), lookup_formatStamp hcreated (by decide),
        lookup_deleteField_ne _ _ _ (by decide), lookup_objectAssign_of_not_carries _ _ _ hc]
      simp [lookup]
    · rw [field_of_get he] at henv ⊢
      exact emitsIds_publishEnvironments rt post _ _ _ _ _ _ envs rfl
        (fun env hmem => by simpa using henv env hmem)
  · exact emitsIds_console_bind (emitsIds_pure _)

theorem emitsIds_publishAll (rt : Runtime) (post : PostOracle) (data : Value)
    (mapping : Fields) (hdata : treeCarries "uniqueId" data = false) :
    EmitsIds (publishAll rt post data (.obj mapping)) (composedIds data) := by
  simp only [treeCarries, List.any_eq_false] at hdata
  unfold ApigwTopo.publishAll
  simp only
  refine emitsIds_liftE_bind (fun items hs => ?_)
  unfold composedIds
  rw [elems_of_forOf hs] at hdata ⊢
  refine emitsIds_congr (emitsIds_bind (emitsIds_forEach items (fun agg hmem =>
    emitsIds_publishDeployment rt post mapping agg (by simpa using hdata agg hmem)))
    (fun _ => emitsIds_pure _)) ?_
  rw [List.append_nil]

theorem emitsSomeIds_of_emitsIds {α : Type} {m : Pub α} {ids : List String}
    (h : EmitsIds m ids) : EmitsSomeIds m ids := by
  intro t
  obtain ⟨cs, h1, h2, _⟩ := h t
  exact ⟨cs, h1, h2⟩

theorem emitsSomeIds_silent {α : Type} {m : Pub α} (h : Silent m) (ids : List String) :
    EmitsSomeIds m ids :=
  fun t => ⟨[], by rw [List.append_nil]; exact h t, List.nil_prefix⟩

theorem emitsSomeIds_silent_bind {α β : Type} {m : Pub α} {f : α → Pub β} {ids : List String}
    (hm : Silent m) (hf : ∀ a, EmitsSomeIds (f a) ids) : EmitsSomeIds (m >>= f) ids := by
  intro t
  rw [Pub.bind_apply]
  have hs := hm t
  rcases e : m t with ⟨r, u⟩
  rw [e] at hs
  simp only at hs
  cases r with
  | error err => exact ⟨[], by simp [hs], List.nil_prefix⟩
  | ok a =>
    obtain ⟨cs, h1, h2⟩ := hf a u
    exact ⟨cs, by rw [h1, hs], h2⟩

theorem emitsSomeIds_transformDataAndSendToApi (rt : Runtime) (topo : HttpGet)
    (post : PostOracle) (data : Value) (hdata : treeCarries "uniqueId" data = false) :
    EmitsSomeIds (transformDataAndSendToApi rt topo post data) (composedIds data) := by
  unfold ApigwTopo.transformDataAndSendToApi
  split
  · refine emitsSomeIds_silent_bind (silent_liftE _) (fun _ => ?_)
    refine emitsSomeIds_silent_bind (silent_liftE _) (fun _ => ?_)
    refine emitsSomeIds_silent_bind (silent_consoleOut _ _) (fun _ => ?_)
    refine emitsSomeIds_silent_bind (silent_fetchTopologyData topo) (fun opcoTopoData => ?_)
    cases opcoTopoData with
    | obj mapping => exact emitsSomeIds_of_emitsIds (emitsIds_publishAll rt post data mapping hdata)
    | _ =>
      refine emitsSomeIds_silent ?_ _
      unfold ApigwTopo.publishAll
      exact silent_bind (silent_consoleOut _ _) (fun _ => silent_pure _)
  · exact emitsSomeIds_silent (silent_bind (silent_consoleOut _ _) (fun _ => silent_pure _)) _

/-! ## Composite identifiers -/

/-- C13, as amended. For every tree none of whose source documents carries an attribute
named `uniqueId` (for a virtual host: nor a property of that name), for every runtime,
opco lookup and pattern of POST outcomes, and whether the run completes or raises: the
unique ids of the published nodes are, in the order of the log, the first identifiers of
`composedIds`. These are, per aggregate with a present deployment name,
`{opco}_{deployment}`; per environment `{opco}_{deployment}_{environment}`; per
virtual host and per proxy the identifier of the environment followed by `_` and the
name; and per target server the identifier of the environment followed by `_` and the
target server's host, so that the name of the owning proxy is no part of it. -/
theorem published_ids_are_composed (rt : Runtime) (topo : HttpGet) (post : PostOracle)
    (data : Value) (hdata : treeCarries "uniqueId" data = false) :
    nodeIds (runPublisher rt topo post data).2.calls <+: (composedIds data).map Value.str := by
  obtain ⟨cs, h1, h2⟩ := emitsSomeIds_transformDataAndSendToApi rt topo post data hdata ⟨[], []⟩
  have h1' : (runPublisher rt topo post data).2.calls = cs := by
    simpa using h1
  rw [h1']
  exact h2

/-- Witness for C13: the five identifiers of the end-to-end scenario. -/
theorem published_ids_are_composed_witness :
    treeCarries "uniqueId" scenarioData = false ∧
    composedIds scenarioData = ["NL_apigw-nl", "NL_apigw-nl_prod", "NL_apigw-nl_prod_vh1",
      "NL_apigw-nl_prod_px1", "NL_apigw-nl_prod_1.2.3.4"] ∧
    nodeIds (runPublisher refRuntime scenarioLookup (fun _ _ => true) scenarioData).2.calls
      <+: (composedIds scenarioData).map Value.str :=
  ⟨by decide, by decide!,
    published_ids_are_composed refRuntime scenarioLookup (fun _ _ => true) scenarioData
      (by decide)⟩

/-- C13, counterexample. In the end-to-end scenario the backend node of the target
server at `1.2.3.4` of proxy `px1` is published as `NL_apigw-nl_prod_1.2.3.4`: the
identifier of the environment followed by `_` and the host, not the identifier of the
owning proxy followed by `_` and the host, which no node carries. And a virtual host
document with an attribute `uniqueId` of its own is published under that value, `zzz`. -/
theorem target_server_id_counterexample :
    nodeIds (runPublisher refRuntime scenarioLookup (fun _ _ => true) scenarioData).2.calls
      = [.str "NL_apigw-nl", .str "NL_apigw-nl_prod", .str "NL_apigw-nl_prod_vh1",
         .str "NL_apigw-nl_prod_px1", .str "NL_apigw-nl_prod_1.2.3.4"] ∧
    Value.str ("NL_apigw-nl_prod_px1" ++ "_" ++ "1.2.3.4") ∉
      nodeIds (runPublisher refRuntime scenarioLookup (fun _ _ => true) scenarioData).2.calls ∧
    nodeIds (runPublisher refRuntime scenarioLookup (fun _ _ => true)
        overriddenHostData).2.calls
      = [.str "NL_apigw-nl", .str "NL_apigw-nl_prod", .str "zzz"] := by
  have h : nodeIds (runPublisher refRuntime scenarioLookup (fun _ _ => true)
      scenarioData).2.calls
      = [.str "NL_apigw-nl", .str "NL_apigw-nl_prod", .str "NL_apigw-nl_prod_vh1",
         .str "NL_apigw-nl_prod_px1", .str "NL_apigw-nl_prod_1.2.3.4"] := by
    decide!
  have h' : nodeIds (runPublisher refRuntime scenarioLookup (fun _ _ => true)
      overriddenHostData).2.calls
      = [.str "NL_apigw-nl", .str "NL_apigw-nl_prod", .str "zzz"] := by
    decide!
  refine ⟨h, ?_, h'⟩
  rw [h]
  decide

/-! ## Texts joined by the separator -/

theorem list_split_first {x : Char} : ∀ {l₁ l₂ r₁ r₂ : List Char}, x ∉ l₁ → x ∉ l₂ →
    l₁ ++ x :: r₁ = l₂ ++ x :: r₂ → l₁ = l₂ ∧ r₁ = r₂
  | [], [], _, _, _, _, h => by
    simp only [List.nil_append, List.cons.injEq, true_and] at h
    exact ⟨rfl, h⟩
  | [], b :: l₂, _, _, _, h₂, h => by
    simp only [List.nil_append, List.cons_append, List.cons.injEq] at h
    exact absurd (by simp [h.1]) h₂
  | a :: l₁, [], _, _, h₁, _, h => by
    simp only [List.nil_append, List.cons_append, List.cons.injEq] at h
    exact absurd (by simp [h.1]) h₁
  | a :: l₁, b :: l₂, r₁, r₂, h₁, h₂, h => by
    simp only [List.cons_append, List.cons.injEq] at h
    obtain ⟨hl, hr⟩ := list_split_first
      (fun hm => h₁ (List.mem_cons_of_mem _ hm)) (fun hm => h₂ (List.mem_cons_of_mem _ hm)) h.2
    exact ⟨by rw [h.1, hl], hr⟩

theorem list_stem_eq {x : Char} : ∀ {l₁ l₂ r₁ r₂ : List Char}, x ∉ l₁ → x ∉ l₂ →
    (r₁ = [] ∨ ∃ y, r₁ = x :: y) → (r₂ = [] ∨ ∃ y, r₂ = x :: y) →
    l₁ ++ r₁ = l₂ ++ r₂ → l₁ = l₂
  | [], [], _, _, _, _, _, _, _ => rfl
  | [], b :: l₂, r₁, _, _, h₂, hr₁, _, h => by
    rcases hr₁ with rfl | ⟨y, rfl⟩
    · simp at h
    · simp only [List.nil_append, List.cons_append, List.cons.injEq] at h
      exact absurd (by simp [h.1]) h₂
  | a :: l₁, [], _, r₂, h₁, _, _, hr₂, h => by
    rcases hr₂ with rfl | ⟨y, rfl⟩
    · simp at h
    · simp only [List.nil_append, List.cons_append, List.cons.injEq] at h
      exact absurd (by simp [h.1]) h₁
  | a :: l₁, b :: l₂, r₁, r₂, h₁, h₂, hr₁, hr₂, h => by
    simp only [List.cons_append, List.cons.injEq] at h
    rw [h.1, list_stem_eq
      (fun hm => h₁ (List.mem_cons_of_mem _ hm)) (fun hm => h₂ (List.mem_cons_of_mem _ hm))
      hr₁ hr₂ h.2]

theorem string_append_cancel_left {a b c : String} (h : a ++ b = a ++ c) : b = c := by
  have h' := congrArg String.data h
  simp only [String.data_append] at h'
  exact String.ext (List.append_cancel_left h')

theorem string_split_first {a a' b b' : String} (ha : underscoreFree a = true)
    (ha' : underscoreFree a' = true) (h : a ++ "_" ++ b = a' ++ "_" ++ b') :
    a = a' ∧ b = b' := by
  simp only [underscoreFree, decide_eq_true_eq] at ha ha'
  have h' := congrArg String.data h
  simp only [String.data_append, List.append_assoc] at h'
  obtain ⟨h1, h2⟩ := list_split_first ha ha' h'
  exact ⟨String.ext h1, String.ext h2⟩

theorem tail_data {more : String} (h : more = "" ∨ ∃ x : String, more = "_" ++ x) :
    more.data = [] ∨ ∃ y, more.data = '_' :: y := by
  rcases h with rfl | ⟨x, rfl⟩
  · exact Or.inl rfl
  · exact Or.inr ⟨x.data, by simp [String.data_append]⟩

theorem string_stem_eq {k k' more more' : String} (hk : underscoreFree k = true)
    (hk' : underscoreFree k' = true) (hm : more = "" ∨ ∃ x : String, more = "_" ++ x)
    (hm' : more' = "" ∨ ∃ x : String, more' = "_" ++ x) (h : k ++ more = k' ++ more') :
    k = k' := by
  simp only [underscoreFree, decide_eq_true_eq] at hk hk'
  have h' := congrArg String.data h
  simp only [String.data_append] at h'
  exact String.ext (list_stem_eq hk hk' (tail_data hm) (tail_data hm') h')

/-- Two identifiers under `{stem}_{k}` and `{stem'}_{k'}` that coincide have the same
`k`, when the stems are one text or hold no `_`, and `k` and `k'` hold no `_`. -/
theorem under_key_eq {stem stem' k k' id : String}
    (hstem : stem = stem' ∨ (underscoreFree stem = true ∧ underscoreFree stem' = true))
    (hk : underscoreFree k = true) (hk' : underscoreFree k' = true)
    (h : Under (stem ++ "_" ++ k) id) (h' : Under (stem' ++ "_" ++ k') id) : k = k' := by
  obtain ⟨more, rfl, hm⟩ := h
  obtain ⟨more', heq, hm'⟩ := h'
  have heq' : stem ++ "_" ++ (k ++ more) = stem' ++ "_" ++ (k' ++ more') := by
    simpa [String.append_assoc] using heq
  have hrest : k ++ more = k' ++ more' := by
    rcases hstem with rfl | ⟨hs, hs'⟩
    · exact string_append_cancel_left heq'
    · exact (string_split_first hs hs' heq').2
  exact string_stem_eq hk hk' hm hm' hrest

theorem not_under_self {stem x id : String} (h : id = stem ++ "_" ++ x) : id ≠ stem := by
  intro hid
  rw [hid] at h
  have h' := congrArg String.length h
  simp [String.length_append] at h'
  have : ("_" : String).length = 1 := rfl
  omega

/-! ## Distinct names give distinct identifiers -/

theorem nodup_flatMap_of_keys {α β γ : Type} (f : α → List β) (k : α → γ) :
    ∀ l : List α, (l.map k).Nodup → (∀ x ∈ l, (f x).Nodup) →
      (∀ x ∈ l, ∀ x' ∈ l, ∀ y, y ∈ f x → y ∈ f x' → k x = k x') → (l.flatMap f).Nodup
  | [], _, _, _ => List.nodup_nil
  | x :: l, hk, hf, hsep => by
    rw [List.flatMap_cons, List.nodup_append]
    simp only [List.map_cons, List.nodup_cons] at hk
    refine ⟨hf x (by simp), nodup_flatMap_of_keys f k l hk.2 (fun z hz => hf z (by simp [hz]))
      (fun z hz z' hz' => hsep z (by simp [hz]) z' (by simp [hz'])), ?_⟩
    intro y hy hy'
    obtain ⟨x', hx', hyx'⟩ := List.mem_flatMap.mp hy'
    have hkey := hsep x (by simp) x' (by simp [hx']) y hy hyx'
    exact hk.1 (hkey ▸ List.mem_map_of_mem k hx')

theorem flatMap_filter_of_nil {α β : Type} (f : α → List β) (p : α → Bool)
    (h : ∀ x, p x = false → f x = []) (l : List α) :
    l.flatMap f = (l.filter p).flatMap f := by
  induction l with
  | nil => rfl
  | cons x l ih =>
    cases hp : p x with
    | true => simp [List.filter_cons, hp, ih]
    | false => simp [List.filter_cons, hp, ih, h x hp]

theorem environmentIds_eq (deploymentId : String) (environment : Value) :
    environmentIds deploymentId environment =
      (deploymentId ++ "_" ++ nameOf environment) ::
        (leafNames environment).map
          (fun n => deploymentId ++ "_" ++ nameOf environment ++ "_" ++ n) := by
  simp [environmentIds, leafNames, proxyIds, nameOf, hostOf, List.map_flatMap, List.map_map,
    Function.comp_def]
  rfl

theorem under_of_mem_environmentIds {deploymentId id : String} {environment : Value}
    (h : id ∈ environmentIds deploymentId environment) :
    Under (deploymentId ++ "_" ++ nameOf environment) id := by
  rw [environmentIds_eq] at h
  rcases List.mem_cons.mp h with rfl | hm
  · exact ⟨"", by simp, Or.inl rfl⟩
  · obtain ⟨n, _, rfl⟩ := List.mem_map.mp hm
    exact ⟨"_" ++ n, by simp [String.append_assoc], Or.inr ⟨n, rfl⟩⟩

theorem nodup_environmentIds (deploymentId : String) (environment : Value)
    (hleaf : (leafNames environment).Nodup) :
    (environmentIds deploymentId environment).Nodup := by
  rw [environmentIds_eq, List.nodup_cons]
  constructor
  · intro hm
    obtain ⟨n, _, hn⟩ := List.mem_map.mp hm
    exact not_under_self hn.symm rfl
  · exact hleaf.map (fun a b h => string_append_cancel_left h)

theorem nodup_environments (deploymentId : String) (envs : List Value)
    (hnames : (envs.map nameOf).Nodup)
    (hclean : ∀ env ∈ envs, underscoreFree (nameOf env) = true)
    (hleaf : ∀ env ∈ envs, (leafNames env).Nodup) :
    (envs.flatMap (environmentIds deploymentId)).Nodup :=
  nodup_flatMap_of_keys _ nameOf envs hnames
    (fun env h => nodup_environmentIds deploymentId env (hleaf env h))
    (fun x hx x' hx' _ hy hy' => under_key_eq (Or.inl rfl) (hclean x hx) (hclean x' hx')
      (under_of_mem_environmentIds hy) (under_of_mem_environmentIds hy'))

theorem deploymentIds_of_present {opcoElement : Value}
    (h : (field "name" (field "deployment" opcoElement)).truthy = true) :
    deploymentIds opcoElement =
      ((field "opco" opcoElement).text ++ "_" ++ deploymentNameOf opcoElement) ::
        (elems (field "environments" opcoElement)).flatMap
          (environmentIds ((field "opco" opcoElement).text ++ "_" ++
            deploymentNameOf opcoElement)) := by
  simp [deploymentIds, h, deploymentNameOf]

theorem under_of_mem_deploymentIds {opcoElement : Value} {id : String}
    (hp : (field "name" (field "deployment" opcoElement)).truthy = true)
    (h : id ∈ deploymentIds opcoElement) :
    Under ((field "opco" opcoElement).text ++ "_" ++ deploymentNameOf opcoElement) id := by
  rw [deploymentIds_of_present hp] at h
  rcases List.mem_cons.mp h with rfl | hm
  · exact ⟨"", by simp, Or.inl rfl⟩
  · obtain ⟨env, _, henv⟩ := List.mem_flatMap.mp hm
    obtain ⟨more, rfl, _⟩ := under_of_mem_environmentIds henv
    exact ⟨"_" ++ (nameOf env ++ more), by simp [String.append_assoc], Or.inr ⟨_, rfl⟩⟩

theorem nodup_deploymentIds (opcoElement : Value)
    (hp : (field "name" (field "deployment" opcoElement)).truthy = true)
    (hnames : ((elems (field "environments" opcoElement)).map nameOf).Nodup)
    (hclean : ∀ env ∈ elems (field "environments" opcoElement),
      underscoreFree (nameOf env) = true)
    (hleaf : ∀ env ∈ elems (field "environments" opcoElement), (leafNames env).Nodup) :
    (deploymentIds opcoElement).Nodup := by
  rw [deploymentIds_of_present hp, List.nodup_cons]
  refine ⟨?_, nodup_environments _ _ hnames hclean hleaf⟩
  intro hm
  obtain ⟨env, _, henv⟩ := List.mem_flatMap.mp hm
  obtain ⟨more, heq, _⟩ := under_of_mem_environmentIds henv
  have heq' : (field "opco" opcoElement).text ++ "_" ++ deploymentNameOf opcoElement
      = (field "opco" opcoElement).text ++ "_" ++ deploymentNameOf opcoElement ++ "_" ++
        (nameOf env ++ more) := by
    simpa [String.append_assoc] using heq
  exact not_under_self heq' rfl

theorem nodup_composedIds (data : Value) (h : idsSeparate data = true) :
    (composedIds data).Nodup := by
  simp only [idsSeparate, Bool.and_eq_true, decide_eq_true_eq, List.all_eq_true] at h
  obtain ⟨hnames, hagg⟩ := h
  have hpresent : ∀ agg ∈ publishedAggregates data,
      (field "name" (field "deployment" agg)).truthy = true :=
    fun agg hmem => (List.mem_filter.mp hmem).2
  unfold composedIds
  rw [flatMap_filter_of_nil deploymentIds
    (fun agg => (field "name" (field "deployment" agg)).truthy)
    (fun agg hf => by simp [deploymentIds, hf])]
  refine nodup_flatMap_of_keys _ deploymentNameOf _ hnames (fun agg hmem => ?_)
    (fun x hx x' hx' y hy hy' => ?_)
  · obtain ⟨⟨⟨_, _⟩, henvs⟩, hleaf⟩ := hagg agg hmem
    exact nodup_deploymentIds agg (hpresent agg hmem) henvs (fun env he => (hleaf env he).1)
      (fun env he => (hleaf env he).2)
  · exact under_key_eq (Or.inr ⟨(hagg x hx).1.1.1, (hagg x' hx').1.1.1⟩) (hagg x hx).1.1.2
      (hagg x' hx').1.1.2 (under_of_mem_deploymentIds (hpresent x hx) hy)
      (under_of_mem_deploymentIds (hpresent x' hx') hy')

/-- C15, as amended. For every tree none of whose source documents carries an attribute
named `uniqueId` (for a virtual host: nor a property of that name) and whose names keep
the identifiers apart (`idsSeparate`: opco codes, deployment names and environment
names hold no `_`; deployment names are pairwise distinct, and so are the environment
names of a deployment; within an environment the names of the virtual hosts, the names
of the proxies and the hosts of all target servers are pairwise distinct, taken
together), the unique ids of the published nodes are pairwise distinct, whatever the
runtime, the opco lookup and the outcomes of the POSTs, and whether the run completes
or raises. -/
theorem published_ids_distinct (rt : Runtime) (topo : HttpGet) (post : PostOracle)
    (data : Value) (hdata : treeCarries "uniqueId" data = false)
    (hsep : idsSeparate data = true) :
    (nodeIds (runPublisher rt topo post data).2.calls).Nodup := by
  obtain ⟨cs, h1, h2⟩ := emitsSomeIds_transformDataAndSendToApi rt topo post data hdata ⟨[], []⟩
  have h1' : (runPublisher rt topo post data).2.calls = cs := by
    simpa using h1
  rw [h1']
  have hn : ((composedIds data).map Value.str).Nodup :=
    (nodup_composedIds data hsep).map (fun a b h => by cases h; rfl)
  exact hn.sublist h2.sublist

/-- Witness for C15: the names of the end-to-end scenario keep its identifiers apart. -/
theorem published_ids_distinct_witness :
    (treeCarries "uniqueId" scenarioData = false ∧ idsSeparate scenarioData = true) ∧
    (nodeIds (runPublisher refRuntime scenarioLookup (fun _ _ => true)
      scenarioData).2.calls).Nodup :=
  ⟨⟨by decide, by decide!⟩,
    published_ids_distinct refRuntime scenarioLookup (fun _ _ => true) scenarioData
      (by decide) (by decide!)⟩

/-- C15, counterexample. Four trees whose names are pairwise distinct as the claim
asks, and whose runs publish two nodes under one identifier: a virtual host and a proxy
of one environment that share the name `x`; the target servers of two proxies of one
environment at the same host; the virtual host `b` of environment `a` next to the
environment `a_b`; and two virtual hosts that carry the same attribute `uniqueId`. -/
theorem distinct_names_shared_ids_counterexample :
    (namesDistinct sharedNameData = true ∧
      nodeIds (runPublisher refRuntime scenarioLookup (fun _ _ => true)
          sharedNameData).2.calls
        = [.str "NL_apigw-nl", .str "NL_apigw-nl_prod", .str "NL_apigw-nl_prod_x",
           .str "NL_apigw-nl_prod_x"] ∧
      ¬ (nodeIds (runPublisher refRuntime scenarioLookup (fun _ _ => true)
          sharedNameData).2.calls).Nodup) ∧
    (namesDistinct sharedHostData = true ∧
      nodeIds (runPublisher refRuntime scenarioLookup (fun _ _ => true)
          sharedHostData).2.calls
        = [.str "NL_apigw-nl", .str "NL_apigw-nl_prod", .str "NL_apigw-nl_prod_px1",
           .str "NL_apigw-nl_prod_1.2.3.4", .str "NL_apigw-nl_prod_px2",
           .str "NL_apigw-nl_prod_1.2.3.4"] ∧
      ¬ (nodeIds (runPublisher refRuntime scenarioLookup (fun _ _ => true)
          sharedHostData).2.calls).Nodup) ∧
    (namesDistinct underscoreData = true ∧
      nodeIds (runPublisher refRuntime scenarioLookup (fun _ _ => true)
          underscoreData).2.calls
        = [.str "NL_apigw-nl", .str "NL_apigw-nl_a", .str "NL_apigw-nl_a_b",
           .str "NL_apigw-nl_a_b"] ∧
      ¬ (nodeIds (runPublisher refRuntime scenarioLookup (fun _ _ => true)
          underscoreData).2.calls).Nodup) ∧
    (namesDistinct sharedOverrideData = true ∧
      nodeIds (runPublisher refRuntime scenarioLookup (fun _ _ => true)
          sharedOverrideData).2.calls
        = [.str "NL_apigw-nl", .str "NL_apigw-nl_prod", .str "zzz", .str "zzz"] ∧
      ¬ (nodeIds (runPublisher refRuntime scenarioLookup (fun _ _ => true)
          sharedOverrideData).2.calls).Nodup) := by
  have h₁ : nodeIds (runPublisher refRuntime scenarioLookup (fun _ _ => true)
      sharedNameData).2.calls
      = [.str "NL_apigw-nl", .str "NL_apigw-nl_prod", .str "NL_apigw-nl_prod_x",
         .str "NL_apigw-nl_prod_x"] := by
    decide!
  have h₂ : nodeIds (runPublisher refRuntime scenarioLookup (fun _ _ => true)
      sharedHostData).2.calls
      = [.str "NL_apigw-nl", .str "NL_apigw-nl_prod", .str "NL_apigw-nl_prod_px1",
         .str "NL_apigw-nl_prod_1.2.3.4", .str "NL_apigw-nl_prod_px2",
         .str "NL_apigw-nl_prod_1.2.3.4"] := by
    decide!
  have h₃ : nodeIds (runPublisher refRuntime scenarioLookup (fun _ _ => true)
      underscoreData).2.calls
      = [.str "NL_apigw-nl", .str "NL_apigw-nl_a", .str "NL_apigw-nl_a_b",
         .str "NL_apigw-nl_a_b"] := by
    decide!
  have h₄ : nodeIds (runPublisher refRuntime scenarioLookup (fun _ _ => true)
      sharedOverrideData).2.calls
      = [.str "NL_apigw-nl", .str "NL_apigw-nl_prod", .str "zzz", .str "zzz"] := by
    decide!
  have n₁ : namesDistinct sharedNameData = true := by decide!
  have n₂ : namesDistinct sharedHostData = true := by decide!
  have n₃ : namesDistinct underscoreData = true := by decide!
  have n₄ : namesDistinct sharedOverrideData = true := by decide!
  refine ⟨⟨n₁, h₁, ?_⟩, ⟨n₂, h₂, ?_⟩, ⟨n₃, h₃, ?_⟩, ⟨n₄, h₄, ?_⟩⟩
  · rw [h₁]
    decide
  · rw [h₂]
    decide
  · rw [h₃]
    decide
  · rw [h₄]
    decide

end ApigwTopo
